import Mathlib

/-!
# flow-storage-tracker: diff-aware ingestion and candidate scanning

A shallow embedding of `pg_db.go`, `script_result_handler.go`, `reporter.go` and
`candidate_scanner.go`, followed by the properties proved about it.

Conventions of the embedding:

* `uint64` and `int64` values are `Nat` and `Int`; every arithmetic step that can
  wrap in Go is written with an explicit reduction modulo `2 ^ 64`.
* A Go `map[flow.Address]T` is an association list with pairwise distinct keys.
  A `range` over a map visits the entries in an unspecified order, so every
  `range` site takes its own `RangeOrder`.
* The `storage` table is a list of rows with pairwise distinct addresses (the
  primary key).  The text column holds `address.Hex()`, which `flow.HexToAddress`
  inverts, so rows are keyed by the address itself.
* Backend calls that can fail (`Begin`, `Prepare`, `Query`, `Next`, `Scan`, `Exec`,
  `Commit`, `Rollback`) take their outcome from a fault plan.
* A `float64` that is a whole number is an `Int`; a conversion to `float64` and a
  `float64` addition round to the nearest value of 53 significant bits.
* The number of heights for which the runtime can allocate the result channel of
  `Scan` is a parameter, `maxFanOut`.
-/

namespace FlowStorageTracker

/-! ## Errors -/

/-- Go `error` values: a leaf error, `fmt.Errorf("ctx: %w", cause)`,
`fmt.Errorf("ctx %d: %w", i, cause)`, and a `*multierror.Error`. -/
inductive Err where
  | base (msg : String)
  | wrap (ctx : String) (cause : Err)
  | wrapAt (ctx : String) (i : Nat) (cause : Err)
  | multi (errs : List Err)

/-- Whether an error value is nil can be decided. -/
instance (o : Option Err) : Decidable (o = none) := Option.decidable_eq_none

/-- The errors held by `multierror.Append(err, rb)` followed by `ErrorOrNil()`, for a non-nil `err`:
a multierror `err` is extended (a multierror `rb` is flattened into it), any
other `err` becomes the first entry. -/
def multierrorAppend (err : Err) (rb : Option Err) : Err :=
  let tail : List Err :=
    match rb with
    | none => []
    | some (Err.multi rs) => rs
    | some r => [r]
  match err with
  | Err.multi es => Err.multi (es ++ tail)
  | e => Err.multi (e :: tail)

/-- The errors an error value stands for inside a multierror: the entries of a
multierror, the error itself otherwise. -/
def Err.parts : Err → List Err
  | Err.multi es => es
  | e => [e]

/-! ## Machine integers -/

/-- Go `int64(x)` for a `uint64` value `x`. -/
def toInt64 (x : Nat) : Int :=
  if x % 2 ^ 64 < 2 ^ 63 then ((x % 2 ^ 64 : Nat) : Int) else ((x % 2 ^ 64 : Nat) : Int) - 2 ^ 64

/-- Go unary minus on `int64` (wraps at `-2^63`). -/
def negInt64 (i : Int) : Int :=
  (-i + 2 ^ 63) % 2 ^ 64 - 2 ^ 63

/-- Go `a - b` on `uint64`. -/
def subU64 (a b : Nat) : Nat :=
  (a % 2 ^ 64 + 2 ^ 64 - b % 2 ^ 64) % 2 ^ 64

/-- Go `a + b` on `uint64`. -/
def addU64 (a b : Nat) : Nat :=
  (a + b) % 2 ^ 64

/-- Go `uint64(a - b)` for `int` values `a`, `b` (lengths). -/
def lenDiffU64 (a b : Nat) : Nat :=
  (((a : Int) - (b : Int)) % 2 ^ 64).toNat

/-! ## Addresses, Go maps, rows -/

/-- A `flow.Address`: its bytes. -/
abbrev Address := List Nat

/-- The Go struct `StoredAccountData`. -/
structure StoredAccountData where
  StorageUsed : Nat
  deriving DecidableEq, Repr

/-- A Go map keyed by address. -/
abbrev GoMap (α : Type) := List (Address × α)

/-- The Go statement `m[k] = v`. -/
def GoMap.assign {α : Type} : GoMap α → Address → α → GoMap α
  | [], k, v => [(k, v)]
  | (k', v') :: m, k, v => if k' = k then (k, v) :: m else (k', v') :: GoMap.assign m k v

/-- The Go expression `m[k]` with the presence flag. -/
def GoMap.get? {α : Type} : GoMap α → Address → Option α
  | [], _ => none
  | (k', v') :: m, k => if k' = k then some v' else GoMap.get? m k

/-- The keys of a Go map. -/
def GoMap.keys {α : Type} (m : GoMap α) : List Address := m.map Prod.fst

/-- The order in which one `range` statement visits the entries of a map. -/
structure RangeOrder where
  visit : {α : Type} → List α → List α
  perm : ∀ {α : Type} (l : List α), (visit l).Perm l

/-- Visit in stored order. -/
def RangeOrder.forward : RangeOrder := ⟨fun l => l, fun l => List.Perm.refl l⟩

/-- Visit in reverse stored order. -/
def RangeOrder.backward : RangeOrder := ⟨fun l => l.reverse, fun l => List.reverse_perm l⟩

/-- The Go struct `addressData`: one row of the `storage` table. -/
structure addressData where
  address : Address
  storageUsed : Nat
  blockHeight : Nat
  deriving DecidableEq, Repr

/-- The `storage` table. -/
abbrev Table := List addressData

/-- The addresses of a table. -/
def Table.addresses (t : Table) : List Address := t.map addressData.address

/-- The row stored for an address, if any. -/
def Table.find? (t : Table) (a : Address) : Option addressData :=
  List.find? (fun row => decide (row.address = a)) t

/-- One execution of the upsert statement of `PGDBTX.Set`:
`INSERT ... ON CONFLICT (address) DO UPDATE SET storage_used, block_height`. -/
def upsert : Table → Address → Nat → Nat → Table
  | [], a, v, h => [⟨a, v, h⟩]
  | row :: t, a, v, h => if row.address = a then ⟨a, v, h⟩ :: t else row :: upsert t a v h

/-! ## Fault plans -/

/-- Outcomes of `Begin`, `Commit` and `Rollback` of one transaction. -/
structure TxFaults where
  beginErr : Option Err
  commitErr : Option Err
  rollbackErr : Option Err

/-- Failures inside one `PGDBTX.Get`: `Prepare`, the `Query` of sub-query `k`, the
`Scan` of row `j` of sub-query `k`, and the call of `rows.Next()` that should
deliver row `j` of sub-query `k`: when that call fails it returns false and
leaves its error in `rows.Err()`. -/
structure GetFaults where
  prepareErr : Option Err
  queryErr : Nat → Option Err
  scanErr : Nat → Nat → Option Err
  nextErr : Nat → Nat → Option Err

/-- Failures inside one `PGDBTX.Set`: `Prepare`, the `k`-th `Exec`. -/
structure SetFaults where
  prepareErr : Option Err
  execErr : Nat → Option Err

/-- Failures inside one aggregate query: `Prepare`, `Query`, `Scan`. -/
structure AggFaults where
  prepareErr : Option Err
  queryErr : Option Err
  scanErr : Option Err

/-- No failure. -/
def TxFaults.none : TxFaults := ⟨Option.none, Option.none, Option.none⟩
/-- No failure. -/
def GetFaults.none : GetFaults :=
  ⟨Option.none, fun _ => Option.none, fun _ _ => Option.none, fun _ _ => Option.none⟩
/-- No failure. -/
def SetFaults.none : SetFaults := ⟨Option.none, fun _ => Option.none⟩
/-- No failure. -/
def AggFaults.none : AggFaults := ⟨Option.none, Option.none, Option.none⟩

/-! ## `pg_db.go` -/

/-- Go function `PGDB.TX`: begin, run `f` on the transaction, roll back on error, else commit.
`f` sees the committed table, works on its own copy and may assign the
variables `s` it captures.  Only a successful commit installs the copy. -/
def TX {σ : Type} (fx : TxFaults) (db : Table)
    (f : Table → σ → Table × σ × Option Err) (s : σ) : Table × σ × Option Err :=
  match fx.beginErr with
  | some e => (db, s, some e)
  | none =>
    match f db s with
    | (_, s', some e) => (db, s', some (multierrorAppend e fx.rollbackErr))
    | (work, s', none) =>
      match fx.commitErr with
      | some e => (db, s', some e)
      | none => (work, s', none)

/-- The batching threshold of `PGDBTX.Get`. -/
def batchSize : Nat := 100

/-- The rows a sub-query `WHERE address = ANY($1)` yields. -/
def queryRows (tbl : Table) (addresses : List Address) : Table :=
  tbl.filter (fun row => decide (row.address ∈ addresses))

/-- The `for rows.Next()` loop of `PGDBTX.Get` over the rows still to come.  The loop
ends when the rows are used up, and also when `rows.Next()` fails: `Get` never
reads `rows.Err()`, so the rows not yet delivered are dropped without an error. -/
def scanRows (nextErr scanErr : Nat → Option Err) :
    Nat → Table → GoMap StoredAccountData → Except Err (GoMap StoredAccountData)
  | _, [], results => Except.ok results
  | j, row :: rows, results =>
    match nextErr j with
    | some _ => Except.ok results
    | none =>
      match scanErr j with
      | some e => Except.error e
      | none =>
        scanRows nextErr scanErr (j + 1) rows
          (GoMap.assign results row.address ⟨row.storageUsed⟩)

/-- The state of the batching loop of `PGDBTX.Get`: the merged results and the
address slices of the sub-queries issued so far. -/
structure GetState where
  results : GoMap StoredAccountData
  issued : List (List Address)

/-- The error of a loop that used up its step budget. -/
def outOfFuel : Err := Err.base "out of fuel"

/-- The loop `for i := 0; i < len(allAddresses); i += batchSize` of `PGDBTX.Get`,
from index `i` on, as sub-query number `k`, run for at most `fuel` iterations.
`Get` allows `len(allAddresses)` iterations, which the loop never uses up
(`getLoop_total`, `Get_error_is_fault`). -/
def getLoop (gf : GetFaults) (tbl : Table) (allAddresses : List Address) :
    Nat → Nat → Nat → GetState → Except Err GetState
  | fuel, k, i, st =>
    if i < allAddresses.length then
      match fuel with
      | 0 => Except.error outOfFuel
      | fuel + 1 =>
        let last := if i + batchSize > allAddresses.length then allAddresses.length else i + batchSize
        let addresses := (allAddresses.drop i).take (last - i)
        match gf.queryErr k with
        | some e => Except.error e
        | none =>
          match scanRows (gf.nextErr k) (gf.scanErr k) 0 (queryRows tbl addresses) st.results with
          | Except.error e => Except.error e
          | Except.ok results =>
            getLoop gf tbl allAddresses fuel (k + 1) (i + batchSize)
              ⟨results, st.issued ++ [addresses]⟩
    else Except.ok st

/-- Go function `PGDBTX.Get` together with the sub-queries it issued. -/
def GetTraced (gf : GetFaults) (tbl : Table) (allAddresses : List Address) : Except Err GetState :=
  match gf.prepareErr with
  | some e => Except.error e
  | none => getLoop gf tbl allAddresses allAddresses.length 0 0 ⟨[], []⟩

/-- Go function `PGDBTX.Get`. -/
def Get (gf : GetFaults) (tbl : Table) (allAddresses : List Address) :
    Except Err (GoMap StoredAccountData) :=
  match GetTraced gf tbl allAddresses with
  | Except.error e => Except.error e
  | Except.ok st => Except.ok st.results

/-- The `for address, data := range address` loop of `PGDBTX.Set`, from the
`k`-th `Exec` on. -/
def setLoop (sf : SetFaults) (blockHeight : Nat) :
    Nat → List (Address × StoredAccountData) → Table → Table × Option Err
  | _, [], t => (t, none)
  | k, (a, d) :: rest, t =>
    match sf.execErr k with
    | some e => (t, some e)
    | none => setLoop sf blockHeight (k + 1) rest (upsert t a d.StorageUsed blockHeight)

/-- Go function `PGDBTX.Set`. -/
def Set (sf : SetFaults) (ord : RangeOrder) (tbl : Table) (blockHeight : Nat)
    (address : GoMap StoredAccountData) : Table × Option Err :=
  match sf.prepareErr with
  | some e => (tbl, some e)
  | none => setLoop sf blockHeight 0 (ord.visit address) tbl

/-- Scanning an aggregate value into a `*uint64`: a value that does not fit is a
scan error. -/
def scanU64 (v : Nat) : Except Err Nat :=
  if v < 2 ^ 64 then Except.ok v else Except.error (Err.base "value out of range")

/-- The shared shape of `GetTotalAccounts` and `GatTotalStorageUsed`. -/
def aggregate (af : AggFaults) (v : Nat) : Except Err Nat :=
  match af.prepareErr with
  | some e => Except.error e
  | none =>
    match af.queryErr with
    | some e => Except.error e
    | none =>
      match af.scanErr with
      | some e => Except.error e
      | none => scanU64 v

/-- Go function `PGDBTX.GetTotalAccounts`: `select count(1) from storage`. -/
def GetTotalAccounts (af : AggFaults) (tbl : Table) : Except Err Nat :=
  aggregate af tbl.length

/-- Go function `PGDBTX.GatTotalStorageUsed`: `select sum(storage_used) from storage`
(a `NULL` sum over the empty table reads as 0). -/
def GatTotalStorageUsed (af : AggFaults) (tbl : Table) : Except Err Nat :=
  aggregate af (tbl.map addressData.storageUsed).sum

/-- What looking up `a` must give after a `Get` over `listed`: the stored
`StorageUsed` when `a` is listed and has a record, nothing otherwise. -/
def storedFor (tbl : Table) (listed : List Address) (a : Address) : Option StoredAccountData :=
  if a ∈ listed then (Table.find? tbl a).map (fun row => ⟨row.storageUsed⟩) else none

/-- From the spec: the mapping one unbatched query over the whole list gives. -/
def GetUnbatched (tbl : Table) (allAddresses : List Address) : GoMap StoredAccountData :=
  (queryRows tbl allAddresses).foldl
    (fun results row => GoMap.assign results row.address ⟨row.storageUsed⟩) []

/-! ## `script_result_handler.go` -/

/-- The Go struct `dataChanges`. -/
structure dataChanges where
  newAddresses : Nat
  storageUsedChanged : Int
  deriving DecidableEq, Repr

/-- The Go type `ParsedProcessedAddressBatch`. -/
abbrev ParsedProcessedAddressBatch := GoMap StoredAccountData

/-- A `scan.ProcessedAddressBatch`: the block height and the script result, an
array of structs whose fields 0 and 1 are an address and a `UInt64`. -/
structure ProcessedAddressBatch where
  BlockHeight : Nat
  Result : List (Address × Nat)

/-- Go function `ParseProcessedSingleAddressBatchResult`.  A `cadence.Address` has as many
bytes as a `flow.Address`, so `flow.BytesToAddress` keeps them as they are. -/
def ParseProcessedSingleAddressBatchResult (value : Address × Nat) : Address × StoredAccountData :=
  (value.1, ⟨value.2⟩)

/-- Go function `ParseProcessedAddressBatch`. -/
def ParseProcessedAddressBatch (batch : ProcessedAddressBatch) : Nat × ParsedProcessedAddressBatch :=
  (batch.BlockHeight,
    batch.Result.foldl
      (fun parsedBatch account =>
        GoMap.assign parsedBatch (ParseProcessedSingleAddressBatchResult account).1
          (ParseProcessedSingleAddressBatchResult account).2)
      [])

/-- The function that makes a reporter call. -/
inductive Site where
  | firstReport
  | HandleUpdateResults
  deriving DecidableEq, Repr

/-- One call on the `Reporter`, with the value passed to it (the instruments behind the
reporter add `float64` of that value to a counter and to a gauge). -/
inductive Report where
  | ReportTotalAccountsIncreased (accounts : Nat)
  | ReportStorageUsedChanged (storageUsed : Int)
  deriving DecidableEq, Repr

/-- The handler: the store behind `db`, the calls made on `reporter` so far
(oldest first, each with the function that made it) and the flag. -/
structure ScriptResultHandler where
  db : Table
  reporter : List (Site × Report)
  notFirstReport : Bool

/-- What one `Handle` call meets: the fault plans of its two transactions and the
visiting orders of its four `range` statements over maps.  A failed
`rows.Next()` leaves the connection broken or the transaction aborted, so the
statement that follows `Get` in the transaction, the `Prepare` of `Set`, fails:
`failedNext` ties the two plans together accordingly. -/
structure HandleEnv where
  firstTx : TxFaults
  totalAccounts : AggFaults
  totalStorage : AggFaults
  updateTx : TxFaults
  get : GetFaults
  set : SetFaults
  rangeAddresses : RangeOrder
  rangeNew : RangeOrder
  rangeOld : RangeOrder
  rangeSet : RangeOrder
  failedNext : ∀ k j, get.nextErr k j ≠ none → set.prepareErr ≠ none

/-- Nothing fails and every `range` visits in stored order. -/
def HandleEnv.none : HandleEnv :=
  ⟨TxFaults.none, AggFaults.none, AggFaults.none, TxFaults.none, GetFaults.none, SetFaults.none,
    RangeOrder.forward, RangeOrder.forward, RangeOrder.forward, RangeOrder.forward,
    fun _ _ h => absurd rfl h⟩

/-- The `uint64` sum a `for ... += StorageUsed` loop leaves. -/
def sumStorageUsed (entries : List (Address × StoredAccountData)) : Nat :=
  entries.foldl (fun acc e => addU64 acc e.2.StorageUsed) 0

/-- The closure `UpdateState` passes to `TX`. -/
def updateStateTx (env : HandleEnv) (blockHeight : Nat) (batch : ParsedProcessedAddressBatch)
    (txn : Table) (changes : dataChanges) : Table × dataChanges × Option Err :=
  let allAddresses := (env.rangeAddresses.visit batch).map Prod.fst
  match Get env.get txn allAddresses with
  | Except.error e => (txn, changes, some e)
  | Except.ok allAccounts =>
    let newAddresses := lenDiffU64 allAddresses.length allAccounts.length
    let newStorageUsed := sumStorageUsed (env.rangeNew.visit batch)
    let oldStorageUsed := sumStorageUsed (env.rangeOld.visit allAccounts)
    let storageUsedChanged :=
      if newStorageUsed < oldStorageUsed then
        negInt64 (toInt64 (subU64 oldStorageUsed newStorageUsed))
      else
        toInt64 (subU64 newStorageUsed oldStorageUsed)
    match Set env.set env.rangeSet txn blockHeight batch with
    | (txn', e) => (txn', ⟨newAddresses, storageUsedChanged⟩, e)

/-- Go function `ScriptResultHandler.UpdateState`: the store after the call, the returned
`dataChanges` and the returned error. -/
def UpdateState (env : HandleEnv) (db : Table) (blockHeight : Nat)
    (batch : ParsedProcessedAddressBatch) : Table × dataChanges × Option Err :=
  TX env.updateTx db (updateStateTx env blockHeight batch) ⟨0, 0⟩

/-- Go function `ScriptResultHandler.HandleUpdateResults`. -/
def HandleUpdateResults (r : ScriptResultHandler) (results : dataChanges) :
    ScriptResultHandler × Option Err :=
  ({ r with reporter := r.reporter ++
      [(Site.HandleUpdateResults, Report.ReportTotalAccountsIncreased results.newAddresses),
       (Site.HandleUpdateResults, Report.ReportStorageUsedChanged results.storageUsedChanged)] },
    none)

/-- The closure `firstReport` passes to `TX`; it assigns `totalAccounts` and
`totalStorageUsed`. -/
def firstReportTx (env : HandleEnv) (txn : Table) (totals : Nat × Nat) :
    Table × (Nat × Nat) × Option Err :=
  match GetTotalAccounts env.totalAccounts txn with
  | Except.error e => (txn, (0, totals.2), some e)
  | Except.ok totalAccounts =>
    match GatTotalStorageUsed env.totalStorage txn with
    | Except.error e => (txn, (totalAccounts, 0), some e)
    | Except.ok totalStorageUsed => (txn, (totalAccounts, totalStorageUsed), none)

/-- Go function `ScriptResultHandler.firstReport`. -/
def firstReport (env : HandleEnv) (r : ScriptResultHandler) : ScriptResultHandler × Option Err :=
  match TX env.firstTx r.db (firstReportTx env) (0, 0) with
  | (db, _, some e) => ({ r with db := db }, some e)
  | (db, (totalAccounts, totalStorageUsed), none) =>
    ({ r with
        db := db
        reporter := r.reporter ++
          [(Site.firstReport, Report.ReportTotalAccountsIncreased totalAccounts),
           (Site.firstReport, Report.ReportStorageUsedChanged (toInt64 totalStorageUsed))] },
      none)

/-- The part of `Handle` after the first report, lines 70 to 79: parse the batch,
update the state, report the changes. -/
def handleBatch (env : HandleEnv) (r : ScriptResultHandler) (out : ProcessedAddressBatch) :
    ScriptResultHandler × Option Err :=
  match UpdateState env r.db (ParseProcessedAddressBatch out).1 (ParseProcessedAddressBatch out).2 with
  | (db, _, some e) => ({ r with db := db }, some e)
  | (db, updateResults, none) => HandleUpdateResults { r with db := db } updateResults

/-- Go function `ScriptResultHandler.Handle` (one call at a time: the limiter channel only
bounds how many calls are in flight). -/
def Handle (env : HandleEnv) (r : ScriptResultHandler) (out : ProcessedAddressBatch) :
    ScriptResultHandler × Option Err :=
  if r.notFirstReport then handleBatch env r out
  else
    match firstReport env { r with notFirstReport := true } with
    | (r1, some e) => (r1, some e)
    | (r1, none) => handleBatch env r1 out

/-! ### Quantities the specification speaks of -/

/-- The batch entries whose address already has a record, each with the stored
`StorageUsed`: the `K` pre-existing addresses. -/
def preExisting (db : Table) (batch : ParsedProcessedAddressBatch) : GoMap StoredAccountData :=
  batch.filterMap (fun e => (Table.find? db e.1).map (fun row => (e.1, ⟨row.storageUsed⟩)))

/-- The exact sum of the `StorageUsed` values of a map. -/
def totalStorageUsed (m : GoMap StoredAccountData) : Nat :=
  (m.map (fun e => e.2.StorageUsed)).sum

/-- The exact sum of `storage_used` over a table. -/
def Table.totalStorageUsed (t : Table) : Nat :=
  (t.map addressData.storageUsed).sum

/-! ### The instruments behind the reporter -/

/-- The distance between neighbouring `float64` values at the magnitude `n`: the
smallest power of two `q` with `n < 2 ^ 53 * q`, found in at most `fuel`
halvings (a finite `float64` is below `2 ^ 1024`). -/
def f64Quantum : Nat → Nat → Nat
  | 0, _ => 1
  | fuel + 1, n => if n < 2 ^ 53 then 1 else 2 * f64Quantum fuel (n / 2)

/-- The whole `float64` nearest to the natural number `n`, a tie going to the even
significand: a `float64` has 53 significant bits. -/
def roundF64Nat (n : Nat) : Nat :=
  let q := f64Quantum 1024 n
  let m := n / q
  let rest := n % q
  if 2 * rest < q then m * q
  else if q < 2 * rest then (m + 1) * q
  else if m % 2 = 0 then m * q
  else (m + 1) * q

/-- Go conversion `float64(i)` of an integer, and the rounding of a `float64` sum of
whole numbers: the nearest `float64`, which is again a whole number. -/
def roundF64 (i : Int) : Int :=
  if i < 0 then -(roundF64Nat i.natAbs : Int) else (roundF64Nat i.natAbs : Int)

/-- The whole number `i` is a `float64`: converting it changes nothing. -/
def Representable (i : Int) : Prop := roundF64 i = i

instance (i : Int) : Decidable (Representable i) :=
  inferInstanceAs (Decidable (roundF64 i = i))

/-- Modelled from the spec: the counter behind `totalAccounts`, "a counter that only
ever increases"; the Prometheus client is not among the sources.  It keeps the
additions of whole numbers that fit a `uint64` in the `uint64` `valInt`, and
any other addition in the `float64` `valBits`. -/
structure Counter where
  valInt : Nat
  valBits : Int

/-- Modelled from the spec: `Counter.Add` of the Prometheus client for a whole `v`
that is not negative.  When `float64(uint64(v))` is `v` the `uint64` is
raised, wrapping at `2 ^ 64`; otherwise, for `v = 2 ^ 64`, the `float64` is. -/
def Counter.Add (c : Counter) (v : Nat) : Counter :=
  if v < 2 ^ 64 then { c with valInt := addU64 c.valInt v }
  else { c with valBits := roundF64 (c.valBits + (v : Int)) }

/-- Modelled from the spec: the value the counter exposes,
`valBits + float64(valInt)`. -/
def Counter.get (c : Counter) : Int :=
  roundF64 (c.valBits + roundF64 (c.valInt : Int))

/-- Modelled from the spec: `Gauge.Add` of the Prometheus client, which is not among
the sources: the gauge holds one `float64`, "fed signed StorageUsedChanged (can
move the total value up or down, never reset)", and `Add` is a `float64`
addition. -/
def gaugeAdd (value v : Int) : Int := roundF64 (value + v)

/-- The two process-wide instruments of `reporter.go`: the counter `accounts_total`
and the `float64` of the gauge `storage_used`. -/
structure Instruments where
  totalAccounts : Counter
  totalStorageUsed : Int

/-- The instruments of a process that has reported nothing yet. -/
def Instruments.zero : Instruments := ⟨⟨0, 0⟩, 0⟩

/-- Go function `reporter.ReportTotalAccountsIncreased`:
`totalAccounts.Add(float64(accounts))`. -/
def ReportTotalAccountsIncreased (m : Instruments) (accounts : Nat) : Instruments :=
  { m with totalAccounts := m.totalAccounts.Add (roundF64Nat accounts) }

/-- Go function `reporter.ReportStorageUsedChanged`:
`totalStorageUsed.Add(float64(storageUsed))`. -/
def ReportStorageUsedChanged (m : Instruments) (storageUsed : Int) : Instruments :=
  { m with totalStorageUsed := gaugeAdd m.totalStorageUsed (roundF64 storageUsed) }

/-- One reporter call carried out on the instruments. -/
def Instruments.report (m : Instruments) : Report → Instruments
  | Report.ReportTotalAccountsIncreased accounts => ReportTotalAccountsIncreased m accounts
  | Report.ReportStorageUsedChanged storageUsed => ReportStorageUsedChanged m storageUsed

/-- The instruments of a process whose reporter calls so far are `log`, oldest
first. -/
def instruments (log : List (Site × Report)) : Instruments :=
  log.foldl (fun m e => m.report e.2) Instruments.zero

/-- What the counter `accounts_total` reads after the reporter calls of `log`. -/
def accountsTotalValue (log : List (Site × Report)) : Int :=
  (instruments log).totalAccounts.get

/-- What the gauge `storage_used` reads after the reporter calls of `log`. -/
def storageUsedValue (log : List (Site × Report)) : Int :=
  (instruments log).totalStorageUsed

/-- The exact sum of the values passed to `ReportTotalAccountsIncreased`, in unbounded
arithmetic (the counter itself is `instruments`). -/
def counterTotal : List (Site × Report) → Nat
  | [] => 0
  | (_, Report.ReportTotalAccountsIncreased n) :: log => n + counterTotal log
  | (_, Report.ReportStorageUsedChanged _) :: log => counterTotal log

/-- The exact sum of the values passed to `ReportStorageUsedChanged`, in unbounded
arithmetic (the gauge itself, which adds in `float64`, is `instruments`). -/
def gaugeTotal : List (Site × Report) → Int
  | [] => 0
  | (_, Report.ReportTotalAccountsIncreased _) :: log => gaugeTotal log
  | (_, Report.ReportStorageUsedChanged i) :: log => i + gaugeTotal log

/-- No 64-bit overflow while `UpdateState` handles `batch` on `db`: the map length
fits an `int`, neither `uint64` sum wraps, and their difference fits an `int64`. -/
def NoOverflow (db : Table) (batch : ParsedProcessedAddressBatch) : Prop :=
  batch.length < 2 ^ 63 ∧ totalStorageUsed batch < 2 ^ 64 ∧
    totalStorageUsed (preExisting db batch) < 2 ^ 64 ∧
    -(2 ^ 63 : Int) ≤ (totalStorageUsed batch : Int) - (totalStorageUsed (preExisting db batch) : Int) ∧
    (totalStorageUsed batch : Int) - (totalStorageUsed (preExisting db batch) : Int) < 2 ^ 63

/-- A sequence of `Handle` calls, each with what it meets. -/
abbrev Calls := List (HandleEnv × ProcessedAddressBatch)

/-- The handler after a sequence of `Handle` calls. -/
def HandleAll (r : ScriptResultHandler) : Calls → ScriptResultHandler
  | [] => r
  | (env, out) :: rest => HandleAll (Handle env r out).1 rest

/-- Every call of the sequence returns nil and meets no 64-bit overflow: not in
`UpdateState`, and not in `int64(totalStorageUsed)` when it reports the baseline. -/
def SuccessfulRun (r : ScriptResultHandler) : Calls → Prop
  | [] => True
  | (env, out) :: rest =>
    (Handle env r out).2 = none ∧
      NoOverflow r.db (ParseProcessedAddressBatch out).2 ∧
      (r.notFirstReport = false → Table.totalStorageUsed r.db < 2 ^ 63) ∧
      SuccessfulRun (Handle env r out).1 rest

/-- The counts of a run are whole numbers that `float64` holds exactly: the number
of records and the total `StorageUsed` of every store the calls pass through,
and the change of each from one call to the next. -/
def FloatExactRun (r : ScriptResultHandler) : Calls → Prop
  | [] => Representable (r.db.length : Int) ∧ Representable (Table.totalStorageUsed r.db : Int)
  | (env, out) :: rest =>
    Representable (r.db.length : Int) ∧ Representable (Table.totalStorageUsed r.db : Int) ∧
      Representable (((Handle env r out).1.db.length : Int) - (r.db.length : Int)) ∧
      Representable ((Table.totalStorageUsed (Handle env r out).1.db : Int) -
        (Table.totalStorageUsed r.db : Int)) ∧
      FloatExactRun (Handle env r out).1 rest

/-- The two reports of the baseline for a store: its number of records and its
total `StorageUsed`. -/
def baselinePair (db : Table) : List (Site × Report) :=
  [(Site.firstReport, Report.ReportTotalAccountsIncreased db.length),
   (Site.firstReport, Report.ReportStorageUsedChanged (toInt64 (Table.totalStorageUsed db)))]

/-- The baseline reports a sequence of calls on the handler `r` makes: those of the
first call when its `firstReport` returns nil, none otherwise. -/
def firstCallBaseline (r : ScriptResultHandler) : Calls → List (Site × Report)
  | [] => []
  | (env, _) :: _ =>
    if (firstReport env { r with notFirstReport := true }).2 = none then baselinePair r.db else []

/-! ## `candidate_scanner.go` -/

/-- What a Go call leaves: a returned value, or a run-time panic. -/
inductive Outcome (α : Type) where
  | panic
  | ret (a : α)

/-- Modelled from the spec: `ledger.KeyPart` of flow-go is not among the sources;
"each record has a key whose first component is a byte string". -/
structure KeyPart where
  Value : List Nat
  deriving DecidableEq, Repr

/-- Modelled from the spec: `ledger.Key` of flow-go is not among the sources; a key
is its sequence of components. -/
structure Key where
  KeyParts : List KeyPart
  deriving DecidableEq, Repr

/-- Modelled from the spec: `ledger.Payload` of flow-go is not among the sources; a
payload is represented by what its method `Key()` returns. -/
structure Payload where
  Key : Except Err Key

/-- Modelled from the spec: `ledger.TrieUpdate` of flow-go is not among the
sources; only its payloads are read. -/
structure TrieUpdate where
  Payloads : List Payload

/-- Modelled from the spec: a chunk message of the execution-data response,
represented by what `convert.MessageToChunkExecutionData` returns for it: an
error, or a chunk whose `TrieUpdate` may be nil. -/
structure ChunkMessage where
  converted : Except Err (Option TrieUpdate)

/-- Modelled from the spec: `entities.BlockExecutionData`, of which only
`GetChunkExecutionData()` is read. -/
structure BlockExecutionData where
  ChunkExecutionData : List ChunkMessage

/-- Modelled from the spec: `candidates.CandidatesResult` of flow-batch-scan is
not among the sources; "each either a partial CandidateSet or an error". -/
structure CandidatesResult where
  Addresses : GoMap Unit
  err : Option Err

/-- Modelled from the spec: `candidates.NewCandidatesResultError`, a result that
carries the error and no candidates. -/
def NewCandidatesResultError (err : Err) : CandidatesResult := ⟨[], some err⟩

/-- Modelled from the spec: `candidates.NewCandidatesResult`. -/
def NewCandidatesResult (addresses : GoMap Unit) : CandidatesResult := ⟨addresses, none⟩

/-- Modelled from the spec: `candidates.BlockRange`, "inclusive [start, end]
unsigned block-height interval". -/
structure BlockRange where
  Start : Nat
  End : Nat
  deriving DecidableEq, Repr

/-- Modelled from the spec: `convert.ErrEmptyMessage` of flow-go. -/
def ErrEmptyMessage : Err := Err.base "protobuf message is empty"

/-- Modelled from the spec: `flow.BytesToAddress` of flow-go-sdk for an address
length `n`: longer input keeps its last `n` bytes, shorter input is padded
with zero bytes on the left. -/
def BytesToAddress (n : Nat) (b : List Nat) : Address :=
  let b := if b.length > n then b.drop (b.length - n) else b
  List.replicate (n - b.length) 0 ++ b

/-- What a `CandidateScanner` works with: `flow.AddressLength`, the client call
`GetBlockByHeight` (its block ID or error) and the execution-data call
`GetExecutionDataByBlockID` (its `BlockExecutionData`, possibly nil, or error). -/
structure CandidateScanner where
  AddressLength : Nat
  GetBlockByHeight : Nat → Except Err Nat
  GetExecutionDataByBlockID : Nat → Except Err (Option BlockExecutionData)

/-- Go function `CandidateScanner.getBlockID`. -/
def getBlockID (s : CandidateScanner) (height : Nat) : Except Err Nat :=
  match s.GetBlockByHeight height with
  | Except.error e => Except.error e
  | Except.ok id => Except.ok id

/-- Go function `CandidateScanner.getExecutionData`. -/
def getExecutionData (s : CandidateScanner) (blockID : Nat) : Except Err (Option BlockExecutionData) :=
  match s.GetExecutionDataByBlockID blockID with
  | Except.error e => Except.error e
  | Except.ok resp => Except.ok resp

/-- The loop of `extractTrieUpdates`, from chunk index `i` on. -/
def extractChunks : Nat → List ChunkMessage → List TrieUpdate → Except Err (List TrieUpdate)
  | _, [], updates => Except.ok updates
  | i, c :: cs, updates =>
    match c.converted with
    | Except.error e => Except.error (Err.wrapAt "could not convert chunk" i e)
    | Except.ok (some trieUpdate) => extractChunks (i + 1) cs (updates ++ [trieUpdate])
    | Except.ok none => extractChunks (i + 1) cs updates

/-- Go function `CandidateScanner.extractTrieUpdates`. -/
def extractTrieUpdates (m : Option BlockExecutionData) : Except Err (List TrieUpdate) :=
  match m with
  | none => Except.error ErrEmptyMessage
  | some m => extractChunks 0 m.ChunkExecutionData []

/-- The inner loop of `scanBlock` over the payloads of one update.  Reading
`key.KeyParts[0]` of a key without parts panics. -/
def scanPayloads (n : Nat) : List Payload → GoMap Unit → Outcome (Except Err (GoMap Unit))
  | [], addresses => Outcome.ret (Except.ok addresses)
  | payload :: rest, addresses =>
    match payload.Key with
    | Except.error e => Outcome.ret (Except.error (Err.wrap "could not get payload key" e))
    | Except.ok key =>
      match key.KeyParts with
      | [] => Outcome.panic
      | part :: _ =>
        if part.Value.length ≠ n then scanPayloads n rest addresses
        else scanPayloads n rest (GoMap.assign addresses (BytesToAddress n part.Value) ())

/-- The outer loop of `scanBlock` over the updates. -/
def scanUpdates (n : Nat) : List TrieUpdate → GoMap Unit → Outcome (Except Err (GoMap Unit))
  | [], addresses => Outcome.ret (Except.ok addresses)
  | update :: rest, addresses =>
    match scanPayloads n update.Payloads addresses with
    | Outcome.panic => Outcome.panic
    | Outcome.ret (Except.error e) => Outcome.ret (Except.error e)
    | Outcome.ret (Except.ok addresses) => scanUpdates n rest addresses

/-- The part of `scanBlock` after `extractTrieUpdates`: lines 91 to 109. -/
def scanExtracted (n : Nat) (updates : List TrieUpdate) : Outcome CandidatesResult :=
  match scanUpdates n updates [] with
  | Outcome.panic => Outcome.panic
  | Outcome.ret (Except.error e) => Outcome.ret (NewCandidatesResultError e)
  | Outcome.ret (Except.ok addresses) => Outcome.ret (NewCandidatesResult addresses)

/-- Go function `CandidateScanner.scanBlock`. -/
def scanBlock (s : CandidateScanner) (blockHeight : Nat) : Outcome CandidatesResult :=
  match getBlockID s blockHeight with
  | Except.error e => Outcome.ret (NewCandidatesResultError (Err.wrap "could not get block ID" e))
  | Except.ok blockID =>
    match getExecutionData s blockID with
    | Except.error e =>
      Outcome.ret (NewCandidatesResultError (Err.wrap "could not get execution data" e))
    | Except.ok executionData =>
      match extractTrieUpdates executionData with
      | Except.error e =>
        Outcome.ret (NewCandidatesResultError (Err.wrap "could not convert execution data" e))
      | Except.ok updates => scanExtracted s.AddressLength updates

/-- The bytes of the first key component of a payload, when its key decodes and has
one. -/
def firstComponent (p : Payload) : Option (List Nat) :=
  match p.Key with
  | Except.error _ => none
  | Except.ok key => key.KeyParts.head?.map KeyPart.Value

/-- The first key components of all payloads of a list of trie updates. -/
def firstComponents : List TrieUpdate → List (List Nat)
  | [] => []
  | update :: rest => update.Payloads.filterMap firstComponent ++ firstComponents rest

/-- Modelled from the spec: `candidates.WaitForCandidateResults` of flow-batch-scan
is not among the sources.  It "must collect exactly that many results before
returning"; the "final result is the union of all partial sets; if one or more
tasks failed, the call as a whole fails, surfacing one underlying error", and
"a failing Scan call yields no candidates".  `candidatesChan` lists the results
in the order they arrive; with fewer than `expectedResults` of them the call
waits for ever (`none`).  The error surfaced is the first to arrive. -/
def WaitForCandidateResults (candidatesChan : List CandidatesResult) (expectedResults : Int) :
    Option CandidatesResult :=
  if candidatesChan.length < expectedResults.toNat then none
  else
    let collected := candidatesChan.take expectedResults.toNat
    match collected.find? (fun r => r.err.isSome) with
    | some r => some ⟨[], r.err⟩
    | none =>
      some ⟨collected.foldl
        (fun all r => r.Addresses.foldl (fun all e => GoMap.assign all e.1 ()) all) [], none⟩

/-- A run of the dispatch loop of `Scan`: whether the loop has ended, and the
heights for which a task was spawned, in order. -/
structure Dispatch where
  finished : Bool
  spawned : List Nat
  deriving DecidableEq, Repr

/-- The loop `for blockHeight <= blocks.End { go ...; blockHeight++ }` of `Scan`,
run for at most `fuel` iterations; `blockHeight` is a `uint64`. -/
def dispatch (blocksEnd : Nat) : Nat → Nat → List Nat → Dispatch
  | fuel, blockHeight, spawned =>
    if blockHeight ≤ blocksEnd then
      match fuel with
      | 0 => ⟨false, spawned⟩
      | fuel + 1 => dispatch blocksEnd fuel (addU64 blockHeight 1) (spawned ++ [blockHeight])
    else ⟨true, spawned⟩

/-- The `uint64` expression `blocks.End-blocks.Start+1` of `Scan`. -/
def channelCapacity (blocks : BlockRange) : Nat :=
  addU64 (subU64 blocks.End blocks.Start) 1

/-- The results of the spawned tasks, if none of them panics. -/
def taskResults : List (Outcome CandidatesResult) → Outcome (List CandidatesResult)
  | [] => Outcome.ret []
  | Outcome.panic :: _ => Outcome.panic
  | Outcome.ret r :: rest =>
    match taskResults rest with
    | Outcome.panic => Outcome.panic
    | Outcome.ret rs => Outcome.ret (r :: rs)

/-- Whether `make(chan candidates.CandidatesResult, capacity)` ends the program instead
of returning a channel.  It panics when `capacity` does not fit an `int`, and
with `makechan: size out of range` when the buffer exceeds the allocation limit
of the runtime; beyond what the machine has, the program is out of memory.
`maxFanOut` is the largest number of heights for which the runtime at hand can
allocate the result channel and the tasks of one `Scan` call. -/
def makeChanPanics (maxFanOut capacity : Nat) : Bool :=
  decide (2 ^ 63 ≤ capacity) || decide (maxFanOut < capacity)

/-- Go function `CandidateScanner.Scan` on a runtime that serves at most `maxFanOut`
heights, with the dispatch loop run for at most `fuel` iterations (`none`: the
call has not returned).  A panic in a task ends the program; `arrival` is the
order in which the tasks deliver their results. -/
def Scan (maxFanOut : Nat) (s : CandidateScanner) (arrival : RangeOrder) (fuel : Nat)
    (blocks : BlockRange) : Option (Outcome CandidatesResult) :=
  if makeChanPanics maxFanOut (channelCapacity blocks) then some Outcome.panic
  else
    match dispatch blocks.End fuel blocks.Start [] with
    | ⟨false, _⟩ => none
    | ⟨true, spawned⟩ =>
      match taskResults (spawned.map (scanBlock s)) with
      | Outcome.panic => some Outcome.panic
      | Outcome.ret results =>
        match WaitForCandidateResults (arrival.visit results) (toInt64 (channelCapacity blocks)) with
        | none => none
        | some r => some (Outcome.ret r)

/-! ## Concrete inputs -/

/-- Address `A` of the end-to-end scenario. -/
def addrA : Address := [0, 0, 0, 0, 0, 0, 0, 1]
/-- Address `B` of the end-to-end scenario. -/
def addrB : Address := [0, 0, 0, 0, 0, 0, 0, 2]
/-- Address `C` of the end-to-end scenario. -/
def addrC : Address := [0, 0, 0, 0, 0, 0, 0, 3]

/-- The store after the first batch of the end-to-end scenario. -/
def storeAB : Table := [⟨addrA, 100, 10⟩, ⟨addrB, 50, 10⟩]

/-- A batch that lowers `A` and adds `C`. -/
def batchAC : ParsedProcessedAddressBatch := [(addrA, ⟨80⟩), (addrC, ⟨5⟩)]

/-- Address `D`. -/
def addrD : Address := [0, 0, 0, 0, 0, 0, 0, 4]
/-- Address `E`. -/
def addrE : Address := [0, 0, 0, 0, 0, 0, 0, 5]

/-- A store of five accounts that use `2 ^ 62` bytes each. -/
def storeFive : Table :=
  [⟨addrA, 2 ^ 62, 1⟩, ⟨addrB, 2 ^ 62, 1⟩, ⟨addrC, 2 ^ 62, 1⟩, ⟨addrD, 2 ^ 62, 1⟩,
   ⟨addrE, 2 ^ 62, 1⟩]

/-- A batch over the five accounts of `storeFive` that raises `A` by 7 bytes. -/
def batchFive : ParsedProcessedAddressBatch :=
  [(addrA, ⟨2 ^ 62 + 7⟩), (addrB, ⟨2 ^ 62⟩), (addrC, ⟨2 ^ 62⟩), (addrD, ⟨2 ^ 62⟩),
   (addrE, ⟨2 ^ 62⟩)]

/-- A batch of two accounts that use `2 ^ 62` bytes each. -/
def batchHuge : ParsedProcessedAddressBatch := [(addrA, ⟨2 ^ 62⟩), (addrB, ⟨2 ^ 62⟩)]

/-- The first batch of the end-to-end scenario. -/
def scenarioBatch1 : ParsedProcessedAddressBatch := [(addrA, ⟨100⟩), (addrB, ⟨50⟩)]

/-- The second batch of the end-to-end scenario. -/
def scenarioBatch2 : ParsedProcessedAddressBatch := [(addrA, ⟨80⟩), (addrC, ⟨20⟩)]

/-- The fresh handler on the empty store. -/
def freshHandler : ScriptResultHandler := ⟨[], [], false⟩

/-- The two calls of the end-to-end scenario, nothing failing. -/
def scenarioCalls : Calls :=
  [(HandleEnv.none, ⟨10, [(addrA, 100), (addrB, 50)]⟩),
   (HandleEnv.none, ⟨11, [(addrA, 80), (addrC, 20)]⟩)]

/-- A first call whose `firstReport` transaction cannot begin. -/
def envFirstTxFails : HandleEnv :=
  { HandleEnv.none with firstTx := ⟨some (Err.base "connection refused"), none, none⟩ }

/-- A failing first call followed by a flawless one. -/
def callsFirstFails : Calls :=
  [(envFirstTxFails, ⟨10, [(addrA, 100), (addrB, 50)]⟩),
   (HandleEnv.none, ⟨10, [(addrA, 100), (addrB, 50)]⟩)]

/-- A call whose second `Exec` in `Set` fails, after the first one went through. -/
def envSecondExecFails : HandleEnv :=
  { HandleEnv.none with
    set := ⟨none, fun k => if k = 1 then some (Err.base "deadlock detected") else none⟩
    failedNext := fun _ _ h => absurd rfl h }

/-- The handler after the first batch of the end-to-end scenario. -/
def handlerAB : ScriptResultHandler :=
  ⟨storeAB,
    [(Site.firstReport, Report.ReportTotalAccountsIncreased 0),
     (Site.firstReport, Report.ReportStorageUsedChanged 0),
     (Site.HandleUpdateResults, Report.ReportTotalAccountsIncreased 2),
     (Site.HandleUpdateResults, Report.ReportStorageUsedChanged 150)],
    true⟩

/-- A list of 250 distinct addresses. -/
def addresses250 : List Address := (List.range 250).map (fun n => [0, 0, 0, 0, 0, 0, 0, n])

/-- A store with a record in each third of `addresses250` and one for an address that
is not listed. -/
def storeSparse : Table :=
  [⟨[0, 0, 0, 0, 0, 0, 0, 5], 11, 1⟩, ⟨[0, 0, 0, 0, 0, 0, 0, 150], 22, 2⟩,
   ⟨[0, 0, 0, 0, 0, 0, 1, 0], 44, 4⟩, ⟨[0, 0, 0, 0, 0, 0, 0, 249], 33, 3⟩]

/-- A payload whose key has the given first component and a second one. -/
def payloadOf (value : List Nat) : Payload := ⟨Except.ok ⟨[⟨value⟩, ⟨[1, 2, 3]⟩]⟩⟩

/-- A key component of 32 bytes that starts with the bytes of `addrA`. -/
def longComponent : List Nat := addrA ++ List.replicate 24 7

/-- A trie update with `A`, a component of 32 bytes that starts with `A`, and `B`. -/
def updateAB : TrieUpdate := ⟨[payloadOf addrA, payloadOf longComponent, payloadOf addrB]⟩

/-- A trie update with a component of 3 bytes and `A` again. -/
def updateA : TrieUpdate := ⟨[payloadOf [9, 9, 9], payloadOf addrA]⟩

/-- The execution data of one block: a chunk with `updateAB`, a chunk without a trie
update, a chunk with `updateA`. -/
def executionDataAB : BlockExecutionData :=
  ⟨[⟨Except.ok (some updateAB)⟩, ⟨Except.ok none⟩, ⟨Except.ok (some updateA)⟩]⟩

/-- A scanner for addresses of 8 bytes that finds `executionDataAB` at every height. -/
def scannerAB : CandidateScanner :=
  ⟨8, fun height => Except.ok height, fun _ => Except.ok (some executionDataAB)⟩

/-- A payload whose `Key()` returns a key without key parts and no error. -/
def payloadNoParts : Payload := ⟨Except.ok ⟨[]⟩⟩

/-- The execution data of one block: one chunk whose trie update holds a payload for
`A` and then a payload whose key has no parts. -/
def executionDataNoParts : BlockExecutionData :=
  ⟨[⟨Except.ok (some ⟨[payloadOf addrA, payloadNoParts]⟩)⟩]⟩

/-- A scanner for addresses of 8 bytes that finds `executionDataNoParts` at every
height. -/
def scannerNoParts : CandidateScanner :=
  ⟨8, fun height => Except.ok height, fun _ => Except.ok (some executionDataNoParts)⟩

/-- The execution data of one block that touches `C` and `A`. -/
def executionDataCA : BlockExecutionData :=
  ⟨[⟨Except.ok (some ⟨[payloadOf addrC, payloadOf addrA]⟩)⟩]⟩

/-- A scanner for addresses of 8 bytes that finds `executionDataAB` at height 3 and
`executionDataCA` at every other height. -/
def scannerByHeight : CandidateScanner :=
  ⟨8, fun height => Except.ok height,
    fun id => if id = 3 then Except.ok (some executionDataAB) else Except.ok (some executionDataCA)⟩

/-- Two trie updates: the first touches `B`, the second holds only a payload whose key
has no parts. -/
def updatesNoParts : List TrieUpdate := [⟨[payloadOf addrB]⟩, ⟨[payloadNoParts]⟩]

/-- A scanner for addresses of 8 bytes that finds the two updates of `updatesNoParts`,
one per chunk, at every height. -/
def scannerTwoChunks : CandidateScanner :=
  ⟨8, fun height => Except.ok height,
    fun _ => Except.ok (some ⟨[⟨Except.ok (some ⟨[payloadOf addrB]⟩)⟩,
      ⟨Except.ok (some ⟨[payloadNoParts]⟩)⟩]⟩)⟩

/-- A `Get` in which `rows.Next()` of the first sub-query delivers one row and then
fails. -/
def getNextFails : GetFaults :=
  ⟨none, fun _ => none, fun _ _ => none,
    fun k j => if k = 0 ∧ j = 1 then some (Err.base "unexpected EOF") else none⟩

/-- A trie update with payloads for `C`, for a key without key parts, and for `D`. -/
def updateCD : TrieUpdate := ⟨[payloadOf addrC, payloadNoParts, payloadOf addrD]⟩

/-- The execution data of one block: one chunk with `updateCD`. -/
def executionDataCD : BlockExecutionData := ⟨[⟨Except.ok (some updateCD)⟩]⟩

/-- A scanner for addresses of 8 bytes that finds `executionDataCD` at every height. -/
def scannerCD : CandidateScanner :=
  ⟨8, fun height => Except.ok height, fun _ => Except.ok (some executionDataCD)⟩

/-- A store of one record that uses `2 ^ 53 + 1` bytes. -/
def storeBig : Table := [⟨addrA, 9007199254740993, 10⟩]

/-- One flawless call that reports the unchanged `StorageUsed` of `A`. -/
def callsBig : Calls := [(HandleEnv.none, ⟨11, [(addrA, 9007199254740993)]⟩)]

/-- The fresh handler on `storeBig`. -/
def handlerBig : ScriptResultHandler := ⟨storeBig, [], false⟩

/-- An example of `maxFanOut`: the capacity beyond which `makechan` reports
`size out of range` for elements of 24 bytes when the runtime allocates at most
`2 ^ 48 - 96` bytes for the buffer. -/
def maxFanOutExample : Nat := 11728124029606

/-! # Lemmas and theorems -/

/-! ## Go maps -/

theorem GoMap.get?_assign {α : Type} (m : GoMap α) (k a : Address) (v : α) :
    GoMap.get? (GoMap.assign m k v) a = if k = a then some v else GoMap.get? m a := by
  induction m with
  | nil => simp [GoMap.assign, GoMap.get?]
  | cons e m ih =>
    obtain ⟨k', v'⟩ := e
    by_cases h : k' = k
    · subst h
      by_cases h2 : k' = a <;> simp [GoMap.assign, GoMap.get?, h2]
    · by_cases h2 : k' = a
      · subst h2
        have h3 : ¬ k = k' := fun h4 => h h4.symm
        simp [GoMap.assign, GoMap.get?, h, h3]
      · simp [GoMap.assign, GoMap.get?, h, h2, ih]

theorem GoMap.keys_assign {α : Type} (m : GoMap α) (k : Address) (v : α) :
    GoMap.keys (GoMap.assign m k v) = if k ∈ GoMap.keys m then GoMap.keys m else GoMap.keys m ++ [k] := by
  induction m with
  | nil => simp [GoMap.assign, GoMap.keys]
  | cons e m ih =>
    obtain ⟨k', v'⟩ := e
    simp only [GoMap.keys] at ih
    by_cases h : k' = k
    · subst h
      simp [GoMap.assign, GoMap.keys]
    · have h3 : ¬ k = k' := fun h4 => h h4.symm
      by_cases h2 : k ∈ List.map Prod.fst m
      · simp [GoMap.assign, GoMap.keys, h, h3, ih, h2]
      · simp [GoMap.assign, GoMap.keys, h, h3, ih, h2]

theorem GoMap.nodup_keys_assign {α : Type} (m : GoMap α) (k : Address) (v : α)
    (h : (GoMap.keys m).Nodup) : (GoMap.keys (GoMap.assign m k v)).Nodup := by
  rw [GoMap.keys_assign]
  split
  · exact h
  · rename_i hk
    exact List.Nodup.append h (List.nodup_singleton k) (by simpa using hk)

theorem GoMap.get?_eq_none {α : Type} (m : GoMap α) (a : Address) :
    GoMap.get? m a = none ↔ a ∉ GoMap.keys m := by
  induction m with
  | nil => simp [GoMap.get?, GoMap.keys]
  | cons e m ih =>
    obtain ⟨k', v'⟩ := e
    simp only [GoMap.keys] at ih
    by_cases h : k' = a
    · simp [GoMap.get?, GoMap.keys, h]
    · have h3 : ¬ a = k' := fun h4 => h h4.symm
      simp [GoMap.get?, GoMap.keys, h, h3, ih]

theorem GoMap.mem_iff_get? {α : Type} (m : GoMap α) (h : (GoMap.keys m).Nodup) (a : Address) (v : α) :
    (a, v) ∈ m ↔ GoMap.get? m a = some v := by
  induction m with
  | nil => simp [GoMap.get?]
  | cons e m ih =>
    obtain ⟨k', v'⟩ := e
    simp only [GoMap.keys, List.map_cons, List.nodup_cons] at h
    have ih := ih h.2
    by_cases hk : k' = a
    · subst hk
      have hn : ∀ w, (k', w) ∉ m := fun w hw => h.1 (List.mem_map_of_mem Prod.fst hw)
      simp [GoMap.get?, hn]
      exact eq_comm
    · have h3 : ¬ a = k' := fun h4 => hk h4.symm
      simp [GoMap.get?, hk, h3, ih]

theorem GoMap.perm_of_get?_eq {α : Type} (m₁ m₂ : GoMap α)
    (h₁ : (GoMap.keys m₁).Nodup) (h₂ : (GoMap.keys m₂).Nodup)
    (h : ∀ a, GoMap.get? m₁ a = GoMap.get? m₂ a) : List.Perm m₁ m₂ := by
  classical
  refine (List.perm_ext_iff_of_nodup (List.Nodup.of_map Prod.fst h₁) (List.Nodup.of_map Prod.fst h₂)).2 ?_
  rintro ⟨a, v⟩
  rw [GoMap.mem_iff_get? m₁ h₁, GoMap.mem_iff_get? m₂ h₂, h]

/-! ## The table -/

theorem Table.find?_upsert (t : Table) (a b : Address) (v h : Nat) :
    Table.find? (upsert t a v h) b = if a = b then some ⟨a, v, h⟩ else Table.find? t b := by
  induction t with
  | nil => simp [upsert, Table.find?]
  | cons row t ih =>
    simp only [Table.find?] at ih
    by_cases h1 : row.address = a
    · subst h1
      by_cases h2 : row.address = b <;> simp [upsert, Table.find?, h2]
    · by_cases h2 : row.address = b
      · subst h2
        have h3 : ¬ a = row.address := fun h4 => h1 h4.symm
        simp [upsert, Table.find?, h1, h3]
      · simp [upsert, Table.find?, h1, h2, ih]

theorem Table.addresses_upsert (t : Table) (a : Address) (v h : Nat) :
    Table.addresses (upsert t a v h) =
      if a ∈ Table.addresses t then Table.addresses t else Table.addresses t ++ [a] := by
  induction t with
  | nil => simp [upsert, Table.addresses]
  | cons row t ih =>
    simp only [Table.addresses] at ih
    by_cases h1 : row.address = a
    · subst h1
      simp [upsert, Table.addresses]
    · have h3 : ¬ a = row.address := fun h4 => h1 h4.symm
      by_cases h2 : a ∈ List.map addressData.address t
      · simp [upsert, Table.addresses, h1, h3, ih, h2]
      · simp [upsert, Table.addresses, h1, h3, ih, h2]

theorem Table.nodup_upsert (t : Table) (a : Address) (v h : Nat)
    (hn : (Table.addresses t).Nodup) : (Table.addresses (upsert t a v h)).Nodup := by
  rw [Table.addresses_upsert]
  split
  · exact hn
  · rename_i hk
    exact List.Nodup.append hn (List.nodup_singleton a) (by simpa using hk)

theorem Table.find?_eq_none (t : Table) (a : Address) :
    Table.find? t a = none ↔ a ∉ Table.addresses t := by
  simp [Table.find?, Table.addresses, List.find?_eq_none]

theorem Table.find?_address (t : Table) (a : Address) (row : addressData)
    (h : Table.find? t a = some row) : row.address = a ∧ row ∈ t := by
  unfold Table.find? at h
  have h1 := List.find?_some h
  have h2 := List.mem_of_find?_eq_some h
  exact ⟨by simpa using h1, h2⟩

theorem Table.length_upsert (t : Table) (a : Address) (v h : Nat) :
    (upsert t a v h).length = t.length + (if a ∈ Table.addresses t then 0 else 1) := by
  have h1 := congrArg List.length (Table.addresses_upsert t a v h)
  by_cases h2 : a ∈ Table.addresses t
  · rw [if_pos h2] at h1 ⊢
    simpa [Table.addresses] using h1
  · rw [if_neg h2] at h1 ⊢
    simpa [Table.addresses] using h1

/-- The value stored for an address, 0 without a record. -/
theorem Table.sum_upsert (t : Table) (a : Address) (v h : Nat) :
    ((upsert t a v h).map addressData.storageUsed).sum +
        ((Table.find? t a).map addressData.storageUsed).getD 0 =
      (t.map addressData.storageUsed).sum + v := by
  induction t with
  | nil => simp [upsert, Table.find?]
  | cons row t ih =>
    simp only [Table.find?] at ih
    by_cases h1 : row.address = a
    · simp [upsert, Table.find?, h1]; omega
    · simp [upsert, Table.find?, h1]; omega

theorem Table.filter_upsert (t : Table) (a b : Address) (v h : Nat)
    (hn : (Table.addresses t).Nodup) :
    (upsert t a v h).filter (fun row => decide (row.address = b)) =
      if a = b then [⟨a, v, h⟩] else t.filter (fun row => decide (row.address = b)) := by
  induction t with
  | nil => by_cases h2 : a = b <;> simp [upsert, h2]
  | cons row t ih =>
    simp only [Table.addresses, List.map_cons, List.nodup_cons] at hn
    have ih := ih hn.2
    by_cases h1 : row.address = a
    · subst h1
      by_cases h2 : row.address = b
      · subst h2
        have : ∀ r ∈ t, ¬ r.address = row.address := fun r hr he =>
          hn.1 (he ▸ List.mem_map_of_mem addressData.address hr)
        simp [upsert, List.filter_eq_nil_iff]
        exact this
      · simp [upsert, h2]
    · by_cases h2 : a = b
      · subst h2
        simp [upsert, h1] at ih ⊢
        exact ih
      · simp only [upsert, h1, if_false, h2] at ih ⊢
        by_cases h3 : row.address = b
        · simp [List.filter_cons, h3, ih]
        · simp [List.filter_cons, h3, ih]

/-! ## `Get` -/

theorem scanRows_ok (ne se : Nat → Option Err) (j : Nat) (rows : Table)
    (m m' : GoMap StoredAccountData) (hne : ∀ i, ne i = none)
    (h : scanRows ne se j rows m = Except.ok m') :
    m' = rows.foldl (fun results row => GoMap.assign results row.address ⟨row.storageUsed⟩) m := by
  induction rows generalizing j m with
  | nil => simp [scanRows] at h; exact h.symm
  | cons row rows ih =>
    simp only [scanRows, hne j] at h
    split at h
    · exact absurd h (by simp)
    · simpa using ih _ _ h

theorem scanRows_none (rows : Table) (j : Nat) (m : GoMap StoredAccountData) :
    scanRows (fun _ => none) (fun _ => none) j rows m =
      Except.ok (rows.foldl (fun results row => GoMap.assign results row.address ⟨row.storageUsed⟩) m) := by
  induction rows generalizing j m with
  | nil => simp [scanRows]
  | cons row rows ih => simp [scanRows, ih]

theorem scanRows_returns (ne : Nat → Option Err) (rows : Table) (j : Nat)
    (m : GoMap StoredAccountData) :
    ∃ m', scanRows ne (fun _ => none) j rows m = Except.ok m' := by
  induction rows generalizing j m with
  | nil => exact ⟨m, rfl⟩
  | cons row rows ih =>
    simp only [scanRows]
    cases ne j with
    | some e => exact ⟨m, rfl⟩
    | none => exact ih _ _

theorem mergeRows_get? (rows : Table) (m : GoMap StoredAccountData) (a : Address)
    (hn : (Table.addresses rows).Nodup) :
    GoMap.get? (rows.foldl (fun results row => GoMap.assign results row.address ⟨row.storageUsed⟩) m) a =
      (Table.find? rows a).elim (GoMap.get? m a) (fun row => some ⟨row.storageUsed⟩) := by
  induction rows generalizing m with
  | nil => simp [Table.find?]
  | cons row rows ih =>
    simp only [Table.addresses, List.map_cons, List.nodup_cons] at hn
    rw [List.foldl_cons, ih _ hn.2]
    by_cases h1 : row.address = a
    · subst h1
      have h2 : Table.find? rows row.address = none := (Table.find?_eq_none rows _).2 hn.1
      rw [h2]
      simp [Table.find?, GoMap.get?_assign]
    · have h2 : Table.find? (row :: rows) a = Table.find? rows a := by
        simp [Table.find?, h1]
      rw [h2, GoMap.get?_assign, if_neg h1]

theorem mergeRows_nodup (rows : Table) (m : GoMap StoredAccountData)
    (hm : (GoMap.keys m).Nodup) :
    (GoMap.keys (rows.foldl (fun results row => GoMap.assign results row.address ⟨row.storageUsed⟩) m)).Nodup := by
  induction rows generalizing m with
  | nil => simpa using hm
  | cons row rows ih =>
    rw [List.foldl_cons]
    exact ih _ (GoMap.nodup_keys_assign m _ _ hm)

theorem queryRows_nodup (tbl : Table) (addrs : List Address) (hn : (Table.addresses tbl).Nodup) :
    (Table.addresses (queryRows tbl addrs)).Nodup :=
  List.Nodup.sublist (List.Sublist.map _ (List.filter_sublist tbl)) hn

theorem find?_queryRows (tbl : Table) (addrs : List Address) (a : Address) :
    Table.find? (queryRows tbl addrs) a = if a ∈ addrs then Table.find? tbl a else none := by
  induction tbl with
  | nil => simp [queryRows, Table.find?]
  | cons row tbl ih =>
    simp only [queryRows, Table.find?] at ih
    by_cases h1 : row.address ∈ addrs
    · by_cases h2 : row.address = a
      · subst h2
        simp [queryRows, Table.find?, h1]
      · simp [queryRows, Table.find?, h1, h2, List.filter_cons, ih]
    · by_cases h2 : row.address = a
      · subst h2
        simp [queryRows, Table.find?, h1, List.filter_cons, ih]
      · simp [queryRows, Table.find?, h1, h2, List.filter_cons, ih]

theorem storedFor_step (tbl : Table) (done addrs : List Address) (m : GoMap StoredAccountData)
    (hn : (Table.addresses tbl).Nodup)
    (hm : ∀ a, GoMap.get? m a = storedFor tbl done a) (a : Address) :
    GoMap.get? ((queryRows tbl addrs).foldl
        (fun results row => GoMap.assign results row.address ⟨row.storageUsed⟩) m) a =
      storedFor tbl (done ++ addrs) a := by
  rw [mergeRows_get? _ _ _ (queryRows_nodup tbl addrs hn), find?_queryRows, hm]
  unfold storedFor
  by_cases h1 : a ∈ addrs
  · cases h2 : Table.find? tbl a <;> simp [h1, h2]
  · simp [h1]

theorem slice_length (all : List Address) (i : Nat) (h : i < all.length) :
    ((all.drop i).take ((if i + batchSize > all.length then all.length else i + batchSize) - i)).length
      ≤ batchSize ∧
    0 < ((all.drop i).take ((if i + batchSize > all.length then all.length else i + batchSize) - i)).length := by
  simp only [List.length_take, List.length_drop, batchSize]
  split <;> omega

theorem take_slice (all : List Address) (i : Nat) :
    all.take i ++ (all.drop i).take ((if i + batchSize > all.length then all.length else i + batchSize) - i)
      = all.take (i + batchSize) := by
  split
  · rename_i h
    rw [List.take_of_length_le (l := all.drop i) (by simp), List.take_append_drop,
      List.take_of_length_le (by omega)]
  · simp [List.take_add]

theorem getLoop_ok (gf : GetFaults) (tbl : Table) (all : List Address)
    (hn : (Table.addresses tbl).Nodup) (hnx : ∀ k j, gf.nextErr k j = none)
    (fuel k i : Nat) (st st' : GetState)
    (h : getLoop gf tbl all fuel k i st = Except.ok st')
    (h1 : ∀ a, GoMap.get? st.results a = storedFor tbl (all.take i) a)
    (h2 : (GoMap.keys st.results).Nodup)
    (h3 : st.issued.flatten = all.take i)
    (h4 : ∀ c ∈ st.issued, c.length ≤ batchSize ∧ 0 < c.length) :
    (∀ a, GoMap.get? st'.results a = storedFor tbl all a) ∧ (GoMap.keys st'.results).Nodup ∧
      st'.issued.flatten = all ∧ ∀ c ∈ st'.issued, c.length ≤ batchSize ∧ 0 < c.length := by
  induction fuel generalizing k i st with
  | zero =>
    unfold getLoop at h
    split at h
    · exact absurd h (by simp)
    · rename_i hi
      have h5 : all.take i = all := List.take_of_length_le (by omega)
      cases h
      rw [h5] at h1 h3
      exact ⟨h1, h2, h3, h4⟩
  | succ fuel ih =>
    unfold getLoop at h
    split at h
    · rename_i hi
      simp only at h
      split at h
      · exact absurd h (by simp)
      · split at h
        · exact absurd h (by simp)
        · rename_i results hs
          have hr := scanRows_ok _ _ _ _ _ _ (hnx k) hs
          subst hr
          refine ih _ _ _ h ?_ ?_ ?_ ?_
          · intro a
            rw [← take_slice]
            exact storedFor_step tbl _ _ _ hn h1 a
          · exact mergeRows_nodup _ _ h2
          · simp only [List.flatten_append, h3, List.flatten_cons, List.flatten_nil, List.append_nil]
            exact take_slice all i
          · intro c hc
            rcases List.mem_append.1 hc with hc | hc
            · exact h4 c hc
            · rw [List.mem_singleton] at hc
              subst hc
              exact slice_length all i hi
    · rename_i hi
      have h5 : all.take i = all := List.take_of_length_le (by omega)
      cases h
      rw [h5] at h1 h3
      exact ⟨h1, h2, h3, h4⟩

theorem GetTraced_ok (gf : GetFaults) (tbl : Table) (all : List Address)
    (hn : (Table.addresses tbl).Nodup) (hnx : ∀ k j, gf.nextErr k j = none) (st : GetState)
    (h : GetTraced gf tbl all = Except.ok st) :
    (∀ a, GoMap.get? st.results a = storedFor tbl all a) ∧ (GoMap.keys st.results).Nodup ∧
      st.issued.flatten = all ∧ ∀ c ∈ st.issued, c.length ≤ batchSize ∧ 0 < c.length := by
  unfold GetTraced at h
  split at h
  · exact absurd h (by simp)
  · exact getLoop_ok gf tbl all hn hnx _ _ _ _ _ h (by intro a; simp [GoMap.get?, storedFor])
      (by simp [GoMap.keys]) (by simp) (by simp)

theorem Get_ok (gf : GetFaults) (tbl : Table) (all : List Address)
    (hn : (Table.addresses tbl).Nodup) (hnx : ∀ k j, gf.nextErr k j = none)
    (m : GoMap StoredAccountData)
    (h : Get gf tbl all = Except.ok m) :
    (∀ a, GoMap.get? m a = storedFor tbl all a) ∧ (GoMap.keys m).Nodup := by
  unfold Get at h
  split at h
  · exact absurd h (by simp)
  · rename_i st hst
    cases h
    have := GetTraced_ok gf tbl all hn hnx st hst
    exact ⟨this.1, this.2.1⟩

theorem getLoop_total (gf : GetFaults) (tbl : Table) (all : List Address)
    (hq : ∀ k, gf.queryErr k = none) (hs : ∀ k j, gf.scanErr k j = none)
    (fuel k i : Nat) (st : GetState) (hf : all.length ≤ i + fuel) :
    ∃ st', getLoop gf tbl all fuel k i st = Except.ok st' := by
  induction fuel generalizing k i st with
  | zero =>
    unfold getLoop
    rw [if_neg (by omega)]
    exact ⟨st, rfl⟩
  | succ fuel ih =>
    unfold getLoop
    split
    · have h1 : gf.scanErr k = fun _ => none := funext (hs k)
      obtain ⟨m', hm'⟩ := scanRows_returns (gf.nextErr k) (queryRows tbl
        ((all.drop i).take ((if i + batchSize > all.length then all.length else i + batchSize) - i)))
        0 st.results
      simp only [hq k, h1, hm']
      exact ih _ _ _ (by simp only [batchSize]; omega)
    · exact ⟨st, rfl⟩

theorem GetTraced_total (gf : GetFaults) (tbl : Table) (all : List Address)
    (hp : gf.prepareErr = none)
    (hq : ∀ k, gf.queryErr k = none) (hs : ∀ k j, gf.scanErr k j = none) :
    ∃ st, GetTraced gf tbl all = Except.ok st := by
  unfold GetTraced
  rw [hp]
  exact getLoop_total gf tbl all hq hs _ _ _ _ (by omega)

theorem scanRows_error (ne se : Nat → Option Err) (j : Nat) (rows : Table)
    (m : GoMap StoredAccountData) (e : Err) (h : scanRows ne se j rows m = Except.error e) :
    ∃ i, se i = some e := by
  induction rows generalizing j m with
  | nil => simp [scanRows] at h
  | cons row rows ih =>
    simp only [scanRows] at h
    cases hn : ne j with
    | some e' => simp [hn] at h
    | none =>
    simp only [hn] at h
    cases hs : se j with
    | some e' =>
      simp only [hs, Except.error.injEq] at h
      exact ⟨j, by rw [hs, h]⟩
    | none =>
      simp only [hs] at h
      exact ih _ _ h

theorem getLoop_error (gf : GetFaults) (tbl : Table) (all : List Address)
    (fuel k i : Nat) (st : GetState) (e : Err) (hf : all.length ≤ i + fuel)
    (h : getLoop gf tbl all fuel k i st = Except.error e) :
    (∃ k, gf.queryErr k = some e) ∨ ∃ k j, gf.scanErr k j = some e := by
  induction fuel generalizing k i st with
  | zero =>
    unfold getLoop at h
    rw [if_neg (by omega)] at h
    simp at h
  | succ fuel ih =>
    unfold getLoop at h
    split at h
    · simp only at h
      cases hq : gf.queryErr k with
      | some e' =>
        simp only [hq, Except.error.injEq] at h
        exact Or.inl ⟨k, by rw [hq, h]⟩
      | none =>
        simp only [hq] at h
        split at h
        · rename_i e' hs
          simp only [Except.error.injEq] at h
          subst h
          obtain ⟨j, hj⟩ := scanRows_error _ _ _ _ _ _ hs
          exact Or.inr ⟨k, j, hj⟩
        · exact ih _ _ _ (by simp only [batchSize]; omega) h
    · simp at h

/-- An error of `Get` is the error of a failed backend call, never a used-up step
budget. -/
theorem Get_error_is_fault (gf : GetFaults) (tbl : Table) (all : List Address) (e : Err)
    (h : Get gf tbl all = Except.error e) :
    gf.prepareErr = some e ∨ (∃ k, gf.queryErr k = some e) ∨ ∃ k j, gf.scanErr k j = some e := by
  unfold Get GetTraced at h
  cases hp : gf.prepareErr with
  | some e' =>
    simp only [hp, Except.error.injEq] at h
    exact Or.inl (by rw [h])
  | none =>
    simp only [hp] at h
    split at h
    · rename_i e' hg
      simp only [Except.error.injEq] at h
      subst h
      exact Or.inr (getLoop_error gf tbl all _ _ _ _ _ (by omega) hg)
    · simp at h

theorem storedFor_eq_some (tbl : Table) (listed : List Address) (a : Address) (v : StoredAccountData) :
    storedFor tbl listed a = some v ↔
      a ∈ listed ∧ ∃ row ∈ tbl, row.address = a ∧ v = ⟨row.storageUsed⟩ ∧ Table.find? tbl a = some row := by
  unfold storedFor
  by_cases h1 : a ∈ listed
  · simp only [h1, if_true, true_and]
    constructor
    · intro h
      cases h2 : Table.find? tbl a with
      | none => simp [h2] at h
      | some row =>
        simp [h2] at h
        have := Table.find?_address tbl a row h2
        exact ⟨row, this.2, this.1, h.symm, rfl⟩
    · rintro ⟨row, _, _, hv, hf⟩
      simp [hf, hv]
  · simp [h1]

theorem storedFor_congr (tbl : Table) (l₁ l₂ : List Address) (h : ∀ a, a ∈ l₁ ↔ a ∈ l₂) (a : Address) :
    storedFor tbl l₁ a = storedFor tbl l₂ a := by
  unfold storedFor
  by_cases h1 : a ∈ l₁
  · rw [if_pos h1, if_pos ((h a).1 h1)]
  · rw [if_neg h1, if_neg (fun h2 => h1 ((h a).2 h2))]

theorem GetUnbatched_get? (tbl : Table) (all : List Address) (hn : (Table.addresses tbl).Nodup)
    (a : Address) : GoMap.get? (GetUnbatched tbl all) a = storedFor tbl all a := by
  have := storedFor_step tbl [] all [] hn (by intro a; simp [GoMap.get?, storedFor]) a
  simpa [GetUnbatched] using this

theorem GetUnbatched_nodup (tbl : Table) (all : List Address) :
    (GoMap.keys (GetUnbatched tbl all)).Nodup :=
  mergeRows_nodup _ _ (by simp [GoMap.keys])

theorem GoMap.mem_keys_iff {α : Type} (m : GoMap α) (a : Address) :
    a ∈ GoMap.keys m ↔ ∃ v, GoMap.get? m a = some v := by
  rw [← not_iff_not, ← GoMap.get?_eq_none]
  cases GoMap.get? m a <;> simp

/-! ## The pre-existing entries of a batch -/

theorem preExisting_get? (db : Table) (batch : ParsedProcessedAddressBatch) (a : Address) :
    GoMap.get? (preExisting db batch) a = storedFor db (GoMap.keys batch) a := by
  induction batch with
  | nil => simp [preExisting, GoMap.get?, storedFor, GoMap.keys]
  | cons e batch ih =>
    obtain ⟨k, d⟩ := e
    simp only [preExisting, storedFor, GoMap.keys] at ih ⊢
    by_cases h1 : k = a
    · subst h1
      cases h2 : Table.find? db k with
      | none =>
        simp only [List.filterMap_cons, h2, Option.map_none', ih]
        simp
      | some row => simp [List.filterMap_cons, h2, GoMap.get?]
    · have h3 : ¬ a = k := fun h4 => h1 h4.symm
      have h5 : (a ∈ List.map Prod.fst ((k, d) :: batch)) ↔ a ∈ List.map Prod.fst batch := by
        simp [h3]
      have h6 : (if a ∈ List.map Prod.fst ((k, d) :: batch) then
            Option.map (fun row => (⟨row.storageUsed⟩ : StoredAccountData)) (Table.find? db a) else none) =
          if a ∈ List.map Prod.fst batch then
            Option.map (fun row => (⟨row.storageUsed⟩ : StoredAccountData)) (Table.find? db a) else none := by
        by_cases h7 : a ∈ List.map Prod.fst batch
        · rw [if_pos h7, if_pos (h5.2 h7)]
        · rw [if_neg h7, if_neg (fun h8 => h7 (h5.1 h8))]
      rw [h6, ← ih]
      cases h2 : Table.find? db k with
      | none => simp [List.filterMap_cons, h2]
      | some row => simp [List.filterMap_cons, h2, GoMap.get?, h1]

theorem preExisting_keys_sublist (db : Table) (batch : ParsedProcessedAddressBatch) :
    List.Sublist (GoMap.keys (preExisting db batch)) (GoMap.keys batch) := by
  induction batch with
  | nil => simp [preExisting, GoMap.keys]
  | cons e batch ih =>
    obtain ⟨k, d⟩ := e
    simp only [preExisting, GoMap.keys] at ih ⊢
    cases h2 : Table.find? db k with
    | none => simpa [List.filterMap_cons, h2] using List.Sublist.cons _ ih
    | some row => simpa [List.filterMap_cons, h2] using ih

theorem preExisting_length_le (db : Table) (batch : ParsedProcessedAddressBatch) :
    (preExisting db batch).length ≤ batch.length :=
  List.length_filterMap_le _ _

theorem Get_perm_preExisting (gf : GetFaults) (db : Table) (batch : ParsedProcessedAddressBatch)
    (ord : RangeOrder) (hdb : (Table.addresses db).Nodup) (hb : (GoMap.keys batch).Nodup)
    (hnx : ∀ k j, gf.nextErr k j = none) (m : GoMap StoredAccountData)
    (h : Get gf db ((ord.visit batch).map Prod.fst) = Except.ok m) :
    List.Perm m (preExisting db batch) := by
  have h1 := Get_ok gf db _ hdb hnx m h
  refine GoMap.perm_of_get?_eq _ _ h1.2 (List.Nodup.sublist (preExisting_keys_sublist db batch) hb) ?_
  intro a
  rw [h1.1, preExisting_get?]
  refine storedFor_congr db _ _ ?_ a
  intro b
  exact (List.Perm.map Prod.fst (ord.perm batch)).mem_iff

/-! ## Machine arithmetic -/

theorem foldl_addU64 (l : List (Address × StoredAccountData)) (init : Nat) :
    l.foldl (fun acc e => addU64 acc e.2.StorageUsed) (init % 2 ^ 64) =
      (init + totalStorageUsed l) % 2 ^ 64 := by
  induction l generalizing init with
  | nil => simp [totalStorageUsed]
  | cons e l ih =>
    have h1 : addU64 (init % 2 ^ 64) e.2.StorageUsed = (init + e.2.StorageUsed) % 2 ^ 64 := by
      simp [addU64, Nat.add_mod]
    rw [List.foldl_cons, h1, ih]
    simp [totalStorageUsed, Nat.add_assoc]

theorem sumStorageUsed_eq (l : List (Address × StoredAccountData)) :
    sumStorageUsed l = totalStorageUsed l % 2 ^ 64 := by
  have := foldl_addU64 l 0
  simpa [sumStorageUsed] using this

theorem totalStorageUsed_perm (l₁ l₂ : List (Address × StoredAccountData)) (h : List.Perm l₁ l₂) :
    totalStorageUsed l₁ = totalStorageUsed l₂ :=
  List.Perm.sum_eq (List.Perm.map _ h)

/-- The difference `UpdateState` computes always fits an `int64`. -/
theorem storageUsedChanged_range (n o : Nat) :
    -(2 ^ 63 : Int) ≤ (if n < o then negInt64 (toInt64 (subU64 o n)) else toInt64 (subU64 n o)) ∧
    (if n < o then negInt64 (toInt64 (subU64 o n)) else toInt64 (subU64 n o)) < (2 ^ 63 : Int) := by
  unfold negInt64 toInt64 subU64
  split <;> split <;> omega

/-- The difference `UpdateState` computes from the two wrapped sums is the exact
difference of the sums whenever that difference fits an `int64`. -/
theorem storageUsedChanged_mod (new old : Nat)
    (hlo : -(2 ^ 63 : Int) ≤ (new : Int) - (old : Int)) (hhi : (new : Int) - (old : Int) < 2 ^ 63) :
    (if new % 2 ^ 64 < old % 2 ^ 64 then
        negInt64 (toInt64 (subU64 (old % 2 ^ 64) (new % 2 ^ 64)))
      else toInt64 (subU64 (new % 2 ^ 64) (old % 2 ^ 64))) =
      (new : Int) - (old : Int) := by
  unfold negInt64 toInt64 subU64
  split <;> split <;> omega

theorem lenDiffU64_exact (a b : Nat) (hb : b ≤ a) (ha : a < 2 ^ 63) : lenDiffU64 a b = a - b := by
  unfold lenDiffU64
  omega

/-! ## `UpdateState` -/

theorem UpdateState_success (env : HandleEnv) (db : Table) (h : Nat)
    (batch : ParsedProcessedAddressBatch) (hok : (UpdateState env db h batch).2.2 = none) :
    ∃ m, Get env.get db ((env.rangeAddresses.visit batch).map Prod.fst) = Except.ok m ∧
      (Set env.set env.rangeSet db h batch).2 = none ∧
      env.updateTx.beginErr = none ∧ env.updateTx.commitErr = none ∧
      UpdateState env db h batch =
        ((Set env.set env.rangeSet db h batch).1,
          ⟨lenDiffU64 ((env.rangeAddresses.visit batch).map Prod.fst).length m.length,
            if sumStorageUsed (env.rangeNew.visit batch) < sumStorageUsed (env.rangeOld.visit m) then
              negInt64 (toInt64 (subU64 (sumStorageUsed (env.rangeOld.visit m))
                (sumStorageUsed (env.rangeNew.visit batch))))
            else
              toInt64 (subU64 (sumStorageUsed (env.rangeNew.visit batch))
                (sumStorageUsed (env.rangeOld.visit m)))⟩,
          none) := by
  unfold UpdateState TX at hok
  cases hb : env.updateTx.beginErr with
  | some e => simp [hb] at hok
  | none =>
    simp only [hb] at hok
    unfold updateStateTx at hok
    cases hg : Get env.get db ((env.rangeAddresses.visit batch).map Prod.fst) with
    | error e => simp [hg] at hok
    | ok m =>
      simp only [hg] at hok
      cases hs : Set env.set env.rangeSet db h batch with
      | mk db' e =>
        cases e with
        | some e => simp [hs] at hok
        | none =>
          simp only [hs] at hok
          cases hc : env.updateTx.commitErr with
          | some e => simp [hc] at hok
          | none =>
            refine ⟨m, rfl, rfl, rfl, rfl, ?_⟩
            simp [UpdateState, TX, updateStateTx, hb, hg, hs, hc]


theorem Set_prepared (sf : SetFaults) (ord : RangeOrder) (tbl : Table) (h : Nat)
    (batch : GoMap StoredAccountData) (hok : (Set sf ord tbl h batch).2 = none) :
    sf.prepareErr = none := by
  unfold Set at hok
  cases hp : sf.prepareErr with
  | none => rfl
  | some e => simp [hp] at hok

/-- What a successful `UpdateState` returns. -/
theorem UpdateState_changes (env : HandleEnv) (db : Table) (h : Nat)
    (batch : ParsedProcessedAddressBatch)
    (hdb : (Table.addresses db).Nodup) (hb : (GoMap.keys batch).Nodup)
    (hlen : batch.length < 2 ^ 63)
    (hok : (UpdateState env db h batch).2.2 = none) :
    (UpdateState env db h batch).2.1.newAddresses = batch.length - (preExisting db batch).length ∧
    (preExisting db batch).length ≤ batch.length ∧
    (UpdateState env db h batch).2.1.newAddresses ≤ batch.length ∧
    ((UpdateState env db h batch).2.1.storageUsedChanged =
        (totalStorageUsed batch : Int) - (totalStorageUsed (preExisting db batch) : Int) ↔
      -(2 ^ 63 : Int) ≤ (totalStorageUsed batch : Int) - (totalStorageUsed (preExisting db batch) : Int) ∧
      (totalStorageUsed batch : Int) - (totalStorageUsed (preExisting db batch) : Int) < 2 ^ 63) := by
  obtain ⟨m, hg, hs, _, _, hu⟩ := UpdateState_success env db h batch hok
  have hnx : ∀ k j, env.get.nextErr k j = none := by
    intro k j
    by_contra hne
    exact env.failedNext k j hne (Set_prepared _ _ _ _ _ hs)
  have hperm := Get_perm_preExisting env.get db batch env.rangeAddresses hdb hb hnx m hg
  have hK := preExisting_length_le db batch
  have hN : ((env.rangeAddresses.visit batch).map Prod.fst).length = batch.length := by
    rw [List.length_map]
    exact (env.rangeAddresses.perm batch).length_eq
  have hnew : (UpdateState env db h batch).2.1.newAddresses =
      batch.length - (preExisting db batch).length := by
    rw [hu]
    simp only
    rw [hN, hperm.length_eq]
    exact lenDiffU64_exact _ _ hK hlen
  refine ⟨hnew, hK, by rw [hnew]; omega, ?_⟩
  rw [hu]
  simp only
  have e1 : sumStorageUsed (env.rangeNew.visit batch) = totalStorageUsed batch % 2 ^ 64 := by
    rw [sumStorageUsed_eq, totalStorageUsed_perm _ _ (env.rangeNew.perm batch)]
  have e2 : sumStorageUsed (env.rangeOld.visit m) =
      totalStorageUsed (preExisting db batch) % 2 ^ 64 := by
    rw [sumStorageUsed_eq, totalStorageUsed_perm _ _ ((env.rangeOld.perm m).trans hperm)]
  rw [e1, e2]
  constructor
  · intro heq
    have hr := storageUsedChanged_range (totalStorageUsed batch % 2 ^ 64)
      (totalStorageUsed (preExisting db batch) % 2 ^ 64)
    rw [heq] at hr
    exact hr
  · rintro ⟨h3, h4⟩
    exact storageUsedChanged_mod _ _ h3 h4

/-- C1 (amended): for every store with pairwise distinct addresses and every parsed
batch of `N` distinct addresses (`N` within `int`) of which `K` already have a
record, a successful `UpdateState` returns `newAddresses = N - K`, so
`0 ≤ newAddresses ≤ N`; and `storageUsedChanged` is the sum of the new values
over all `N` addresses minus the sum of the stored values of the `K`
pre-existing ones exactly when that difference fits an `int64`, also when the
two `uint64` sums wrap. -/
theorem UpdateState_delta (env : HandleEnv) (db : Table) (h : Nat)
    (batch : ParsedProcessedAddressBatch)
    (hdb : (Table.addresses db).Nodup) (hb : (GoMap.keys batch).Nodup)
    (hlen : batch.length < 2 ^ 63)
    (hok : (UpdateState env db h batch).2.2 = none) :
    (UpdateState env db h batch).2.1.newAddresses = batch.length - (preExisting db batch).length ∧
    (preExisting db batch).length ≤ batch.length ∧
    (UpdateState env db h batch).2.1.newAddresses ≤ batch.length ∧
    ((UpdateState env db h batch).2.1.storageUsedChanged =
        (totalStorageUsed batch : Int) - (totalStorageUsed (preExisting db batch) : Int) ↔
      -(2 ^ 63 : Int) ≤ (totalStorageUsed batch : Int) - (totalStorageUsed (preExisting db batch) : Int) ∧
      (totalStorageUsed batch : Int) - (totalStorageUsed (preExisting db batch) : Int) < 2 ^ 63) :=
  UpdateState_changes env db h batch hdb hb hlen hok

/-- Witness for C1: the store holds `A` (100) and `B` (50); the batch sets `A` to 80
and adds `C` with 5, so one address is new and the change is `85 - 100 = -15`.
On a store of five accounts of `2 ^ 62` bytes a batch that raises one of them by
7 makes both `uint64` sums wrap, and the change returned is 7. -/
theorem UpdateState_delta_witness :
    (UpdateState HandleEnv.none storeAB 11 batchAC).2.2 = none ∧
    (UpdateState HandleEnv.none storeAB 11 batchAC).2.1.newAddresses = 2 - 1 ∧
    (UpdateState HandleEnv.none storeAB 11 batchAC).2.1.storageUsedChanged = (85 : Int) - 100 ∧
    2 ^ 64 ≤ totalStorageUsed batchFive ∧ 2 ^ 64 ≤ totalStorageUsed (preExisting storeFive batchFive) ∧
    (UpdateState HandleEnv.none storeFive 12 batchFive).2.1.newAddresses = 5 - 5 ∧
    (UpdateState HandleEnv.none storeFive 12 batchFive).2.1.storageUsedChanged =
      (totalStorageUsed batchFive : Int) - (totalStorageUsed (preExisting storeFive batchFive) : Int) ∧
    (UpdateState HandleEnv.none storeFive 12 batchFive).2.1.storageUsedChanged = 7 :=
  ⟨by decide,
    (UpdateState_delta HandleEnv.none storeAB 11 batchAC (by decide) (by decide) (by decide)
      (by decide)).1,
    (UpdateState_delta HandleEnv.none storeAB 11 batchAC (by decide) (by decide) (by decide)
      (by decide)).2.2.2.2 ⟨by decide, by decide⟩,
    by decide, by decide,
    (UpdateState_delta HandleEnv.none storeFive 12 batchFive (by decide) (by decide) (by decide)
      (by decide)).1,
    (UpdateState_delta HandleEnv.none storeFive 12 batchFive (by decide) (by decide) (by decide)
      (by decide)).2.2.2.2 ⟨by decide, by decide⟩,
    by decide⟩

/-- Counterexample to C1 as stated: on the empty store, a batch of two accounts that
use `2 ^ 62` bytes each is handled successfully, the new values sum to `2 ^ 63`
and no old value exists, yet the returned `storageUsedChanged` is `-2 ^ 63`. -/
theorem UpdateState_delta_wraps :
    (GoMap.keys batchHuge).Nodup ∧
    (UpdateState HandleEnv.none [] 10 batchHuge).2.2 = none ∧
    (totalStorageUsed batchHuge : Int) - (totalStorageUsed (preExisting [] batchHuge) : Int)
      = 9223372036854775808 ∧
    (UpdateState HandleEnv.none [] 10 batchHuge).2.1.storageUsedChanged = -9223372036854775808 ∧
    (UpdateState HandleEnv.none [] 10 batchHuge).2.1.storageUsedChanged ≠
      (totalStorageUsed batchHuge : Int) - (totalStorageUsed (preExisting [] batchHuge) : Int) := by
  decide


/-! ## `Set` -/

theorem setLoop_ok (sf : SetFaults) (h k : Nat) (l : List (Address × StoredAccountData)) (t : Table)
    (hok : (setLoop sf h k l t).2 = none) :
    (setLoop sf h k l t).1 = l.foldl (fun t e => upsert t e.1 e.2.StorageUsed h) t := by
  induction l generalizing k t with
  | nil => simp [setLoop]
  | cons e l ih =>
    obtain ⟨a, d⟩ := e
    simp only [setLoop] at hok ⊢
    cases hx : sf.execErr k with
    | some e => simp [hx] at hok
    | none =>
      simp only [hx] at hok ⊢
      simpa using ih _ _ hok

theorem Set_ok (sf : SetFaults) (ord : RangeOrder) (tbl : Table) (h : Nat)
    (batch : GoMap StoredAccountData) (hok : (Set sf ord tbl h batch).2 = none) :
    (Set sf ord tbl h batch).1 =
      (ord.visit batch).foldl (fun t e => upsert t e.1 e.2.StorageUsed h) tbl := by
  unfold Set at hok ⊢
  cases hp : sf.prepareErr with
  | some e => simp [hp] at hok
  | none =>
    simp only [hp] at hok ⊢
    exact setLoop_ok sf h 0 _ tbl hok

theorem upserts_nodup (l : List (Address × StoredAccountData)) (h : Nat) (t : Table)
    (hn : (Table.addresses t).Nodup) :
    (Table.addresses (l.foldl (fun t e => upsert t e.1 e.2.StorageUsed h) t)).Nodup := by
  induction l generalizing t with
  | nil => simpa using hn
  | cons e l ih => exact ih _ (Table.nodup_upsert t _ _ _ hn)

theorem preExisting_congr (t₁ t₂ : Table) (l : List (Address × StoredAccountData))
    (h : ∀ e ∈ l, Table.find? t₁ e.1 = Table.find? t₂ e.1) :
    preExisting t₁ l = preExisting t₂ l := by
  induction l with
  | nil => rfl
  | cons e l ih =>
    have h1 := h e (List.mem_cons_self _ _)
    have h2 := ih (fun e' he' => h e' (List.mem_cons_of_mem _ he'))
    simp only [preExisting] at h2 ⊢
    simp [List.filterMap_cons, h1, h2]

theorem preExisting_perm (db : Table) (l₁ l₂ : List (Address × StoredAccountData))
    (h : List.Perm l₁ l₂) : List.Perm (preExisting db l₁) (preExisting db l₂) :=
  List.Perm.filterMap _ h

theorem upserts_count_sum (l : List (Address × StoredAccountData)) (h : Nat) (t : Table)
    (hl : (GoMap.keys l).Nodup) :
    (l.foldl (fun t e => upsert t e.1 e.2.StorageUsed h) t).length + (preExisting t l).length =
        t.length + l.length ∧
    Table.totalStorageUsed (l.foldl (fun t e => upsert t e.1 e.2.StorageUsed h) t) +
        totalStorageUsed (preExisting t l) =
      Table.totalStorageUsed t + totalStorageUsed l := by
  induction l generalizing t with
  | nil => simp [preExisting, totalStorageUsed]
  | cons e l ih =>
    obtain ⟨a, d⟩ := e
    simp only [GoMap.keys, List.map_cons, List.nodup_cons] at hl
    have hc : preExisting (upsert t a d.StorageUsed h) l = preExisting t l := by
      refine preExisting_congr _ _ _ ?_
      intro e he
      rw [Table.find?_upsert]
      have : ¬ a = e.1 := fun h2 => hl.1 (h2 ▸ List.mem_map_of_mem Prod.fst he)
      rw [if_neg this]
    have ih := ih (upsert t a d.StorageUsed h) hl.2
    rw [hc] at ih
    rw [List.foldl_cons]
    have h1 := Table.length_upsert t a d.StorageUsed h
    have h2 := Table.sum_upsert t a d.StorageUsed h
    cases hf : Table.find? t a with
    | none =>
      have h3 : a ∉ Table.addresses t := (Table.find?_eq_none t a).1 hf
      rw [if_neg h3] at h1
      simp only [hf, Option.map_none', Option.getD_none] at h2
      have h4 : preExisting t ((a, d) :: l) = preExisting t l := by
        simp [preExisting, List.filterMap_cons, hf]
      rw [h4]
      simp only [Table.totalStorageUsed, totalStorageUsed, List.map_cons, List.sum_cons,
        List.length_cons] at ih h2 ⊢
      omega
    | some row =>
      have h3 : a ∈ Table.addresses t := by
        by_contra h5
        rw [(Table.find?_eq_none t a).2 h5] at hf
        exact absurd hf (by simp)
      rw [if_pos h3] at h1
      simp only [hf, Option.map_some', Option.getD_some] at h2
      have h4 : preExisting t ((a, d) :: l) = (a, ⟨row.storageUsed⟩) :: preExisting t l := by
        simp [preExisting, List.filterMap_cons, hf]
      rw [h4]
      simp only [Table.totalStorageUsed, totalStorageUsed, List.map_cons, List.sum_cons,
        List.length_cons] at ih h2 ⊢
      omega

/-- The store a successful `UpdateState` leaves, against the `dataChanges` it returns. -/
theorem UpdateState_store (env : HandleEnv) (db : Table) (h : Nat)
    (batch : ParsedProcessedAddressBatch)
    (hdb : (Table.addresses db).Nodup) (hb : (GoMap.keys batch).Nodup)
    (hno : NoOverflow db batch)
    (hok : (UpdateState env db h batch).2.2 = none) :
    (Table.addresses (UpdateState env db h batch).1).Nodup ∧
    (UpdateState env db h batch).1.length =
      db.length + (UpdateState env db h batch).2.1.newAddresses ∧
    (Table.totalStorageUsed (UpdateState env db h batch).1 : Int) =
      (Table.totalStorageUsed db : Int) + (UpdateState env db h batch).2.1.storageUsedChanged := by
  obtain ⟨hlen, h1, h2, h3, h4⟩ := hno
  obtain ⟨hnew, hK, _, hch⟩ := UpdateState_changes env db h batch hdb hb hlen hok
  have hch := hch.2 ⟨h3, h4⟩
  rw [hnew, hch]
  obtain ⟨m, _, hs, _, _, hu⟩ := UpdateState_success env db h batch hok
  have hdb' : (UpdateState env db h batch).1 =
      (env.rangeSet.visit batch).foldl (fun t e => upsert t e.1 e.2.StorageUsed h) db := by
    rw [hu]
    exact Set_ok _ _ _ _ _ hs
  rw [hdb']
  have hp := env.rangeSet.perm batch
  have hv : (GoMap.keys (env.rangeSet.visit batch)).Nodup :=
    (List.Perm.nodup_iff (List.Perm.map Prod.fst hp)).2 hb
  obtain ⟨c1, c2⟩ := upserts_count_sum (env.rangeSet.visit batch) h db hv
  have p1 := (preExisting_perm db _ _ hp).length_eq
  have p2 := totalStorageUsed_perm _ _ (preExisting_perm db _ _ hp)
  have p3 := hp.length_eq
  have p4 := totalStorageUsed_perm _ _ hp
  rw [p1, p3] at c1
  rw [p2, p4] at c2
  refine ⟨upserts_nodup _ _ _ hdb, by omega, by omega⟩

/-! ## `firstReport` and `Handle` -/

theorem counterTotal_append (l₁ l₂ : List (Site × Report)) :
    counterTotal (l₁ ++ l₂) = counterTotal l₁ + counterTotal l₂ := by
  induction l₁ with
  | nil => simp [counterTotal]
  | cons e l ih =>
    obtain ⟨s, rep⟩ := e
    cases rep <;> simp [counterTotal, ih, Nat.add_assoc]

theorem gaugeTotal_append (l₁ l₂ : List (Site × Report)) :
    gaugeTotal (l₁ ++ l₂) = gaugeTotal l₁ + gaugeTotal l₂ := by
  induction l₁ with
  | nil => simp [gaugeTotal]
  | cons e l ih =>
    obtain ⟨s, rep⟩ := e
    cases rep <;> simp [gaugeTotal, ih, Int.add_assoc]

theorem aggregate_ok (af : AggFaults) (v n : Nat) (h : aggregate af v = Except.ok n) : n = v := by
  unfold aggregate scanU64 at h
  repeat' split at h
  all_goals simp_all

/-- The two outcomes of `firstReport`: an error with nothing reported, or the two
baseline reports. -/
theorem firstReport_cases (env : HandleEnv) (r : ScriptResultHandler) :
    (∃ e, firstReport env r = (r, some e)) ∨
    (firstReport env r =
        ({ r with reporter := r.reporter ++
            [(Site.firstReport, Report.ReportTotalAccountsIncreased r.db.length),
             (Site.firstReport,
               Report.ReportStorageUsedChanged (toInt64 (Table.totalStorageUsed r.db)))] }, none) ∧
      env.firstTx.beginErr = none ∧ env.firstTx.commitErr = none ∧
      GetTotalAccounts env.totalAccounts r.db = Except.ok r.db.length ∧
      GatTotalStorageUsed env.totalStorage r.db = Except.ok (Table.totalStorageUsed r.db)) := by
  cases hb : env.firstTx.beginErr with
  | some e => exact Or.inl ⟨e, by simp [firstReport, TX, hb]⟩
  | none =>
    cases ha : GetTotalAccounts env.totalAccounts r.db with
    | error e => exact Or.inl ⟨_, by simp [firstReport, TX, hb, firstReportTx, ha]; rfl⟩
    | ok n =>
      cases hs : GatTotalStorageUsed env.totalStorage r.db with
      | error e => exact Or.inl ⟨_, by simp [firstReport, TX, hb, firstReportTx, ha, hs]; rfl⟩
      | ok v =>
        cases hc : env.firstTx.commitErr with
        | some e => exact Or.inl ⟨_, by simp [firstReport, TX, hb, firstReportTx, ha, hs, hc]; rfl⟩
        | none =>
          right
          have hn : n = r.db.length := aggregate_ok _ _ _ ha
          have hv : v = Table.totalStorageUsed r.db := aggregate_ok _ _ _ hs
          subst hn hv
          refine ⟨?_, rfl, rfl, rfl, rfl⟩
          simp [firstReport, TX, hb, firstReportTx, ha, hs, hc]

theorem UpdateState_failure (env : HandleEnv) (db : Table) (h : Nat)
    (batch : ParsedProcessedAddressBatch) (e : Err)
    (herr : (UpdateState env db h batch).2.2 = some e) : (UpdateState env db h batch).1 = db := by
  unfold UpdateState TX at herr ⊢
  cases hb : env.updateTx.beginErr with
  | some e => simp
  | none =>
    simp only [hb] at herr ⊢
    split
    · rfl
    · rename_i work s' hf
      simp only [hf] at herr
      cases hc : env.updateTx.commitErr with
      | some e => simp
      | none => simp [hc] at herr

theorem ParseProcessedAddressBatch_nodup (out : ProcessedAddressBatch) :
    (GoMap.keys (ParseProcessedAddressBatch out).2).Nodup := by
  unfold ParseProcessedAddressBatch
  simp only
  generalize hm : ([] : GoMap StoredAccountData) = m
  have hn : (GoMap.keys m).Nodup := by subst hm; simp [GoMap.keys]
  clear hm
  induction out.Result generalizing m with
  | nil => simpa using hn
  | cons v vs ih =>
    rw [List.foldl_cons]
    exact ih _ (GoMap.nodup_keys_assign m _ _ hn)

/-- A successful `handleBatch`: the state update succeeded, the store is the updated
one and the two delta reports were appended. -/
theorem handleBatch_success (env : HandleEnv) (r : ScriptResultHandler)
    (out : ProcessedAddressBatch) (hok : (handleBatch env r out).2 = none) :
    (UpdateState env r.db (ParseProcessedAddressBatch out).1 (ParseProcessedAddressBatch out).2).2.2
        = none ∧
    (handleBatch env r out).1 =
      { db := (UpdateState env r.db (ParseProcessedAddressBatch out).1
          (ParseProcessedAddressBatch out).2).1
        reporter := r.reporter ++
          [(Site.HandleUpdateResults, Report.ReportTotalAccountsIncreased
              (UpdateState env r.db (ParseProcessedAddressBatch out).1
                (ParseProcessedAddressBatch out).2).2.1.newAddresses),
           (Site.HandleUpdateResults, Report.ReportStorageUsedChanged
              (UpdateState env r.db (ParseProcessedAddressBatch out).1
                (ParseProcessedAddressBatch out).2).2.1.storageUsedChanged)]
        notFirstReport := r.notFirstReport } := by
  unfold handleBatch at hok ⊢
  split at hok
  · simp [HandleUpdateResults] at hok
  · rename_i db ch hu
    rw [hu]
    simp [HandleUpdateResults]

/-- A failed `handleBatch`: the state update failed with the same error, the store is
untouched and nothing was reported. -/
theorem handleBatch_failure (env : HandleEnv) (r : ScriptResultHandler)
    (out : ProcessedAddressBatch) (e : Err) (herr : (handleBatch env r out).2 = some e) :
    (UpdateState env r.db (ParseProcessedAddressBatch out).1 (ParseProcessedAddressBatch out).2).2.2
        = some e ∧
    (handleBatch env r out).1 = r := by
  unfold handleBatch at herr ⊢
  split at herr
  · rename_i db ch e' hu
    have := UpdateState_failure env r.db _ _ e' (by rw [hu])
    rw [hu] at this ⊢
    simp only at this herr ⊢
    subst this
    exact ⟨herr, rfl⟩
  · simp [HandleUpdateResults] at herr

/-- One successful `Handle` call keeps the reported totals equal to the store's. -/
theorem Handle_consistent (env : HandleEnv) (r : ScriptResultHandler)
    (out : ProcessedAddressBatch)
    (hdb : (Table.addresses r.db).Nodup)
    (hok : (Handle env r out).2 = none)
    (hno : NoOverflow r.db (ParseProcessedAddressBatch out).2)
    (hbase : r.notFirstReport = false → Table.totalStorageUsed r.db < 2 ^ 63)
    (hfresh : r.notFirstReport = false → counterTotal r.reporter = 0 ∧ gaugeTotal r.reporter = 0)
    (hinv : r.notFirstReport = true → counterTotal r.reporter = r.db.length ∧
      gaugeTotal r.reporter = (Table.totalStorageUsed r.db : Int)) :
    (Handle env r out).1.notFirstReport = true ∧
    (Table.addresses (Handle env r out).1.db).Nodup ∧
    counterTotal (Handle env r out).1.reporter = (Handle env r out).1.db.length ∧
    gaugeTotal (Handle env r out).1.reporter =
      (Table.totalStorageUsed (Handle env r out).1.db : Int) := by
  have key : ∀ r1 : ScriptResultHandler, r1.db = r.db → r1.notFirstReport = true →
      counterTotal r1.reporter = r.db.length →
      gaugeTotal r1.reporter = (Table.totalStorageUsed r.db : Int) →
      (handleBatch env r1 out).2 = none →
      (handleBatch env r1 out).1.notFirstReport = true ∧
      (Table.addresses (handleBatch env r1 out).1.db).Nodup ∧
      counterTotal (handleBatch env r1 out).1.reporter = (handleBatch env r1 out).1.db.length ∧
      gaugeTotal (handleBatch env r1 out).1.reporter =
        (Table.totalStorageUsed (handleBatch env r1 out).1.db : Int) := by
    intro r1 hd hf hc hg hs
    obtain ⟨hu, hr⟩ := handleBatch_success env r1 out hs
    rw [hr]
    rw [hd] at hu ⊢
    obtain ⟨s1, s2, s3⟩ := UpdateState_store env r.db _ _ hdb
      (ParseProcessedAddressBatch_nodup out) hno hu
    refine ⟨hf, s1, ?_, ?_⟩
    · simp only [counterTotal_append, counterTotal, hc]
      omega
    · simp only [gaugeTotal_append, gaugeTotal, hg]
      omega
  unfold Handle at hok ⊢
  cases hflag : r.notFirstReport with
  | true =>
    simp only [hflag, if_true] at hok ⊢
    exact key r rfl hflag (hinv hflag).1 (hinv hflag).2 hok
  | false =>
    simp only [hflag] at hok ⊢
    rcases firstReport_cases env { r with notFirstReport := true } with ⟨e, he⟩ | ⟨he, _⟩
    · rw [he] at hok
      simp at hok
    · rw [he] at hok ⊢
      simp only at hok ⊢
      have hb := hbase hflag
      have ht : toInt64 (Table.totalStorageUsed r.db) = (Table.totalStorageUsed r.db : Int) := by
        unfold toInt64
        rw [Nat.mod_eq_of_lt (by omega), if_pos hb]
      refine key _ rfl rfl ?_ ?_ hok
      · simp only [counterTotal_append, counterTotal, (hfresh hflag).1]
        omega
      · simp only [gaugeTotal_append, gaugeTotal, (hfresh hflag).2, ht]
        omega

/-! ## The instruments -/

theorem f64Quantum_small (fuel n : Nat) (h : n < 2 ^ 53) : f64Quantum fuel n = 1 := by
  cases fuel with
  | zero => rfl
  | succ fuel =>
    unfold f64Quantum
    rw [if_pos h]

theorem roundF64Nat_exact (n : Nat) (h : n ≤ 2 ^ 53) : roundF64Nat n = n := by
  rcases Nat.lt_or_ge n (2 ^ 53) with hlt | hge
  · unfold roundF64Nat
    simp only [f64Quantum_small 1024 n hlt, Nat.mod_one, Nat.div_one, Nat.mul_one]
    rw [if_pos (by decide)]
  · have : n = 2 ^ 53 := Nat.le_antisymm h hge
    subst this
    decide

/-- Every whole number of magnitude at most `2 ^ 53` is a `float64`. -/
theorem Representable_of_le (i : Int) (h1 : -(2 ^ 53 : Int) ≤ i) (h2 : i ≤ 2 ^ 53) :
    Representable i := by
  unfold Representable roundF64
  have h : i.natAbs ≤ 2 ^ 53 := by omega
  rw [roundF64Nat_exact _ h]
  split <;> omega

theorem Representable_nat (n : Nat) (h : Representable (n : Int)) : roundF64Nat n = n := by
  unfold Representable roundF64 at h
  rw [if_neg (by omega), Int.natAbs_ofNat] at h
  exact_mod_cast h

theorem instruments_append (log extra : List (Site × Report)) :
    instruments (log ++ extra) = extra.foldl (fun m e => m.report e.2) (instruments log) := by
  unfold instruments
  rw [List.foldl_append]

/-- A pair of reports whose amounts and whose resulting gauge value are `float64`
moves the instruments by exactly these amounts. -/
theorem report_pair_exact (log : List (Site × Report)) (s₁ s₂ : Site) (c n : Nat) (g i : Int)
    (hc : (instruments log).totalAccounts = ⟨c % 2 ^ 64, 0⟩)
    (hg : (instruments log).totalStorageUsed = g)
    (hn : Representable (n : Int)) (hlt : n < 2 ^ 64)
    (hi : Representable i) (hgi : Representable (g + i)) :
    (instruments (log ++ [(s₁, Report.ReportTotalAccountsIncreased n),
      (s₂, Report.ReportStorageUsedChanged i)])).totalAccounts = ⟨(c + n) % 2 ^ 64, 0⟩ ∧
    (instruments (log ++ [(s₁, Report.ReportTotalAccountsIncreased n),
      (s₂, Report.ReportStorageUsedChanged i)])).totalStorageUsed = g + i := by
  rw [instruments_append]
  simp only [List.foldl_cons, List.foldl_nil, Instruments.report, ReportTotalAccountsIncreased,
    ReportStorageUsedChanged, gaugeAdd, Counter.Add, hc, hg, Representable_nat n hn, if_pos hlt]
  unfold Representable at hi hgi
  rw [hi, hgi]
  refine ⟨?_, rfl⟩
  unfold addU64
  congr 1
  omega

theorem aggregate_lt (af : AggFaults) (v n : Nat) (h : aggregate af v = Except.ok n) :
    v < 2 ^ 64 := by
  unfold aggregate scanU64 at h
  repeat' split at h
  all_goals simp_all

/-- The shape of a successful `Handle` call: the state update succeeded, the store is
the updated one, and the log grew by the baseline pair (on the first call) and
the delta pair. -/
theorem Handle_success (env : HandleEnv) (r : ScriptResultHandler) (out : ProcessedAddressBatch)
    (hok : (Handle env r out).2 = none) :
    (UpdateState env r.db (ParseProcessedAddressBatch out).1 (ParseProcessedAddressBatch out).2).2.2
        = none ∧
    (Handle env r out).1.db =
      (UpdateState env r.db (ParseProcessedAddressBatch out).1
        (ParseProcessedAddressBatch out).2).1 ∧
    (Handle env r out).1.reporter =
      (r.reporter ++ (if r.notFirstReport = true then []
        else [(Site.firstReport, Report.ReportTotalAccountsIncreased r.db.length),
          (Site.firstReport,
            Report.ReportStorageUsedChanged (toInt64 (Table.totalStorageUsed r.db)))])) ++
        [(Site.HandleUpdateResults, Report.ReportTotalAccountsIncreased
            (UpdateState env r.db (ParseProcessedAddressBatch out).1
              (ParseProcessedAddressBatch out).2).2.1.newAddresses),
         (Site.HandleUpdateResults, Report.ReportStorageUsedChanged
            (UpdateState env r.db (ParseProcessedAddressBatch out).1
              (ParseProcessedAddressBatch out).2).2.1.storageUsedChanged)] ∧
    (r.notFirstReport = false → r.db.length < 2 ^ 64) := by
  unfold Handle at hok ⊢
  cases hflag : r.notFirstReport with
  | true =>
    simp only [hflag, if_true] at hok ⊢
    obtain ⟨hu, hr⟩ := handleBatch_success env r out hok
    rw [hr]
    exact ⟨hu, rfl, by simp, by simp⟩
  | false =>
    simp only [hflag] at hok ⊢
    rcases firstReport_cases env { r with notFirstReport := true } with ⟨e, he⟩ | ⟨he, _, _, ha, _⟩
    · rw [he] at hok
      simp at hok
    · rw [he] at hok ⊢
      simp only [Bool.false_eq_true, if_false] at hok ⊢
      obtain ⟨hu, hr⟩ := handleBatch_success env _ out hok
      rw [hr]
      exact ⟨hu, rfl, rfl, fun _ => aggregate_lt _ _ _ ha⟩

theorem FloatExactRun_head (r : ScriptResultHandler) (calls : Calls) (h : FloatExactRun r calls) :
    Representable (r.db.length : Int) ∧ Representable (Table.totalStorageUsed r.db : Int) := by
  cases calls with
  | nil => exact h
  | cons c calls =>
    obtain ⟨env, out⟩ := c
    exact ⟨h.1, h.2.1⟩

/-- One successful `Handle` call whose counts are `float64` leaves the counter at the
number of records and the gauge at the total `StorageUsed` of the store. -/
theorem Handle_instruments (env : HandleEnv) (r : ScriptResultHandler)
    (out : ProcessedAddressBatch)
    (hdb : (Table.addresses r.db).Nodup)
    (hok : (Handle env r out).2 = none)
    (hno : NoOverflow r.db (ParseProcessedAddressBatch out).2)
    (hbase : r.notFirstReport = false → Table.totalStorageUsed r.db < 2 ^ 63)
    (hfresh : r.notFirstReport = false → r.reporter = [])
    (hinv : r.notFirstReport = true →
      (instruments r.reporter).totalAccounts = ⟨r.db.length % 2 ^ 64, 0⟩ ∧
      (instruments r.reporter).totalStorageUsed = (Table.totalStorageUsed r.db : Int))
    (hl : Representable (r.db.length : Int))
    (ht : Representable (Table.totalStorageUsed r.db : Int))
    (hdl : Representable (((Handle env r out).1.db.length : Int) - (r.db.length : Int)))
    (hdt : Representable ((Table.totalStorageUsed (Handle env r out).1.db : Int) -
      (Table.totalStorageUsed r.db : Int)))
    (ht' : Representable (Table.totalStorageUsed (Handle env r out).1.db : Int)) :
    (instruments (Handle env r out).1.reporter).totalAccounts =
      ⟨(Handle env r out).1.db.length % 2 ^ 64, 0⟩ ∧
    (instruments (Handle env r out).1.reporter).totalStorageUsed =
      (Table.totalStorageUsed (Handle env r out).1.db : Int) := by
  obtain ⟨hu, hd, hr, hlt⟩ := Handle_success env r out hok
  obtain ⟨_, s2, s3⟩ := UpdateState_store env r.db _ _ hdb
    (ParseProcessedAddressBatch_nodup out) hno hu
  obtain ⟨_, _, hle, _⟩ := UpdateState_changes env r.db _ _ hdb
    (ParseProcessedAddressBatch_nodup out) hno.1 hu
  rw [hd] at hdl hdt ht' ⊢
  rw [hr]
  have e1 : ((UpdateState env r.db (ParseProcessedAddressBatch out).1
      (ParseProcessedAddressBatch out).2).1.length : Int) - (r.db.length : Int) =
      ((UpdateState env r.db (ParseProcessedAddressBatch out).1
        (ParseProcessedAddressBatch out).2).2.1.newAddresses : Int) := by omega
  have e2 : (Table.totalStorageUsed (UpdateState env r.db (ParseProcessedAddressBatch out).1
      (ParseProcessedAddressBatch out).2).1 : Int) - (Table.totalStorageUsed r.db : Int) =
      (UpdateState env r.db (ParseProcessedAddressBatch out).1
        (ParseProcessedAddressBatch out).2).2.1.storageUsedChanged := by omega
  rw [e1] at hdl
  rw [e2] at hdt
  rw [s3] at ht'
  have hlen := hno.1
  have base : (instruments (r.reporter ++ (if r.notFirstReport = true then []
        else [(Site.firstReport, Report.ReportTotalAccountsIncreased r.db.length),
          (Site.firstReport,
            Report.ReportStorageUsedChanged (toInt64 (Table.totalStorageUsed r.db)))]))).totalAccounts
          = ⟨r.db.length % 2 ^ 64, 0⟩ ∧
      (instruments (r.reporter ++ (if r.notFirstReport = true then []
        else [(Site.firstReport, Report.ReportTotalAccountsIncreased r.db.length),
          (Site.firstReport,
            Report.ReportStorageUsedChanged (toInt64 (Table.totalStorageUsed r.db)))]))).totalStorageUsed
          = (Table.totalStorageUsed r.db : Int) := by
    cases hflag : r.notFirstReport with
    | true =>
      simp only [if_true, List.append_nil]
      exact hinv hflag
    | false =>
      simp only [Bool.false_eq_true, if_false]
      have hb := hbase hflag
      have hi : toInt64 (Table.totalStorageUsed r.db) = (Table.totalStorageUsed r.db : Int) := by
        unfold toInt64
        rw [Nat.mod_eq_of_lt (by omega), if_pos hb]
      rw [hi, hfresh hflag]
      have h0 := report_pair_exact [] Site.firstReport Site.firstReport 0 r.db.length 0
        (Table.totalStorageUsed r.db : Int) rfl rfl hl (hlt hflag) ht (by rw [Int.zero_add]; exact ht)
      rw [Nat.zero_add, Int.zero_add] at h0
      exact h0
  have h1 := report_pair_exact _ Site.HandleUpdateResults Site.HandleUpdateResults r.db.length
    (UpdateState env r.db (ParseProcessedAddressBatch out).1
      (ParseProcessedAddressBatch out).2).2.1.newAddresses
    (Table.totalStorageUsed r.db : Int)
    (UpdateState env r.db (ParseProcessedAddressBatch out).1
      (ParseProcessedAddressBatch out).2).2.1.storageUsedChanged
    base.1 base.2 hdl (by omega) hdt ht'
  rw [s2, s3]
  exact h1

/-- After the baseline, a successful run whose counts are `float64` keeps the
instruments at the counts of the store. -/
theorem HandleAll_instruments (calls : Calls) (r : ScriptResultHandler)
    (hdb : (Table.addresses r.db).Nodup) (hflag : r.notFirstReport = true)
    (hc : (instruments r.reporter).totalAccounts = ⟨r.db.length % 2 ^ 64, 0⟩)
    (hg : (instruments r.reporter).totalStorageUsed = (Table.totalStorageUsed r.db : Int))
    (hcs : counterTotal r.reporter = r.db.length)
    (hgs : gaugeTotal r.reporter = (Table.totalStorageUsed r.db : Int))
    (hrun : SuccessfulRun r calls) (hex : FloatExactRun r calls) :
    (instruments (HandleAll r calls).reporter).totalAccounts =
      ⟨(HandleAll r calls).db.length % 2 ^ 64, 0⟩ ∧
    (instruments (HandleAll r calls).reporter).totalStorageUsed =
      (Table.totalStorageUsed (HandleAll r calls).db : Int) ∧
    Representable ((HandleAll r calls).db.length : Int) := by
  induction calls generalizing r with
  | nil => exact ⟨hc, hg, hex.1⟩
  | cons c calls ih =>
    obtain ⟨env, out⟩ := c
    obtain ⟨h1, h2, h3, h4⟩ := hrun
    obtain ⟨x1, x2, x3, x4, x5⟩ := hex
    obtain ⟨i1, i2, i3, i4⟩ := Handle_consistent env r out hdb h1 h2 h3
      (fun hf => absurd hflag (by simp [hf])) (fun _ => ⟨hcs, hgs⟩)
    obtain ⟨j1, j2⟩ := Handle_instruments env r out hdb h1 h2 h3
      (fun hf => absurd hflag (by simp [hf])) (fun _ => ⟨hc, hg⟩) x1 x2 x3 x4
      (FloatExactRun_head _ _ x5).2
    exact ih _ i2 i1 j1 j2 i3 i4 h4 x5

theorem Counter_get_exact (n : Nat) (hlt : n < 2 ^ 64) (hn : Representable (n : Int)) :
    Counter.get ⟨n % 2 ^ 64, 0⟩ = (n : Int) := by
  unfold Counter.get
  simp only [Nat.mod_eq_of_lt hlt, Int.zero_add]
  unfold Representable at hn
  rw [hn, hn]

/-- C2 (amended): the delta a successful `UpdateState` returns is consistent with the
store it leaves: when no 64-bit sum overflows, the number of records grows by
`newAddresses` and the sum of `StorageUsed` changes by `storageUsedChanged`.
The instruments add `float64` of what they are passed.  Hence after the
baseline report and any sequence of successful `Handle` calls in which the
number of records and the total `StorageUsed` of every store passed through,
and the change of each from one call to the next, are whole numbers that
`float64` holds exactly, the gauge reads the total `StorageUsed` of the current
store, which is what `GatTotalStorageUsed` gives, and the counter reads what
`GetTotalAccounts` gives, the number of records.  Every whole number of
magnitude at most `2 ^ 53` is held exactly. -/
theorem Delta_consistent_with_store :
    (∀ (env : HandleEnv) (db : Table) (h : Nat) (batch : ParsedProcessedAddressBatch),
      (Table.addresses db).Nodup → (GoMap.keys batch).Nodup → NoOverflow db batch →
      (UpdateState env db h batch).2.2 = none →
      (UpdateState env db h batch).1.length =
          db.length + (UpdateState env db h batch).2.1.newAddresses ∧
      (Table.totalStorageUsed (UpdateState env db h batch).1 : Int) =
          (Table.totalStorageUsed db : Int) + (UpdateState env db h batch).2.1.storageUsedChanged) ∧
    (∀ (r : ScriptResultHandler) (c : HandleEnv × ProcessedAddressBatch) (calls : Calls),
      (Table.addresses r.db).Nodup → r.notFirstReport = false → r.reporter = [] →
      SuccessfulRun r (c :: calls) → FloatExactRun r (c :: calls) →
      storageUsedValue (HandleAll r (c :: calls)).reporter =
          (Table.totalStorageUsed (HandleAll r (c :: calls)).db : Int) ∧
      ((HandleAll r (c :: calls)).db.length < 2 ^ 64 →
        accountsTotalValue (HandleAll r (c :: calls)).reporter =
          ((HandleAll r (c :: calls)).db.length : Int)) ∧
      (∀ af n, GetTotalAccounts af (HandleAll r (c :: calls)).db = Except.ok n →
          accountsTotalValue (HandleAll r (c :: calls)).reporter = (n : Int)) ∧
      (∀ af n, GatTotalStorageUsed af (HandleAll r (c :: calls)).db = Except.ok n →
          storageUsedValue (HandleAll r (c :: calls)).reporter = (n : Int))) ∧
    (∀ i : Int, -(2 ^ 53 : Int) ≤ i → i ≤ 2 ^ 53 → Representable i) := by
  refine ⟨?_, ?_, Representable_of_le⟩
  · intro env db h batch hdb hb hno hok
    exact (UpdateState_store env db h batch hdb hb hno hok).2
  · intro r c calls hdb hflag hrep hrun hex
    obtain ⟨env, out⟩ := c
    obtain ⟨h1, h2, h3, h4⟩ := hrun
    obtain ⟨x1, x2, x3, x4, x5⟩ := hex
    obtain ⟨i1, i2, i3, i4⟩ := Handle_consistent env r out hdb h1 h2 h3
      (fun _ => by simp [hrep, counterTotal, gaugeTotal]) (fun hf => absurd hflag (by simp [hf]))
    obtain ⟨j1, j2⟩ := Handle_instruments env r out hdb h1 h2 h3 (fun _ => hrep)
      (fun hf => absurd hflag (by simp [hf])) x1 x2 x3 x4 (FloatExactRun_head _ _ x5).2
    obtain ⟨f1, f2, f3⟩ := HandleAll_instruments calls _ i2 i1 j1 j2 i3 i4 h4 x5
    have hacc : (HandleAll r ((env, out) :: calls)).db.length < 2 ^ 64 →
        accountsTotalValue (HandleAll r ((env, out) :: calls)).reporter =
          ((HandleAll r ((env, out) :: calls)).db.length : Int) := by
      intro hlt
      unfold accountsTotalValue
      simp only [HandleAll]
      rw [f1]
      exact Counter_get_exact _ hlt f3
    refine ⟨f2, hacc, ?_, ?_⟩
    · intro af n hn
      rw [aggregate_ok af _ n hn]
      exact hacc (aggregate_lt af _ n hn)
    · intro af n hn
      rw [aggregate_ok af _ n hn]
      exact f2

/-- Witness for C2: the end-to-end scenario.  After both calls the store holds three
records that use 150 bytes, and the counter reads 3 and the gauge 150. -/
theorem Delta_consistent_with_store_witness :
    SuccessfulRun freshHandler scenarioCalls ∧ FloatExactRun freshHandler scenarioCalls ∧
    ((UpdateState HandleEnv.none storeAB 11 batchAC).1.length =
        storeAB.length + (UpdateState HandleEnv.none storeAB 11 batchAC).2.1.newAddresses ∧
      (Table.totalStorageUsed (UpdateState HandleEnv.none storeAB 11 batchAC).1 : Int) =
        (Table.totalStorageUsed storeAB : Int) +
          (UpdateState HandleEnv.none storeAB 11 batchAC).2.1.storageUsedChanged) ∧
    accountsTotalValue (HandleAll freshHandler scenarioCalls).reporter = 3 ∧
    storageUsedValue (HandleAll freshHandler scenarioCalls).reporter = 150 ∧
    GetTotalAccounts AggFaults.none (HandleAll freshHandler scenarioCalls).db = Except.ok 3 ∧
    GatTotalStorageUsed AggFaults.none (HandleAll freshHandler scenarioCalls).db = Except.ok 150 ∧
    Representable 9007199254740992 := by
  have hrun : SuccessfulRun freshHandler scenarioCalls := by
    simp only [scenarioCalls, SuccessfulRun, NoOverflow]
    decide
  have hex : FloatExactRun freshHandler scenarioCalls := by
    simp only [scenarioCalls, FloatExactRun]
    decide
  have h := Delta_consistent_with_store.2.1 freshHandler
    (HandleEnv.none, ⟨10, [(addrA, 100), (addrB, 50)]⟩)
    [(HandleEnv.none, ⟨11, [(addrA, 80), (addrC, 20)]⟩)] (by decide) rfl rfl hrun hex
  have h1 := Delta_consistent_with_store.1 HandleEnv.none storeAB 11 batchAC (by decide) (by decide)
    (by simp only [NoOverflow]; decide) (by decide)
  exact ⟨hrun, hex, h1, h.2.2.1 AggFaults.none 3 rfl, h.2.2.2 AggFaults.none 150 rfl, rfl, rfl,
    Delta_consistent_with_store.2.2 _ (by decide) (by decide)⟩

/-- Counterexample to C2 as stated: a fresh handler on a store whose one record uses
`2 ^ 53 + 1` bytes handles one batch that reports the same value.  The call
succeeds and no 64-bit sum overflows; the baseline passes `2 ^ 53 + 1` to the
gauge, which adds `float64` of it, `2 ^ 53`, and the delta is 0.  The gauge
reads `2 ^ 53` while `GatTotalStorageUsed` gives `2 ^ 53 + 1`. -/
theorem gauge_rounds_store_total :
    (Table.addresses handlerBig.db).Nodup ∧ handlerBig.notFirstReport = false ∧
    handlerBig.reporter = [] ∧
    SuccessfulRun handlerBig callsBig ∧
    (HandleAll handlerBig callsBig).db = [⟨addrA, 9007199254740993, 11⟩] ∧
    (HandleAll handlerBig callsBig).reporter =
      [(Site.firstReport, Report.ReportTotalAccountsIncreased 1),
       (Site.firstReport, Report.ReportStorageUsedChanged 9007199254740993),
       (Site.HandleUpdateResults, Report.ReportTotalAccountsIncreased 0),
       (Site.HandleUpdateResults, Report.ReportStorageUsedChanged 0)] ∧
    roundF64 9007199254740993 = 9007199254740992 ∧
    storageUsedValue (HandleAll handlerBig callsBig).reporter = 9007199254740992 ∧
    GatTotalStorageUsed AggFaults.none (HandleAll handlerBig callsBig).db =
      Except.ok 9007199254740993 ∧
    storageUsedValue (HandleAll handlerBig callsBig).reporter ≠
      (Table.totalStorageUsed (HandleAll handlerBig callsBig).db : Int) ∧
    accountsTotalValue (HandleAll handlerBig callsBig).reporter = 1 := by
  have hrun : SuccessfulRun handlerBig callsBig := by
    simp only [callsBig, SuccessfulRun, NoOverflow]
    decide
  exact ⟨by decide, rfl, rfl, hrun, by decide, by decide, by decide, by decide, rfl, by decide,
    by decide⟩


/-! ## The frame of `Set` -/

theorem upserts_find? (l : List (Address × StoredAccountData)) (h : Nat) (t : Table) (a : Address)
    (hl : (GoMap.keys l).Nodup) :
    Table.find? (l.foldl (fun t e => upsert t e.1 e.2.StorageUsed h) t) a =
      (GoMap.get? l a).elim (Table.find? t a) (fun d => some ⟨a, d.StorageUsed, h⟩) := by
  induction l generalizing t with
  | nil => simp [GoMap.get?]
  | cons e l ih =>
    obtain ⟨k, d⟩ := e
    simp only [GoMap.keys, List.map_cons, List.nodup_cons] at hl
    rw [List.foldl_cons, ih _ hl.2, Table.find?_upsert]
    by_cases h1 : k = a
    · subst h1
      have h2 : GoMap.get? l k = none := (GoMap.get?_eq_none l k).2 hl.1
      simp [h2, GoMap.get?]
    · simp [h1, GoMap.get?]

theorem Table.filter_eq_find? (t : Table) (a : Address) (hn : (Table.addresses t).Nodup) :
    t.filter (fun row => decide (row.address = a)) = (Table.find? t a).toList := by
  induction t with
  | nil => simp [Table.find?]
  | cons row t ih =>
    simp only [Table.addresses, List.map_cons, List.nodup_cons] at hn
    have ih := ih hn.2
    by_cases h1 : row.address = a
    · subst h1
      have h2 : ∀ r ∈ t, ¬ r.address = row.address := fun r hr he =>
        hn.1 (he ▸ List.mem_map_of_mem addressData.address hr)
      simp [Table.find?, List.filter_cons, List.filter_eq_nil_iff]
      exact h2
    · simp only [Table.find?] at ih
      simp [Table.find?, List.filter_cons, h1, ih]

theorem GoMap.get?_perm {α : Type} (m₁ m₂ : GoMap α) (hp : List.Perm m₁ m₂)
    (hn : (GoMap.keys m₂).Nodup) (a : Address) : GoMap.get? m₁ a = GoMap.get? m₂ a := by
  have hn1 : (GoMap.keys m₁).Nodup := (List.Perm.nodup_iff (List.Perm.map Prod.fst hp)).2 hn
  cases h : GoMap.get? m₂ a with
  | none =>
    rw [GoMap.get?_eq_none] at h ⊢
    exact fun h2 => h ((List.Perm.map Prod.fst hp).mem_iff.1 h2)
  | some v =>
    rw [← GoMap.mem_iff_get? _ hn] at h
    rw [← GoMap.mem_iff_get? _ hn1]
    exact hp.mem_iff.2 h

/-- The table a successful `Set` leaves, record by record. -/
theorem Set_find? (sf : SetFaults) (ord : RangeOrder) (tbl : Table) (h : Nat)
    (batch : GoMap StoredAccountData) (hb : (GoMap.keys batch).Nodup)
    (hok : (Set sf ord tbl h batch).2 = none) (a : Address) :
    Table.find? (Set sf ord tbl h batch).1 a =
      (GoMap.get? batch a).elim (Table.find? tbl a) (fun d => some ⟨a, d.StorageUsed, h⟩) := by
  have hp := ord.perm batch
  have hv : (GoMap.keys (ord.visit batch)).Nodup :=
    (List.Perm.nodup_iff (List.Perm.map Prod.fst hp)).2 hb
  rw [Set_ok sf ord tbl h batch hok, upserts_find? _ _ _ _ hv, GoMap.get?_perm _ _ hp hb]

theorem Set_nodup (sf : SetFaults) (ord : RangeOrder) (tbl : Table) (h : Nat)
    (batch : GoMap StoredAccountData) (hn : (Table.addresses tbl).Nodup)
    (hok : (Set sf ord tbl h batch).2 = none) :
    (Table.addresses (Set sf ord tbl h batch).1).Nodup := by
  rw [Set_ok sf ord tbl h batch hok]
  exact upserts_nodup _ _ _ hn

/-- The records of every address after a successful `Set`. -/
theorem Set_records (sf : SetFaults) (ord : RangeOrder) (tbl : Table) (h : Nat)
    (batch : GoMap StoredAccountData) (hn : (Table.addresses tbl).Nodup)
    (hb : (GoMap.keys batch).Nodup) (hok : (Set sf ord tbl h batch).2 = none) :
    (∀ a d, (a, d) ∈ batch →
      (Set sf ord tbl h batch).1.filter (fun row => decide (row.address = a)) =
        [⟨a, d.StorageUsed, h⟩]) ∧
    (∀ a, a ∉ GoMap.keys batch →
      (Set sf ord tbl h batch).1.filter (fun row => decide (row.address = a)) =
        tbl.filter (fun row => decide (row.address = a))) ∧
    (∀ a, a ∈ Table.addresses tbl → a ∈ Table.addresses (Set sf ord tbl h batch).1) := by
  have hn' := Set_nodup sf ord tbl h batch hn hok
  refine ⟨?_, ?_, ?_⟩
  · intro a d had
    rw [Table.filter_eq_find? _ _ hn', Set_find? sf ord tbl h batch hb hok,
      (GoMap.mem_iff_get? batch hb a d).1 had]
    rfl
  · intro a ha
    rw [Table.filter_eq_find? _ _ hn', Table.filter_eq_find? _ _ hn,
      Set_find? sf ord tbl h batch hb hok, (GoMap.get?_eq_none batch a).2 ha]
    rfl
  · intro a ha
    by_contra hna
    have h1 := (Table.find?_eq_none _ a).2 hna
    rw [Set_find? sf ord tbl h batch hb hok] at h1
    cases hg : GoMap.get? batch a with
    | some d => simp [hg] at h1
    | none =>
      simp only [hg, Option.elim] at h1
      exact (Table.find?_eq_none _ a).1 h1 ha

theorem Table.mem_iff_find? (t : Table) (hn : (Table.addresses t).Nodup) (row : addressData) :
    row ∈ t ↔ Table.find? t row.address = some row := by
  constructor
  · intro h
    have h1 : row ∈ t.filter (fun r => decide (r.address = row.address)) := by
      simp [List.mem_filter, h]
    rw [Table.filter_eq_find? _ _ hn] at h1
    simpa [Option.mem_toList] using h1
  · intro h
    exact (Table.find?_address t _ row h).2

theorem Table.perm_of_find?_eq (t₁ t₂ : Table) (h₁ : (Table.addresses t₁).Nodup)
    (h₂ : (Table.addresses t₂).Nodup) (h : ∀ a, Table.find? t₁ a = Table.find? t₂ a) :
    List.Perm t₁ t₂ := by
  refine (List.perm_ext_iff_of_nodup (List.Nodup.of_map _ h₁) (List.Nodup.of_map _ h₂)).2 ?_
  intro row
  rw [Table.mem_iff_find? t₁ h₁, Table.mem_iff_find? t₂ h₂, h]

/-- The end-to-end scenario on the store, for every visiting order. -/
theorem Set_scenario (sf₁ sf₂ : SetFaults) (ord₁ ord₂ : RangeOrder)
    (h1 : (Set sf₁ ord₁ [] 10 scenarioBatch1).2 = none)
    (h2 : (Set sf₂ ord₂ (Set sf₁ ord₁ [] 10 scenarioBatch1).1 11 scenarioBatch2).2 = none) :
    List.Perm (Set sf₂ ord₂ (Set sf₁ ord₁ [] 10 scenarioBatch1).1 11 scenarioBatch2).1
      [⟨addrA, 80, 11⟩, ⟨addrB, 50, 10⟩, ⟨addrC, 20, 11⟩] := by
  have n1 := Set_nodup sf₁ ord₁ [] 10 scenarioBatch1 (by simp [Table.addresses]) h1
  have n2 := Set_nodup sf₂ ord₂ _ 11 scenarioBatch2 n1 h2
  refine Table.perm_of_find?_eq _ _ n2 (by decide) ?_
  intro a
  rw [Set_find? sf₂ ord₂ _ 11 scenarioBatch2 (by decide) h2,
    Set_find? sf₁ ord₁ [] 10 scenarioBatch1 (by decide) h1]
  by_cases hA : addrA = a
  · subst hA; rfl
  · by_cases hB : addrB = a
    · subst hB; rfl
    · by_cases hC : addrC = a
      · subst hC; rfl
      · simp [scenarioBatch1, scenarioBatch2, GoMap.get?, Table.find?, hA, hB, hC]

/-- C3: after a successful `Set(blockHeight, batch)` each address of the batch holds
exactly its batch `StorageUsed` with `blockHeight`, whatever record it held
before (also one of a greater height); every record of an address outside the
batch is unchanged and no address loses its record.  So setting one address
twice leaves exactly the second pair, and from the empty store
`Set(10, {A:100, B:50})` then `Set(11, {A:80, C:20})` leaves `A -> (80, 11)`,
`B -> (50, 10)`, `C -> (20, 11)`. -/
theorem Set_last_write_wins :
    (∀ (sf : SetFaults) (ord : RangeOrder) (tbl : Table) (blockHeight : Nat)
        (batch : GoMap StoredAccountData),
      (Table.addresses tbl).Nodup → (GoMap.keys batch).Nodup →
      (Set sf ord tbl blockHeight batch).2 = none →
      (∀ a d, (a, d) ∈ batch →
        (Set sf ord tbl blockHeight batch).1.filter (fun row => decide (row.address = a)) =
          [⟨a, d.StorageUsed, blockHeight⟩]) ∧
      (∀ a, a ∉ GoMap.keys batch →
        (Set sf ord tbl blockHeight batch).1.filter (fun row => decide (row.address = a)) =
          tbl.filter (fun row => decide (row.address = a))) ∧
      (∀ a, a ∈ Table.addresses tbl → a ∈ Table.addresses (Set sf ord tbl blockHeight batch).1)) ∧
    (∀ (sf₁ sf₂ : SetFaults) (ord₁ ord₂ : RangeOrder) (tbl : Table) (a : Address)
        (v₁ h₁ v₂ h₂ : Nat),
      (Table.addresses tbl).Nodup →
      (Set sf₁ ord₁ tbl h₁ [(a, ⟨v₁⟩)]).2 = none →
      (Set sf₂ ord₂ (Set sf₁ ord₁ tbl h₁ [(a, ⟨v₁⟩)]).1 h₂ [(a, ⟨v₂⟩)]).2 = none →
      (Set sf₂ ord₂ (Set sf₁ ord₁ tbl h₁ [(a, ⟨v₁⟩)]).1 h₂ [(a, ⟨v₂⟩)]).1.filter
          (fun row => decide (row.address = a)) = [⟨a, v₂, h₂⟩]) ∧
    (∀ (sf₁ sf₂ : SetFaults) (ord₁ ord₂ : RangeOrder),
      (Set sf₁ ord₁ [] 10 scenarioBatch1).2 = none →
      (Set sf₂ ord₂ (Set sf₁ ord₁ [] 10 scenarioBatch1).1 11 scenarioBatch2).2 = none →
      List.Perm (Set sf₂ ord₂ (Set sf₁ ord₁ [] 10 scenarioBatch1).1 11 scenarioBatch2).1
        [⟨addrA, 80, 11⟩, ⟨addrB, 50, 10⟩, ⟨addrC, 20, 11⟩]) := by
  refine ⟨?_, ?_, ?_⟩
  · intro sf ord tbl h batch hn hb hok
    exact Set_records sf ord tbl h batch hn hb hok
  · intro sf₁ sf₂ ord₁ ord₂ tbl a v₁ h₁ v₂ h₂ hn hok1 hok2
    have n1 := Set_nodup sf₁ ord₁ tbl h₁ _ hn hok1
    exact (Set_records sf₂ ord₂ _ h₂ [(a, ⟨v₂⟩)] n1 (by simp [GoMap.keys]) hok2).1 a ⟨v₂⟩
      (List.mem_singleton.2 rfl)
  · intro sf₁ sf₂ ord₁ ord₂ hok1 hok2
    exact Set_scenario sf₁ sf₂ ord₁ ord₂ hok1 hok2

/-- Witness for C3: on the store `A -> (100, 10)`, `B -> (50, 10)`, setting `A` to 7 at
the lower height 3 replaces the record of `A`, leaves `B` alone, and a second
write at height 2 wins again; the scenario ends in the three records. -/
theorem Set_last_write_wins_witness :
    (Set SetFaults.none RangeOrder.backward storeAB 3 [(addrA, ⟨7⟩)]).1.filter
        (fun row => decide (row.address = addrA)) = [⟨addrA, 7, 3⟩] ∧
    (Set SetFaults.none RangeOrder.backward storeAB 3 [(addrA, ⟨7⟩)]).1.filter
        (fun row => decide (row.address = addrB)) = [⟨addrB, 50, 10⟩] ∧
    (Set SetFaults.none RangeOrder.forward
        (Set SetFaults.none RangeOrder.forward storeAB 3 [(addrA, ⟨7⟩)]).1 2 [(addrA, ⟨9⟩)]).1.filter
        (fun row => decide (row.address = addrA)) = [⟨addrA, 9, 2⟩] ∧
    List.Perm
      (Set SetFaults.none RangeOrder.backward
        (Set SetFaults.none RangeOrder.forward [] 10 scenarioBatch1).1 11 scenarioBatch2).1
      [⟨addrA, 80, 11⟩, ⟨addrB, 50, 10⟩, ⟨addrC, 20, 11⟩] :=
  ⟨(Set_last_write_wins.1 SetFaults.none RangeOrder.backward storeAB 3 [(addrA, ⟨7⟩)]
      (by decide) (by decide) (by decide)).1 addrA ⟨7⟩ (by decide),
    (Set_last_write_wins.1 SetFaults.none RangeOrder.backward storeAB 3 [(addrA, ⟨7⟩)]
      (by decide) (by decide) (by decide)).2.1 addrB (by decide),
    Set_last_write_wins.2.1 SetFaults.none SetFaults.none RangeOrder.forward RangeOrder.forward
      storeAB addrA 7 3 9 2 (by decide) (by decide) (by decide),
    Set_last_write_wins.2.2 SetFaults.none SetFaults.none RangeOrder.forward RangeOrder.backward
      (by decide) (by decide)⟩


/-! ## The baseline report -/

/-- What `handleBatch` adds to the reporter log: nothing, or the two delta reports. -/
theorem handleBatch_log (env : HandleEnv) (r : ScriptResultHandler) (out : ProcessedAddressBatch) :
    (handleBatch env r out).1.notFirstReport = r.notFirstReport ∧
    ∃ post, (∀ e ∈ post, e.1 = Site.HandleUpdateResults) ∧
      (handleBatch env r out).1.reporter = r.reporter ++ post := by
  cases h : (handleBatch env r out).2 with
  | none =>
    obtain ⟨_, hr⟩ := handleBatch_success env r out h
    rw [hr]
    refine ⟨rfl, _, ?_, rfl⟩
    intro e he
    simp only [List.mem_cons, List.mem_singleton, List.not_mem_nil, or_false] at he
    rcases he with he | he <;> rw [he]
  | some e =>
    obtain ⟨_, hr⟩ := handleBatch_failure env r out e h
    rw [hr]
    exact ⟨rfl, [], by simp, by simp⟩

/-- Once the flag is set, calls only append delta reports. -/
theorem HandleAll_log (calls : Calls) (r : ScriptResultHandler) (hflag : r.notFirstReport = true) :
    ∃ post, (∀ e ∈ post, e.1 = Site.HandleUpdateResults) ∧
      (HandleAll r calls).reporter = r.reporter ++ post := by
  induction calls generalizing r with
  | nil => exact ⟨[], by simp, by simp [HandleAll]⟩
  | cons c calls ih =>
    obtain ⟨env, out⟩ := c
    have h1 : Handle env r out = handleBatch env r out := by
      unfold Handle
      rw [if_pos hflag]
    obtain ⟨hf, p1, hp1, hl1⟩ := handleBatch_log env r out
    obtain ⟨p2, hp2, hl2⟩ := ih (handleBatch env r out).1 (by rw [hf, hflag])
    refine ⟨p1 ++ p2, ?_, ?_⟩
    · intro e he
      rcases List.mem_append.1 he with he | he
      · exact hp1 e he
      · exact hp2 e he
    · simp only [HandleAll, h1, hl2, hl1, List.append_assoc]

/-- The reporter log of a fresh handler after any sequence of calls. -/
theorem HandleAll_baseline (r : ScriptResultHandler) (calls : Calls)
    (hflag : r.notFirstReport = false) (hlog : r.reporter = []) :
    ∃ post, (∀ e ∈ post, e.1 = Site.HandleUpdateResults) ∧
      (HandleAll r calls).reporter = firstCallBaseline r calls ++ post := by
  cases calls with
  | nil => exact ⟨[], by simp, by simp [HandleAll, firstCallBaseline, hlog]⟩
  | cons c calls =>
    obtain ⟨env, out⟩ := c
    simp only [HandleAll, firstCallBaseline]
    rcases firstReport_cases env { r with notFirstReport := true } with ⟨e, he⟩ | ⟨he, _⟩
    · have h1 : Handle env r out = ({ r with notFirstReport := true }, some e) := by
        unfold Handle
        simp [hflag, he]
      rw [h1, he]
      simp only [reduceCtorEq, if_false, List.nil_append]
      obtain ⟨post, hp, hl⟩ := HandleAll_log calls { r with notFirstReport := true } rfl
      exact ⟨post, hp, by rw [hl]; simp [hlog]⟩
    · have h1 : Handle env r out = handleBatch env
          { r with notFirstReport := true, reporter := r.reporter ++ baselinePair r.db } out := by
        unfold Handle
        simp [hflag, he, baselinePair]
      rw [h1, he]
      simp only [if_true]
      obtain ⟨hf, p1, hp1, hl1⟩ := handleBatch_log env
        { r with notFirstReport := true, reporter := r.reporter ++ baselinePair r.db } out
      obtain ⟨p2, hp2, hl2⟩ := HandleAll_log calls _ (hf.trans rfl)
      refine ⟨p1 ++ p2, ?_, ?_⟩
      · intro e he
        rcases List.mem_append.1 he with he | he
        · exact hp1 e he
        · exact hp2 e he
      · rw [hl2, hl1]
        simp [hlog]

/-- C4 (amended): for every sequence of `Handle` calls on a fresh handler, the reporter
log is the baseline part followed by reports of `HandleUpdateResults` only.  The
baseline part is the pair pushed by `firstReport` when the first call's
`firstReport` returns nil and is empty otherwise; so the baseline is pushed at
most once, by the first call only, before every per-batch delta, and exactly
once when the first call's `firstReport` succeeds. -/
theorem baseline_at_most_once (r : ScriptResultHandler) (calls : Calls)
    (hflag : r.notFirstReport = false) (hlog : r.reporter = []) :
    (∃ post, (∀ e ∈ post, e.1 = Site.HandleUpdateResults) ∧
      (HandleAll r calls).reporter = firstCallBaseline r calls ++ post) ∧
    (HandleAll r calls).reporter.filter (fun e => decide (e.1 = Site.firstReport)) =
      firstCallBaseline r calls ∧
    (firstCallBaseline r calls = [] ∨ firstCallBaseline r calls = baselinePair r.db) := by
  obtain ⟨post, hp, hl⟩ := HandleAll_baseline r calls hflag hlog
  have h3 : firstCallBaseline r calls = [] ∨ firstCallBaseline r calls = baselinePair r.db := by
    cases calls with
    | nil => exact Or.inl rfl
    | cons c calls =>
      obtain ⟨env, out⟩ := c
      simp only [firstCallBaseline]
      split
      · exact Or.inr rfl
      · exact Or.inl rfl
  refine ⟨⟨post, hp, hl⟩, ?_, h3⟩
  rw [hl, List.filter_append]
  have h1 : post.filter (fun e => decide (e.1 = Site.firstReport)) = [] := by
    rw [List.filter_eq_nil_iff]
    intro e he
    simp [hp e he]
  have h2 : (firstCallBaseline r calls).filter (fun e => decide (e.1 = Site.firstReport)) =
      firstCallBaseline r calls := by
    rcases h3 with h | h <;> rw [h] <;> simp [baselinePair]
  rw [h1, h2, List.append_nil]

/-- Witness for C4: in the end-to-end scenario the log starts with the one baseline
pair and no other report comes from `firstReport`. -/
theorem baseline_at_most_once_witness :
    firstCallBaseline freshHandler scenarioCalls = baselinePair [] ∧
    (HandleAll freshHandler scenarioCalls).reporter.filter
        (fun e => decide (e.1 = Site.firstReport)) = baselinePair [] :=
  ⟨by decide, by
    have h := (baseline_at_most_once freshHandler scenarioCalls rfl rfl).2.1
    rw [h]
    decide⟩

/-- Counterexample to C4 as stated: the first call's `firstReport` transaction fails,
the second call succeeds.  The log then holds the two delta reports of the second
call and no baseline report at all. -/
theorem baseline_never_after_failure :
    (Handle envFirstTxFails freshHandler ⟨10, [(addrA, 100), (addrB, 50)]⟩).2 ≠ none ∧
    (Handle envFirstTxFails freshHandler ⟨10, [(addrA, 100), (addrB, 50)]⟩).1.reporter = [] ∧
    (Handle HandleEnv.none
        (Handle envFirstTxFails freshHandler ⟨10, [(addrA, 100), (addrB, 50)]⟩).1
        ⟨10, [(addrA, 100), (addrB, 50)]⟩).2 = none ∧
    (HandleAll freshHandler callsFirstFails).reporter =
      [(Site.HandleUpdateResults, Report.ReportTotalAccountsIncreased 2),
       (Site.HandleUpdateResults, Report.ReportStorageUsedChanged 150)] ∧
    (HandleAll freshHandler callsFirstFails).reporter.filter
        (fun e => decide (e.1 = Site.firstReport)) = [] := by
  decide


/-! ## Failing transactions -/

theorem multierrorAppend_parts (e : Err) (rb : Option Err) :
    ∃ rest, multierrorAppend e rb = Err.multi (Err.parts e ++ rest) := by
  cases e <;> exact ⟨_, rfl⟩

/-- A failing `Get` or `Set` inside the transaction of `UpdateState`. -/
theorem UpdateState_rollback (env : HandleEnv) (db : Table) (h : Nat)
    (batch : ParsedProcessedAddressBatch) (e₀ : Err)
    (hbegin : env.updateTx.beginErr = none)
    (hfail : Get env.get db ((env.rangeAddresses.visit batch).map Prod.fst) = Except.error e₀ ∨
      ((∃ m, Get env.get db ((env.rangeAddresses.visit batch).map Prod.fst) = Except.ok m) ∧
        (Set env.set env.rangeSet db h batch).2 = some e₀)) :
    (UpdateState env db h batch).1 = db ∧
    (UpdateState env db h batch).2.2 = some (multierrorAppend e₀ env.updateTx.rollbackErr) := by
  rcases hfail with hg | ⟨⟨m, hg⟩, hs⟩
  · simp [UpdateState, TX, updateStateTx, hbegin, hg]
  · cases hset : Set env.set env.rangeSet db h batch with
    | mk db' e =>
      rw [hset] at hs
      simp only at hs
      subst hs
      simp [UpdateState, TX, updateStateTx, hbegin, hg, hset]

/-- A failing transaction of `UpdateState` never reaches `Commit`: its outcome plays no
part. -/
theorem UpdateState_no_commit (env : HandleEnv) (db : Table) (h : Nat)
    (batch : ParsedProcessedAddressBatch) (e₀ : Err)
    (hbegin : env.updateTx.beginErr = none)
    (hfail : Get env.get db ((env.rangeAddresses.visit batch).map Prod.fst) = Except.error e₀ ∨
      ((∃ m, Get env.get db ((env.rangeAddresses.visit batch).map Prod.fst) = Except.ok m) ∧
        (Set env.set env.rangeSet db h batch).2 = some e₀))
    (commitErr : Option Err) :
    UpdateState { env with updateTx := { env.updateTx with commitErr := commitErr } } db h batch =
      UpdateState env db h batch := by
  rcases hfail with hg | ⟨⟨m, hg⟩, hs⟩
  · simp [UpdateState, TX, updateStateTx, hbegin, hg]
  · cases hset : Set env.set env.rangeSet db h batch with
    | mk db' e =>
      rw [hset] at hs
      simp only at hs
      subst hs
      simp [UpdateState, TX, updateStateTx, hbegin, hg, hset]

/-- The first `Exec` to fail makes `Set` fail with its error. -/
theorem setLoop_exec_fails (sf : SetFaults) (h : Nat) (l : List (Address × StoredAccountData))
    (k j : Nat) (t : Table) (e : Err) (hj : j < l.length)
    (hbefore : ∀ i, i < j → sf.execErr (k + i) = none) (hat : sf.execErr (k + j) = some e) :
    (setLoop sf h k l t).2 = some e := by
  induction l generalizing k j t with
  | nil => simp at hj
  | cons x l ih =>
    obtain ⟨a, d⟩ := x
    cases j with
    | zero =>
      simp only [Nat.add_zero] at hat
      simp [setLoop, hat]
    | succ j =>
      have h0 : sf.execErr k = none := by simpa using hbefore 0 (by omega)
      simp only [setLoop, h0]
      refine ih (k + 1) j _ (by simpa using hj) ?_ ?_
      · intro i hi
        have := hbefore (i + 1) (by omega)
        rwa [show k + 1 + i = k + (i + 1) by omega]
      · rwa [show k + 1 + j = k + (j + 1) by omega]

theorem Set_exec_fails (sf : SetFaults) (ord : RangeOrder) (tbl : Table) (h : Nat)
    (batch : GoMap StoredAccountData) (j : Nat) (e : Err) (hp : sf.prepareErr = none)
    (hj : j < batch.length) (hbefore : ∀ i, i < j → sf.execErr i = none)
    (hat : sf.execErr j = some e) :
    (Set sf ord tbl h batch).2 = some e := by
  unfold Set
  rw [hp]
  refine setLoop_exec_fails sf h _ 0 j tbl e ?_ ?_ ?_
  · rw [(ord.perm batch).length_eq]; exact hj
  · intro i hi; simpa using hbefore i hi
  · simpa using hat

/-- C5: a failing `Handle` call aborts the accounting of its batch.  If inside the
transaction of `UpdateState` the `Get` fails, or the `Get` succeeds and `Set`
fails (as it does when any single upsert fails), then `TX` does not use the
outcome of `Commit` and returns the multierror made of the original error and
the outcome of the rollback, which holds the original error; the store is
exactly what it was; and `Handle`
returns that error with the store untouched and no report of
`HandleUpdateResults` added. -/
theorem failing_Handle_aborts :
    (∀ (env : HandleEnv) (db : Table) (h : Nat) (batch : ParsedProcessedAddressBatch) (e₀ : Err),
      env.updateTx.beginErr = none →
      (Get env.get db ((env.rangeAddresses.visit batch).map Prod.fst) = Except.error e₀ ∨
        ((∃ m, Get env.get db ((env.rangeAddresses.visit batch).map Prod.fst) = Except.ok m) ∧
          (Set env.set env.rangeSet db h batch).2 = some e₀)) →
      (UpdateState env db h batch).1 = db ∧
      (UpdateState env db h batch).2.2 = some (multierrorAppend e₀ env.updateTx.rollbackErr) ∧
      (∃ rest, multierrorAppend e₀ env.updateTx.rollbackErr = Err.multi (Err.parts e₀ ++ rest)) ∧
      ∀ commitErr, UpdateState
          { env with updateTx := { env.updateTx with commitErr := commitErr } } db h batch =
        UpdateState env db h batch) ∧
    (∀ (sf : SetFaults) (ord : RangeOrder) (tbl : Table) (h : Nat)
        (batch : GoMap StoredAccountData) (j : Nat) (e : Err),
      sf.prepareErr = none → j < batch.length → (∀ i, i < j → sf.execErr i = none) →
      sf.execErr j = some e → (Set sf ord tbl h batch).2 = some e) ∧
    (∀ (env : HandleEnv) (r : ScriptResultHandler) (out : ProcessedAddressBatch) (e₀ : Err),
      (r.notFirstReport = true ∨ (firstReport env { r with notFirstReport := true }).2 = none) →
      env.updateTx.beginErr = none →
      (Get env.get r.db ((env.rangeAddresses.visit (ParseProcessedAddressBatch out).2).map Prod.fst)
          = Except.error e₀ ∨
        ((∃ m, Get env.get r.db
            ((env.rangeAddresses.visit (ParseProcessedAddressBatch out).2).map Prod.fst)
              = Except.ok m) ∧
          (Set env.set env.rangeSet r.db (ParseProcessedAddressBatch out).1
            (ParseProcessedAddressBatch out).2).2 = some e₀)) →
      (Handle env r out).2 = some (multierrorAppend e₀ env.updateTx.rollbackErr) ∧
      (Handle env r out).1.db = r.db ∧
      (Handle env r out).1.reporter.filter (fun e => decide (e.1 = Site.HandleUpdateResults)) =
        r.reporter.filter (fun e => decide (e.1 = Site.HandleUpdateResults))) := by
  refine ⟨?_, ?_, ?_⟩
  · intro env db h batch e₀ hbegin hfail
    obtain ⟨h1, h2⟩ := UpdateState_rollback env db h batch e₀ hbegin hfail
    exact ⟨h1, h2, multierrorAppend_parts _ _,
      UpdateState_no_commit env db h batch e₀ hbegin hfail⟩
  · intro sf ord tbl h batch j e hp hj hbefore hat
    exact Set_exec_fails sf ord tbl h batch j e hp hj hbefore hat
  · intro env r out e₀ hfirst hbegin hfail
    have key : ∀ r1 : ScriptResultHandler, r1.db = r.db →
        (handleBatch env r1 out).2 = some (multierrorAppend e₀ env.updateTx.rollbackErr) ∧
        (handleBatch env r1 out).1 = r1 := by
      intro r1 hd
      have hu := (UpdateState_rollback env r.db _ _ e₀ hbegin hfail).2
      have h1 : (handleBatch env r1 out).2 = some (multierrorAppend e₀ env.updateTx.rollbackErr) := by
        unfold handleBatch
        rw [hd]
        split
        · rename_i db ch e' hx
          rw [hx] at hu
          exact hu
        · rename_i db ch hx
          rw [hx] at hu
          simp at hu
      exact ⟨h1, (handleBatch_failure env r1 out _ h1).2⟩
    cases hflag : r.notFirstReport with
    | true =>
      have h1 : Handle env r out = handleBatch env r out := by
        unfold Handle
        rw [if_pos hflag]
      obtain ⟨k1, k2⟩ := key r rfl
      rw [h1, k2]
      exact ⟨k1, rfl, rfl⟩
    | false =>
      have hfr : (firstReport env { r with notFirstReport := true }).2 = none := by
        rcases hfirst with h | h
        · rw [hflag] at h; exact absurd h (by simp)
        · exact h
      rcases firstReport_cases env { r with notFirstReport := true } with ⟨e, he⟩ | ⟨he, _⟩
      · rw [he] at hfr; exact absurd hfr (by simp)
      · have h1 : Handle env r out = handleBatch env
            { r with notFirstReport := true, reporter := r.reporter ++ baselinePair r.db } out := by
          unfold Handle
          simp [hflag, he, baselinePair]
        obtain ⟨k1, k2⟩ := key
          { r with notFirstReport := true, reporter := r.reporter ++ baselinePair r.db } rfl
        rw [h1, k2]
        refine ⟨k1, rfl, ?_⟩
        simp [List.filter_append, baselinePair]

/-- Witness for C5: the second `Exec` fails after `A` was upserted inside the
transaction.  `Handle` returns the multierror holding that error, the store
still has `A -> (100, 10)`, `B -> (50, 10)`, and the log is unchanged. -/
theorem failing_Handle_aborts_witness :
    (Set envSecondExecFails.set envSecondExecFails.rangeSet handlerAB.db 11 scenarioBatch2).1 =
      [⟨addrA, 80, 11⟩, ⟨addrB, 50, 10⟩] ∧
    (Handle envSecondExecFails handlerAB ⟨11, [(addrA, 80), (addrC, 20)]⟩).2 =
      some (Err.multi [Err.base "deadlock detected"]) ∧
    (Handle envSecondExecFails handlerAB ⟨11, [(addrA, 80), (addrC, 20)]⟩).1.db = storeAB ∧
    (Handle envSecondExecFails handlerAB ⟨11, [(addrA, 80), (addrC, 20)]⟩).1.reporter.filter
        (fun e => decide (e.1 = Site.HandleUpdateResults)) =
      [(Site.HandleUpdateResults, Report.ReportTotalAccountsIncreased 2),
       (Site.HandleUpdateResults, Report.ReportStorageUsedChanged 150)] :=
  have hset : (Set envSecondExecFails.set envSecondExecFails.rangeSet handlerAB.db 11
      scenarioBatch2).2 = some (Err.base "deadlock detected") :=
    failing_Handle_aborts.2.1 envSecondExecFails.set envSecondExecFails.rangeSet handlerAB.db 11
      scenarioBatch2 1 (Err.base "deadlock detected") rfl (by decide)
      (fun i hi => by
        have : i = 0 := by omega
        subst this
        rfl) rfl
  have h := failing_Handle_aborts.2.2 envSecondExecFails handlerAB
    ⟨11, [(addrA, 80), (addrC, 20)]⟩ (Err.base "deadlock detected") (Or.inl rfl) rfl
    (Or.inr ⟨⟨_, rfl⟩, hset⟩)
  ⟨by decide, h.1, h.2.1, h.2.2⟩


/-! ## Batched `Get` -/

/-- The batching of `Get` when no `rows.Next()` fails: for every store and every
address list of any length, a successful `Get` returns a mapping whose keys are
exactly the listed addresses that have a record, each mapped to its stored
`StorageUsed`.  The loop issues consecutive sub-queries of at most 100
addresses (none empty) whose concatenation is the list, so every listed
position is covered exactly once; the merged result is, as a map, the result of
one unbatched query over the whole list; and when no `Prepare`, `Query` or
`Scan` fails, `Get` is successful. -/
theorem Get_batched (gf : GetFaults) (tbl : Table) (allAddresses : List Address)
    (hn : (Table.addresses tbl).Nodup) (hnx : ∀ k j, gf.nextErr k j = none) :
    (∀ st, GetTraced gf tbl allAddresses = Except.ok st →
      Get gf tbl allAddresses = Except.ok st.results ∧
      (∀ a, a ∈ GoMap.keys st.results ↔ a ∈ allAddresses ∧ a ∈ Table.addresses tbl) ∧
      (∀ a row, a ∈ allAddresses → row ∈ tbl → row.address = a →
        GoMap.get? st.results a = some ⟨row.storageUsed⟩) ∧
      (GoMap.keys st.results).Nodup ∧
      st.issued.flatten = allAddresses ∧
      (∀ c ∈ st.issued, c.length ≤ 100 ∧ 0 < c.length) ∧
      List.Perm st.results (GetUnbatched tbl allAddresses)) ∧
    (gf.prepareErr = none → (∀ k, gf.queryErr k = none) → (∀ k j, gf.scanErr k j = none) →
      ∃ st, GetTraced gf tbl allAddresses = Except.ok st) := by
  refine ⟨?_, fun hp hq hs => GetTraced_total gf tbl allAddresses hp hq hs⟩
  intro st hst
  obtain ⟨h1, h2, h3, h4⟩ := GetTraced_ok gf tbl allAddresses hn hnx st hst
  refine ⟨by simp [Get, hst], ?_, ?_, h2, h3, h4, ?_⟩
  · intro a
    rw [GoMap.mem_keys_iff]
    constructor
    · rintro ⟨v, hv⟩
      rw [h1, storedFor_eq_some] at hv
      obtain ⟨ha, row, hrow, haddr, _, _⟩ := hv
      exact ⟨ha, haddr ▸ List.mem_map_of_mem addressData.address hrow⟩
    · rintro ⟨ha, ht⟩
      cases hf : Table.find? tbl a with
      | none => exact absurd ht ((Table.find?_eq_none tbl a).1 hf)
      | some row => exact ⟨⟨row.storageUsed⟩, by rw [h1]; simp [storedFor, ha, hf]⟩
  · intro a row ha hrow haddr
    have hf : Table.find? tbl a = some row := by
      rw [← haddr]
      exact (Table.mem_iff_find? tbl hn row).1 hrow
    rw [h1]
    simp [storedFor, ha, hf]
  · refine GoMap.perm_of_get?_eq _ _ h2 (GetUnbatched_nodup tbl allAddresses) ?_
    intro a
    rw [h1, GetUnbatched_get? tbl allAddresses hn]

set_option maxRecDepth 100000

/-- The batching of `Get` on 250 listed addresses against a store with three of them
and one unlisted address, no backend call failing.  Three sub-queries of 100,
100 and 50 addresses are issued and the result holds the three listed records. -/
theorem Get_batched_witness :
    addresses250.length = 250 ∧
    (∃ st, GetTraced GetFaults.none storeSparse addresses250 = Except.ok st ∧
      st.issued.flatten = addresses250 ∧
      (∀ c ∈ st.issued, c.length ≤ 100 ∧ 0 < c.length) ∧
      List.Perm st.results (GetUnbatched storeSparse addresses250)) ∧
    ((GetTraced GetFaults.none storeSparse addresses250).toOption.map
        (fun st => st.issued.map List.length)) = some [100, 100, 50] ∧
    GetUnbatched storeSparse addresses250 =
      [([0, 0, 0, 0, 0, 0, 0, 5], ⟨11⟩), ([0, 0, 0, 0, 0, 0, 0, 150], ⟨22⟩),
       ([0, 0, 0, 0, 0, 0, 0, 249], ⟨33⟩)] := by
  obtain ⟨st, hst⟩ := (Get_batched GetFaults.none storeSparse addresses250 (by decide)
    (fun _ _ => rfl)).2 rfl (fun _ => rfl) (fun _ _ => rfl)
  obtain ⟨_, _, _, _, h5, h6, h7⟩ :=
    (Get_batched GetFaults.none storeSparse addresses250 (by decide) (fun _ _ => rfl)).1 st hst
  exact ⟨by decide, ⟨st, hst, h5, h6, h7⟩, by decide, by decide⟩


/-- C6 (code at the failing input): the store holds `A` (100) and `B` (50) and both are
listed.  The one sub-query yields both rows; `rows.Next()` delivers the row of
`A` and then fails.  The loop ends, `rows.Err()` is never read, and `Get`
returns the mapping with `A` alone and a nil error, although `B` is listed and
has a record: the result is not what one query over the list gives. -/
theorem Get_drops_rows_after_failed_Next :
    getNextFails.nextErr 0 1 = some (Err.base "unexpected EOF") ∧
    getNextFails.prepareErr = none ∧
    queryRows storeAB [addrA, addrB] = [⟨addrA, 100, 10⟩, ⟨addrB, 50, 10⟩] ∧
    Get getNextFails storeAB [addrA, addrB] = Except.ok [(addrA, ⟨100⟩)] ∧
    GetUnbatched storeAB [addrA, addrB] = [(addrA, ⟨100⟩), (addrB, ⟨50⟩)] ∧
    addrB ∈ [addrA, addrB] ∧ addrB ∈ Table.addresses storeAB ∧
    addrB ∉ GoMap.keys ([(addrA, ⟨100⟩)] : GoMap StoredAccountData) ∧
    ¬ List.Perm ([(addrA, ⟨100⟩)] : GoMap StoredAccountData)
      (GetUnbatched storeAB [addrA, addrB]) :=
  ⟨rfl, rfl, by decide, rfl, by decide, by decide, by decide, by decide, by decide⟩

/-! ## `scanBlock` -/

theorem GoMap.mem_keys_assign {α : Type} (m : GoMap α) (k a : Address) (v : α) :
    a ∈ GoMap.keys (GoMap.assign m k v) ↔ a ∈ GoMap.keys m ∨ a = k := by
  rw [GoMap.keys_assign]
  split
  · rename_i hk
    constructor
    · exact Or.inl
    · rintro (h | h)
      · exact h
      · exact h ▸ hk
  · simp

theorem BytesToAddress_exact (n : Nat) (b : List Nat) (h : b.length = n) :
    BytesToAddress n b = b := by
  simp [BytesToAddress, h]

theorem scanPayloads_ok (n : Nat) (ps : List Payload) (S S' : GoMap Unit)
    (h : scanPayloads n ps S = Outcome.ret (Except.ok S')) :
    ((GoMap.keys S).Nodup → (GoMap.keys S').Nodup) ∧
    (∀ a, a ∈ GoMap.keys S' ↔
      a ∈ GoMap.keys S ∨ ∃ v ∈ ps.filterMap firstComponent, v.length = n ∧ a = v) ∧
    (∀ p ∈ ps, ∃ k part parts, p.Key = Except.ok k ∧ k.KeyParts = part :: parts) := by
  induction ps generalizing S with
  | nil =>
    simp only [scanPayloads, Outcome.ret.injEq, Except.ok.injEq] at h
    subst h
    simp
  | cons p ps ih =>
    unfold scanPayloads at h
    cases hk : p.Key with
    | error e => simp [hk] at h
    | ok key =>
      simp only [hk] at h
      cases hp : key.KeyParts with
      | nil => simp [hp] at h
      | cons part parts =>
        simp only [hp] at h
        have hfc : firstComponent p = some part.Value := by
          simp [firstComponent, hk, hp]
        have hall : ∀ (T : GoMap Unit), (∀ q ∈ ps, ∃ k part parts, q.Key = Except.ok k ∧
            k.KeyParts = part :: parts) →
            ∀ q ∈ p :: ps, ∃ k part parts, q.Key = Except.ok k ∧ k.KeyParts = part :: parts := by
          intro _ hq q hmem
          rcases List.mem_cons.1 hmem with hmem | hmem
          · subst hmem
            exact ⟨key, part, parts, hk, hp⟩
          · exact hq q hmem
        by_cases hlen : part.Value.length = n
        · rw [if_neg (by simpa using hlen)] at h
          obtain ⟨i1, i2, i3⟩ := ih _ h
          refine ⟨fun hS => i1 (GoMap.nodup_keys_assign S _ _ hS), ?_, hall S i3⟩
          intro a
          rw [i2, GoMap.mem_keys_assign, BytesToAddress_exact n _ hlen]
          simp only [List.filterMap_cons, hfc, List.mem_cons]
          constructor
          · rintro ((h1 | h1) | ⟨v, hv, hl, ha⟩)
            · exact Or.inl h1
            · exact Or.inr ⟨part.Value, Or.inl rfl, hlen, h1⟩
            · exact Or.inr ⟨v, Or.inr hv, hl, ha⟩
          · rintro (h1 | ⟨v, hv | hv, hl, ha⟩)
            · exact Or.inl (Or.inl h1)
            · exact Or.inl (Or.inr (ha.trans hv))
            · exact Or.inr ⟨v, hv, hl, ha⟩
        · rw [if_pos (by simpa using hlen)] at h
          obtain ⟨i1, i2, i3⟩ := ih _ h
          refine ⟨i1, ?_, hall S i3⟩
          intro a
          rw [i2]
          simp only [List.filterMap_cons, hfc, List.mem_cons]
          constructor
          · rintro (h1 | ⟨v, hv, hl, ha⟩)
            · exact Or.inl h1
            · exact Or.inr ⟨v, Or.inr hv, hl, ha⟩
          · rintro (h1 | ⟨v, hv | hv, hl, ha⟩)
            · exact Or.inl h1
            · exact absurd (hv ▸ hl) hlen
            · exact Or.inr ⟨v, hv, hl, ha⟩

theorem scanUpdates_ok (n : Nat) (updates : List TrieUpdate) (S S' : GoMap Unit)
    (h : scanUpdates n updates S = Outcome.ret (Except.ok S')) :
    ((GoMap.keys S).Nodup → (GoMap.keys S').Nodup) ∧
    (∀ a, a ∈ GoMap.keys S' ↔
      a ∈ GoMap.keys S ∨ ∃ v ∈ firstComponents updates, v.length = n ∧ a = v) ∧
    (∀ u ∈ updates, ∀ p ∈ u.Payloads, ∃ k part parts,
      p.Key = Except.ok k ∧ k.KeyParts = part :: parts) := by
  induction updates generalizing S with
  | nil =>
    simp only [scanUpdates, Outcome.ret.injEq, Except.ok.injEq] at h
    subst h
    simp [firstComponents]
  | cons u updates ih =>
    unfold scanUpdates at h
    cases hp : scanPayloads n u.Payloads S with
    | panic => simp [hp] at h
    | ret r =>
      cases r with
      | error e => simp [hp] at h
      | ok S₁ =>
        simp only [hp] at h
        obtain ⟨p1, p2, p3⟩ := scanPayloads_ok n _ _ _ hp
        obtain ⟨i1, i2, i3⟩ := ih _ h
        refine ⟨fun hS => i1 (p1 hS), ?_, ?_⟩
        · intro a
          rw [i2, p2]
          simp only [firstComponents, List.mem_append]
          constructor
          · rintro ((h1 | ⟨v, hv, hl, ha⟩) | ⟨v, hv, hl, ha⟩)
            · exact Or.inl h1
            · exact Or.inr ⟨v, Or.inl hv, hl, ha⟩
            · exact Or.inr ⟨v, Or.inr hv, hl, ha⟩
          · rintro (h1 | ⟨v, hv | hv, hl, ha⟩)
            · exact Or.inl (Or.inl h1)
            · exact Or.inl (Or.inr ⟨v, hv, hl, ha⟩)
            · exact Or.inr ⟨v, hv, hl, ha⟩
        · intro u' hu'
          rcases List.mem_cons.1 hu' with hu' | hu'
          · subst hu'
            exact p3
          · exact i3 u' hu'

theorem scanPayloads_total (n : Nat) (ps : List Payload) (S : GoMap Unit)
    (hk : ∀ p ∈ ps, ∃ k, p.Key = Except.ok k ∧ k.KeyParts ≠ []) :
    ∃ S', scanPayloads n ps S = Outcome.ret (Except.ok S') := by
  induction ps generalizing S with
  | nil => exact ⟨S, rfl⟩
  | cons p ps ih =>
    obtain ⟨k, hk1, hk2⟩ := hk p (List.mem_cons_self _ _)
    have ih := fun T => ih T (fun q hq => hk q (List.mem_cons_of_mem _ hq))
    unfold scanPayloads
    simp only [hk1]
    cases hp : k.KeyParts with
    | nil => exact absurd hp hk2
    | cons part parts =>
      simp only
      split
      · exact ih _
      · exact ih _

theorem scanUpdates_total (n : Nat) (updates : List TrieUpdate) (S : GoMap Unit)
    (hk : ∀ u ∈ updates, ∀ p ∈ u.Payloads, ∃ k, p.Key = Except.ok k ∧ k.KeyParts ≠ []) :
    ∃ S', scanUpdates n updates S = Outcome.ret (Except.ok S') := by
  induction updates generalizing S with
  | nil => exact ⟨S, rfl⟩
  | cons u updates ih =>
    obtain ⟨S₁, h1⟩ := scanPayloads_total n u.Payloads S (hk u (List.mem_cons_self _ _))
    obtain ⟨S₂, h2⟩ := ih S₁ (fun u' hu' => hk u' (List.mem_cons_of_mem _ hu'))
    exact ⟨S₂, by unfold scanUpdates; simp only [h1]; exact h2⟩

/-- An error of the payload loop is a wrapped `Key()` error of one of the payloads. -/
theorem scanPayloads_error (n : Nat) (ps : List Payload) (S : GoMap Unit) (e : Err)
    (h : scanPayloads n ps S = Outcome.ret (Except.error e)) :
    ∃ p ∈ ps, ∃ e₀, p.Key = Except.error e₀ ∧ e = Err.wrap "could not get payload key" e₀ := by
  induction ps generalizing S with
  | nil => simp [scanPayloads] at h
  | cons p ps ih =>
    unfold scanPayloads at h
    cases hk : p.Key with
    | error e₀ =>
      simp only [hk, Outcome.ret.injEq, Except.error.injEq] at h
      exact ⟨p, List.mem_cons_self _ _, e₀, hk, h.symm⟩
    | ok key =>
      simp only [hk] at h
      cases hp : key.KeyParts with
      | nil => simp [hp] at h
      | cons part parts =>
        simp only [hp] at h
        have step : ∀ T, scanPayloads n ps T = Outcome.ret (Except.error e) →
            ∃ q ∈ p :: ps, ∃ e₀, q.Key = Except.error e₀ ∧
              e = Err.wrap "could not get payload key" e₀ := by
          intro T hT
          obtain ⟨q, hq, e₀, h1, h2⟩ := ih T hT
          exact ⟨q, List.mem_cons_of_mem _ hq, e₀, h1, h2⟩
        split at h
        · exact step _ h
        · exact step _ h

theorem scanUpdates_error (n : Nat) (updates : List TrieUpdate) (S : GoMap Unit) (e : Err)
    (h : scanUpdates n updates S = Outcome.ret (Except.error e)) :
    ∃ u ∈ updates, ∃ p ∈ u.Payloads, ∃ e₀, p.Key = Except.error e₀ ∧
      e = Err.wrap "could not get payload key" e₀ := by
  induction updates generalizing S with
  | nil => simp [scanUpdates] at h
  | cons u updates ih =>
    unfold scanUpdates at h
    cases hp : scanPayloads n u.Payloads S with
    | panic => simp [hp] at h
    | ret y =>
      cases y with
      | error e' =>
        simp only [hp, Outcome.ret.injEq, Except.error.injEq] at h
        subst h
        obtain ⟨p, hpm, e₀, h1, h2⟩ := scanPayloads_error n _ _ _ hp
        exact ⟨u, List.mem_cons_self _ _, p, hpm, e₀, h1, h2⟩
      | ok S₁ =>
        simp only [hp] at h
        obtain ⟨u', hu', p, hpm, e₀, h1, h2⟩ := ih S₁ h
        exact ⟨u', List.mem_cons_of_mem _ hu', p, hpm, e₀, h1, h2⟩

/-- The shape of `scanBlock` once the trie updates are extracted. -/
theorem scanBlock_extracted (s : CandidateScanner) (height id : Nat)
    (m : Option BlockExecutionData) (updates : List TrieUpdate)
    (hid : s.GetBlockByHeight height = Except.ok id)
    (hm : s.GetExecutionDataByBlockID id = Except.ok m)
    (hex : extractTrieUpdates m = Except.ok updates) :
    scanBlock s height = scanExtracted s.AddressLength updates := by
  simp [scanBlock, getBlockID, getExecutionData, hid, hm, hex]

/-- The key-length filter on the results `scanBlock` returns: for every list of trie
updates extracted for a block whose payload keys all decode, every result
`scanBlock` returns has no error and its candidate set contains an address `a`
iff some payload's first key component has byte length exactly
`flow.AddressLength` and its bytes are `a`; a shorter or longer first component
contributes nothing, and no address appears twice.  A result is returned when
every decoded key has a first component. -/
theorem scanBlock_key_length_filter (s : CandidateScanner) (height id : Nat)
    (m : Option BlockExecutionData) (updates : List TrieUpdate)
    (hid : s.GetBlockByHeight height = Except.ok id)
    (hm : s.GetExecutionDataByBlockID id = Except.ok m)
    (hex : extractTrieUpdates m = Except.ok updates)
    (hdecode : ∀ u ∈ updates, ∀ p ∈ u.Payloads, ∃ k, p.Key = Except.ok k) :
    (∀ r, scanBlock s height = Outcome.ret r →
      r.err = none ∧
      (∀ a, a ∈ GoMap.keys r.Addresses ↔
        ∃ v ∈ firstComponents updates, v.length = s.AddressLength ∧ a = v) ∧
      (GoMap.keys r.Addresses).Nodup) ∧
    ((∀ u ∈ updates, ∀ p ∈ u.Payloads, ∀ k, p.Key = Except.ok k → k.KeyParts ≠ []) →
      ∃ r, scanBlock s height = Outcome.ret r) := by
  rw [scanBlock_extracted s height id m updates hid hm hex]
  refine ⟨?_, ?_⟩
  · intro r hr
    unfold scanExtracted at hr
    cases hs : scanUpdates s.AddressLength updates [] with
    | panic => simp [hs] at hr
    | ret x =>
      cases x with
      | error e =>
        obtain ⟨u, hu, p, hp, e₀, h1, _⟩ := scanUpdates_error _ _ _ _ hs
        obtain ⟨k, hk⟩ := hdecode u hu p hp
        rw [hk] at h1
        exact absurd h1 (by simp)
      | ok S =>
        simp only [hs, Outcome.ret.injEq] at hr
        subst hr
        obtain ⟨h1, h2, _⟩ := scanUpdates_ok _ _ _ _ hs
        refine ⟨rfl, ?_, h1 (by simp [GoMap.keys])⟩
        intro a
        rw [show (NewCandidatesResult S).Addresses = S from rfl, h2]
        simp [GoMap.keys]
  · intro hne
    obtain ⟨S, hS⟩ := scanUpdates_total s.AddressLength updates [] (by
      intro u hu p hp
      obtain ⟨k, hk⟩ := hdecode u hu p hp
      exact ⟨k, hk, hne u hu p hp k hk⟩)
    exact ⟨NewCandidatesResult S, by simp [scanExtracted, hS]⟩

/-- The key-length filter on a block with `A` twice, `B`, a component of 3 bytes and a
component of 32 bytes that starts with the bytes of `A`.  The candidates are `A`
and `B`, once each; the component of 32 bytes is not among them. -/
theorem scanBlock_key_length_filter_witness :
    longComponent.length = 32 ∧ longComponent.take 8 = addrA ∧
    longComponent ∈ firstComponents [updateAB, updateA] ∧
    ∃ r, scanBlock scannerAB 5 = Outcome.ret r ∧ r.err = none ∧
      GoMap.keys r.Addresses = [addrA, addrB] ∧ longComponent ∉ GoMap.keys r.Addresses := by
  have hdecode : ∀ u ∈ [updateAB, updateA], ∀ p ∈ u.Payloads, ∃ k, p.Key = Except.ok k := by
    intro u hu p hp
    simp only [List.mem_cons, List.mem_singleton, List.not_mem_nil, or_false] at hu
    rcases hu with rfl | rfl
    · simp only [updateAB, List.mem_cons, List.mem_singleton, List.not_mem_nil, or_false] at hp
      rcases hp with rfl | rfl | rfl <;> exact ⟨_, rfl⟩
    · simp only [updateA, List.mem_cons, List.mem_singleton, List.not_mem_nil, or_false] at hp
      rcases hp with rfl | rfl <;> exact ⟨_, rfl⟩
  have h := (scanBlock_key_length_filter scannerAB 5 5 (some executionDataAB) [updateAB, updateA]
    rfl rfl rfl hdecode).1 ⟨[(addrA, ()), (addrB, ())], none⟩ rfl
  refine ⟨by decide, by decide, by decide, _, rfl, h.1, rfl, ?_⟩
  intro hmem
  obtain ⟨v, _, hl, hv⟩ := (h.2.1 longComponent).1 hmem
  rw [← hv] at hl
  exact absurd hl (by decide)


/-- C7 (code at the failing input): one trie update with payloads for `C`, for a key
without key parts, and for `D`.  Every payload key decodes and the first key
components of 8 bytes are `C` and `D`, which the candidate set should hold; but
reading `KeyParts[0]` of the second key panics, and `scanBlock` returns no
candidate set at all. -/
theorem scanBlock_filter_returns_no_set :
    getBlockID scannerCD 9 = Except.ok 9 ∧
    getExecutionData scannerCD 9 = Except.ok (some executionDataCD) ∧
    extractTrieUpdates (some executionDataCD) = Except.ok [updateCD] ∧
    (∀ p ∈ updateCD.Payloads, ∃ k, p.Key = Except.ok k) ∧
    firstComponents [updateCD] = [addrC, addrD] ∧
    addrC.length = scannerCD.AddressLength ∧ addrD.length = scannerCD.AddressLength ∧
    scanBlock scannerCD 9 = Outcome.panic ∧
    ¬ ∃ r, scanBlock scannerCD 9 = Outcome.ret r := by
  refine ⟨rfl, rfl, rfl, ?_, by decide, by decide, by decide, rfl, ?_⟩
  · intro p hp
    simp only [updateCD, List.mem_cons, List.mem_singleton, List.not_mem_nil, or_false] at hp
    rcases hp with rfl | rfl | rfl <;> exact ⟨_, rfl⟩
  · rintro ⟨r, hr⟩
    have h : scanBlock scannerCD 9 = Outcome.panic := rfl
    rw [h] at hr
    exact absurd hr (by simp)

/-! ## Error results of `scanBlock` -/

theorem extractChunks_error (i : Nat) (cs : List ChunkMessage) (updates : List TrieUpdate)
    (e : Err) (h : extractChunks i cs updates = Except.error e) :
    ∃ j c e₀, cs[j]? = some c ∧ c.converted = Except.error e₀ ∧
      e = Err.wrapAt "could not convert chunk" (i + j) e₀ := by
  induction cs generalizing i updates with
  | nil => simp [extractChunks] at h
  | cons c cs ih =>
    unfold extractChunks at h
    cases hc : c.converted with
    | error e₀ =>
      simp only [hc, Except.error.injEq] at h
      exact ⟨0, c, e₀, by simp, hc, h.symm⟩
    | ok u =>
      have step : ∀ ups, extractChunks (i + 1) cs ups = Except.error e →
          ∃ j c' e₀, (c :: cs)[j]? = some c' ∧ c'.converted = Except.error e₀ ∧
            e = Err.wrapAt "could not convert chunk" (i + j) e₀ := by
        intro ups hu
        obtain ⟨j, c', e₀, h1, h2, h3⟩ := ih _ _ hu
        exact ⟨j + 1, c', e₀, by simpa using h1, h2, by rw [h3]; congr 1; omega⟩
      cases u with
      | none => simp only [hc] at h; exact step _ h
      | some u => simp only [hc] at h; exact step _ h

/-- Every error result of `scanBlock` carries no candidates and wraps its cause: a
failed block-ID resolution, a failed execution-data fetch, a nil message or a
chunk that fails to convert (with its index), or a payload whose `Key()` fails. -/
theorem scanBlock_error (s : CandidateScanner) (height : Nat) (r : CandidatesResult) (e : Err)
    (h : scanBlock s height = Outcome.ret r) (he : r.err = some e) :
    r.Addresses = [] ∧
    ((∃ e₀, s.GetBlockByHeight height = Except.error e₀ ∧
        e = Err.wrap "could not get block ID" e₀) ∨
     (∃ id e₀, s.GetBlockByHeight height = Except.ok id ∧
        s.GetExecutionDataByBlockID id = Except.error e₀ ∧
        e = Err.wrap "could not get execution data" e₀) ∨
     (∃ id, s.GetBlockByHeight height = Except.ok id ∧
        s.GetExecutionDataByBlockID id = Except.ok none ∧
        e = Err.wrap "could not convert execution data" ErrEmptyMessage) ∨
     (∃ id m j c e₀, s.GetBlockByHeight height = Except.ok id ∧
        s.GetExecutionDataByBlockID id = Except.ok (some m) ∧
        m.ChunkExecutionData[j]? = some c ∧ c.converted = Except.error e₀ ∧
        e = Err.wrap "could not convert execution data"
          (Err.wrapAt "could not convert chunk" j e₀)) ∨
     (∃ id m updates, s.GetBlockByHeight height = Except.ok id ∧
        s.GetExecutionDataByBlockID id = Except.ok m ∧
        extractTrieUpdates m = Except.ok updates ∧
        ∃ u ∈ updates, ∃ p ∈ u.Payloads, ∃ e₀, p.Key = Except.error e₀ ∧
          e = Err.wrap "could not get payload key" e₀)) := by
  unfold scanBlock getBlockID at h
  cases hid : s.GetBlockByHeight height with
  | error e₀ =>
    simp only [hid, Outcome.ret.injEq] at h
    subst h
    simp only [NewCandidatesResultError, Option.some.injEq] at he
    exact ⟨rfl, Or.inl ⟨e₀, rfl, he.symm⟩⟩
  | ok id =>
    simp only [hid] at h
    unfold getExecutionData at h
    cases hm : s.GetExecutionDataByBlockID id with
    | error e₀ =>
      simp only [hm, Outcome.ret.injEq] at h
      subst h
      simp only [NewCandidatesResultError, Option.some.injEq] at he
      exact ⟨rfl, Or.inr (Or.inl ⟨id, e₀, rfl, hm, he.symm⟩)⟩
    | ok m =>
      simp only [hm] at h
      cases hex : extractTrieUpdates m with
      | error e₁ =>
        simp only [hex, Outcome.ret.injEq] at h
        subst h
        simp only [NewCandidatesResultError, Option.some.injEq] at he
        subst he
        refine ⟨rfl, ?_⟩
        cases m with
        | none =>
          simp only [extractTrieUpdates, Except.error.injEq] at hex
          subst hex
          exact Or.inr (Or.inr (Or.inl ⟨id, rfl, hm, rfl⟩))
        | some m =>
          simp only [extractTrieUpdates] at hex
          obtain ⟨j, c, e₀, h1, h2, h3⟩ := extractChunks_error _ _ _ _ hex
          rw [Nat.zero_add] at h3
          subst h3
          exact Or.inr (Or.inr (Or.inr (Or.inl ⟨id, m, j, c, e₀, rfl, hm, h1, h2, rfl⟩)))
      | ok updates =>
        simp only [hex] at h
        unfold scanExtracted at h
        cases hs : scanUpdates s.AddressLength updates [] with
        | panic => simp [hs] at h
        | ret x =>
          cases x with
          | ok S =>
            simp only [hs, Outcome.ret.injEq] at h
            subst h
            simp [NewCandidatesResult] at he
          | error e₁ =>
            simp only [hs, Outcome.ret.injEq] at h
            subst h
            simp only [NewCandidatesResultError, Option.some.injEq] at he
            subst he
            obtain ⟨u, hu, p, hp, e₀, h1, h2⟩ := scanUpdates_error _ _ _ _ hs
            exact ⟨rfl, Or.inr (Or.inr (Or.inr (Or.inr
              ⟨id, m, updates, rfl, hm, hex, u, hu, p, hp, e₀, h1, h2⟩)))⟩

/-- C9 (code at the failing input): the block ID resolves, the execution data is
fetched, `extractTrieUpdates` succeeds and the `Key()` of both payloads returns
no error, the first payload yielding the address `A`; the second key has no key
parts, and `scanBlock` panics: it returns neither a candidate set nor an error
result. -/
theorem scanBlock_panics_without_key_parts :
    getBlockID scannerNoParts 5 = Except.ok 5 ∧
    getExecutionData scannerNoParts 5 = Except.ok (some executionDataNoParts) ∧
    extractTrieUpdates (some executionDataNoParts) =
      Except.ok [⟨[payloadOf addrA, payloadNoParts]⟩] ∧
    (payloadOf addrA).Key = Except.ok ⟨[⟨addrA⟩, ⟨[1, 2, 3]⟩]⟩ ∧
    payloadNoParts.Key = Except.ok ⟨[]⟩ ∧
    scanBlock scannerNoParts 5 = Outcome.panic ∧
    ¬ ∃ r, scanBlock scannerNoParts 5 = Outcome.ret r :=
  ⟨rfl, rfl, rfl, rfl, rfl, rfl, fun ⟨_, hr⟩ => by
    have h : scanBlock scannerNoParts 5 = Outcome.panic := rfl
    rw [h] at hr
    exact absurd hr (by simp)⟩


/-! ## The dispatch loop of `Scan` -/

theorem dispatch_run (blocksEnd : Nat) (hEnd : blocksEnd + 1 < 2 ^ 64) (fuel blockHeight : Nat)
    (spawned : List Nat) (hle : blockHeight ≤ blocksEnd + 1)
    (hfuel : blocksEnd + 1 - blockHeight ≤ fuel) :
    dispatch blocksEnd fuel blockHeight spawned =
      ⟨true, spawned ++ List.range' blockHeight (blocksEnd + 1 - blockHeight)⟩ := by
  induction fuel generalizing blockHeight spawned with
  | zero =>
    have h : blockHeight = blocksEnd + 1 := by omega
    unfold dispatch
    rw [if_neg (by omega)]
    simp [h]
  | succ fuel ih =>
    unfold dispatch
    by_cases hb : blockHeight ≤ blocksEnd
    · rw [if_pos hb]
      simp only
      have h1 : addU64 blockHeight 1 = blockHeight + 1 := by
        unfold addU64
        exact Nat.mod_eq_of_lt (by omega)
      rw [h1, ih (blockHeight + 1) _ (by omega) (by omega)]
      have h2 : blocksEnd + 1 - blockHeight = (blocksEnd + 1 - (blockHeight + 1)) + 1 := by omega
      rw [h2, List.range'_succ]
      simp
    · rw [if_neg hb]
      have h : blockHeight = blocksEnd + 1 := by omega
      simp [h]

theorem dispatch_never_ends (blocksEnd : Nat) (hEnd : 2 ^ 64 ≤ blocksEnd + 1) (fuel blockHeight : Nat)
    (spawned : List Nat) (hb : blockHeight < 2 ^ 64) :
    (dispatch blocksEnd fuel blockHeight spawned).finished = false := by
  induction fuel generalizing blockHeight spawned with
  | zero =>
    unfold dispatch
    rw [if_pos (by omega)]
  | succ fuel ih =>
    unfold dispatch
    rw [if_pos (by omega)]
    exact ih _ _ (Nat.mod_lt _ (by norm_num))

theorem channelCapacity_exact (blocks : BlockRange) (h : blocks.Start ≤ blocks.End)
    (hEnd : blocks.End + 1 < 2 ^ 64) :
    channelCapacity blocks = blocks.End - blocks.Start + 1 := by
  unfold channelCapacity subU64 addU64
  rw [Nat.mod_eq_of_lt (show blocks.End < 2 ^ 64 by omega),
    Nat.mod_eq_of_lt (show blocks.Start < 2 ^ 64 by omega)]
  have h1 : (blocks.End + 2 ^ 64 - blocks.Start) % 2 ^ 64 = blocks.End - blocks.Start := by
    have : blocks.End + 2 ^ 64 - blocks.Start = (blocks.End - blocks.Start) + 2 ^ 64 := by omega
    rw [this, Nat.add_mod_right]
    exact Nat.mod_eq_of_lt (by omega)
  rw [h1]
  exact Nat.mod_eq_of_lt (by omega)

theorem makeChanPanics_false (maxFanOut capacity : Nat) (hcap : capacity ≤ maxFanOut)
    (hint : capacity < 2 ^ 63) : makeChanPanics maxFanOut capacity = false := by
  unfold makeChanPanics
  simp only [Bool.or_eq_false_iff, decide_eq_false_iff_not]
  omega

theorem makeChanPanics_true (maxFanOut capacity : Nat)
    (h : 2 ^ 63 ≤ capacity ∨ maxFanOut < capacity) : makeChanPanics maxFanOut capacity = true := by
  unfold makeChanPanics
  simp only [Bool.or_eq_true, decide_eq_true_eq]
  exact h

/-- The dispatch loop never ends for a range that ends at the largest `uint64`, so
`Scan` does not return a result there. -/
theorem Scan_max_height (maxFanOut : Nat) (s : CandidateScanner) (arrival : RangeOrder)
    (fuel start : Nat) (hstart : start < 2 ^ 64) (r : CandidatesResult) :
    Scan maxFanOut s arrival fuel ⟨start, 18446744073709551615⟩ ≠ some (Outcome.ret r) := by
  have h := dispatch_never_ends 18446744073709551615 (by norm_num) fuel start [] hstart
  unfold Scan
  split
  · simp
  · cases hd : dispatch 18446744073709551615 fuel start [] with
    | mk fin sp =>
      rw [hd] at h
      simp only at h
      subst h
      simp

/-- C10 (amended): for every block range with `Start ≤ End`, `End` below the largest
`uint64` and a number of heights that the runtime can serve (at most `maxFanOut`)
and that is below `2 ^ 63`, the dispatch loop of `Scan` ends (given at least as
many iterations as the range has heights) having spawned exactly one task for
each height `Start, Start + 1, ..., End` and no other; the task count is
`End - Start + 1`, which is the channel capacity, for which `make` returns a
channel, and the number of results `WaitForCandidateResults` is told to
collect. -/
theorem dispatch_one_task_per_height (maxFanOut : Nat) (blocks : BlockRange) (fuel : Nat)
    (hrange : blocks.Start ≤ blocks.End) (hEnd : blocks.End + 1 < 2 ^ 64)
    (hcap : blocks.End - blocks.Start + 1 ≤ maxFanOut)
    (hcard : blocks.End - blocks.Start + 1 < 2 ^ 63)
    (hfuel : blocks.End - blocks.Start + 1 ≤ fuel) :
    dispatch blocks.End fuel blocks.Start [] =
      ⟨true, List.range' blocks.Start (blocks.End - blocks.Start + 1)⟩ ∧
    (∀ h, h ∈ (dispatch blocks.End fuel blocks.Start []).spawned ↔
      blocks.Start ≤ h ∧ h ≤ blocks.End) ∧
    (dispatch blocks.End fuel blocks.Start []).spawned.Nodup ∧
    (dispatch blocks.End fuel blocks.Start []).spawned.length = blocks.End - blocks.Start + 1 ∧
    channelCapacity blocks = blocks.End - blocks.Start + 1 ∧
    makeChanPanics maxFanOut (channelCapacity blocks) = false ∧
    toInt64 (channelCapacity blocks) = ((blocks.End - blocks.Start + 1 : Nat) : Int) := by
  have h1 := dispatch_run blocks.End hEnd fuel blocks.Start [] (by omega) (by omega)
  have h2 : blocks.End + 1 - blocks.Start = blocks.End - blocks.Start + 1 := by omega
  rw [h2, List.nil_append] at h1
  have h3 := channelCapacity_exact blocks hrange hEnd
  rw [h1, h3]
  refine ⟨rfl, ?_, List.nodup_range' _ _, List.length_range' _ _ _, rfl,
    makeChanPanics_false _ _ hcap hcard, ?_⟩
  · intro h
    simp only [List.mem_range'_1]
    omega
  · unfold toInt64
    rw [Nat.mod_eq_of_lt (by omega), if_pos hcard]

/-- Witness for C10: the range `[3, 7]` has five heights; with six iterations allowed
the loop has ended with the tasks `3, 4, 5, 6, 7`. -/
theorem dispatch_one_task_per_height_witness :
    dispatch 7 6 3 [] = ⟨true, [3, 4, 5, 6, 7]⟩ ∧ channelCapacity ⟨3, 7⟩ = 5 ∧
    makeChanPanics maxFanOutExample (channelCapacity ⟨3, 7⟩) = false ∧
    toInt64 (channelCapacity ⟨3, 7⟩) = 5 :=
  have h := dispatch_one_task_per_height maxFanOutExample ⟨3, 7⟩ 6 (by decide) (by decide)
    (by decide) (by decide) (by decide)
  ⟨h.1, h.2.2.2.2.1, h.2.2.2.2.2.1, h.2.2.2.2.2.2⟩

/-- Counterexample to C10 as stated: for the range `[2^64 - 1, 2^64 - 1]` of one height
the loop spawns a task for that height, `blockHeight++` wraps to 0, a second
task is spawned for height 0 outside the range, and the loop never ends.  For
the range `[0, 2^63 - 1]` the capacity `2^63` does not fit an `int`: `make`
panics, and `int(...)` of it is `-2^63`, not the number of heights.  For a range
of more heights than the runtime serves, such as `2^45` heights with
`maxFanOutExample`, `make` ends the program before any task is spawned. -/
theorem dispatch_wraps_at_max_height :
    (18446744073709551615 : Nat) ≤ 18446744073709551615 ∧
    dispatch 18446744073709551615 2 18446744073709551615 [] =
      ⟨false, [18446744073709551615, 0]⟩ ∧
    (∀ fuel, (dispatch 18446744073709551615 fuel 18446744073709551615 []).finished = false) ∧
    (∀ s arrival fuel,
      Scan maxFanOutExample s arrival fuel ⟨18446744073709551615, 18446744073709551615⟩ = none) ∧
    channelCapacity ⟨0, 9223372036854775807⟩ = 9223372036854775808 ∧
    toInt64 (channelCapacity ⟨0, 9223372036854775807⟩) = -9223372036854775808 ∧
    (∀ maxFanOut s arrival fuel,
      Scan maxFanOut s arrival fuel ⟨0, 9223372036854775807⟩ = some Outcome.panic) ∧
    channelCapacity ⟨0, 35184372088831⟩ = 35184372088832 ∧
    (∀ s arrival fuel,
      Scan maxFanOutExample s arrival fuel ⟨0, 35184372088831⟩ = some Outcome.panic) ∧
    (∀ maxFanOut s arrival fuel, maxFanOut + 1 < 2 ^ 64 →
      Scan maxFanOut s arrival fuel ⟨0, maxFanOut⟩ = some Outcome.panic) := by
  refine ⟨by decide, by decide, ?_, ?_, by decide, by decide, ?_, by decide, ?_, ?_⟩
  · intro fuel
    exact dispatch_never_ends _ (by norm_num) fuel _ _ (by norm_num)
  · intro s arrival fuel
    have h := dispatch_never_ends 18446744073709551615 (by norm_num) fuel
      18446744073709551615 [] (by norm_num)
    unfold Scan
    rw [if_neg (by decide)]
    cases hd : dispatch 18446744073709551615 fuel 18446744073709551615 [] with
    | mk fin sp =>
      rw [hd] at h
      simp only at h
      subst h
      rfl
  · intro maxFanOut s arrival fuel
    unfold Scan
    rw [if_pos (makeChanPanics_true _ _ (Or.inl (by decide)))]
  · intro s arrival fuel
    unfold Scan
    rw [if_pos (by decide)]
  · intro maxFanOut s arrival fuel hm
    have hc : channelCapacity ⟨0, maxFanOut⟩ = maxFanOut + 1 := by
      have := channelCapacity_exact ⟨0, maxFanOut⟩ (Nat.zero_le _) hm
      simpa using this
    unfold Scan
    rw [if_pos (makeChanPanics_true _ _ (Or.inr (by rw [hc]; omega)))]

/-! ## The union over the heights of a range -/

theorem dispatch_finished (blocksEnd : Nat) (hEnd : blocksEnd + 1 < 2 ^ 64) (fuel blockHeight : Nat)
    (spawned spawned' : List Nat) (hle : blockHeight ≤ blocksEnd + 1)
    (h : dispatch blocksEnd fuel blockHeight spawned = ⟨true, spawned'⟩) :
    spawned' = spawned ++ List.range' blockHeight (blocksEnd + 1 - blockHeight) := by
  induction fuel generalizing blockHeight spawned with
  | zero =>
    unfold dispatch at h
    by_cases hb : blockHeight ≤ blocksEnd
    · rw [if_pos hb] at h
      simp at h
    · rw [if_neg hb] at h
      have h1 : blockHeight = blocksEnd + 1 := by omega
      simp only [Dispatch.mk.injEq, true_and] at h
      simp [h1, h]
  | succ fuel ih =>
    unfold dispatch at h
    by_cases hb : blockHeight ≤ blocksEnd
    · rw [if_pos hb] at h
      simp only at h
      have h1 : addU64 blockHeight 1 = blockHeight + 1 := by
        unfold addU64
        exact Nat.mod_eq_of_lt (by omega)
      rw [h1] at h
      rw [ih (blockHeight + 1) _ (by omega) h]
      have h2 : blocksEnd + 1 - blockHeight = (blocksEnd + 1 - (blockHeight + 1)) + 1 := by omega
      rw [h2, List.range'_succ]
      simp
    · rw [if_neg hb] at h
      have h1 : blockHeight = blocksEnd + 1 := by omega
      simp only [Dispatch.mk.injEq, true_and] at h
      simp [h1, h]

theorem taskResults_ret (os : List (Outcome CandidatesResult)) (rs : List CandidatesResult) :
    taskResults os = Outcome.ret rs ↔ os = rs.map Outcome.ret := by
  induction os generalizing rs with
  | nil =>
    cases rs <;> simp [taskResults]
  | cons o os ih =>
    cases o with
    | panic =>
      cases rs <;> simp [taskResults]
    | ret r =>
      unfold taskResults
      cases ht : taskResults os with
      | panic =>
        simp only [false_iff, reduceCtorEq]
        intro h
        cases rs with
        | nil => simp at h
        | cons r' rs' =>
          simp only [List.map_cons, List.cons.injEq, Outcome.ret.injEq] at h
          have := (ih rs').2 h.2
          rw [ht] at this
          exact absurd this (by simp)
      | ret rs₀ =>
        have h0 := (ih rs₀).1 ht
        simp only [Outcome.ret.injEq]
        constructor
        · intro h
          subst h
          simp [h0]
        · intro h
          cases rs with
          | nil => simp at h
          | cons r' rs' =>
            simp only [List.map_cons, List.cons.injEq, Outcome.ret.injEq] at h
            have := (ih rs').2 h.2
            rw [ht] at this
            simp only [Outcome.ret.injEq] at this
            rw [h.1, this]

theorem addAll_keys (addresses : GoMap Unit) (all : GoMap Unit) :
    ((GoMap.keys all).Nodup →
      (GoMap.keys (addresses.foldl (fun all e => GoMap.assign all e.1 ()) all)).Nodup) ∧
    ∀ a, a ∈ GoMap.keys (addresses.foldl (fun all e => GoMap.assign all e.1 ()) all) ↔
      a ∈ GoMap.keys all ∨ a ∈ GoMap.keys addresses := by
  induction addresses generalizing all with
  | nil => simp [GoMap.keys]
  | cons e addresses ih =>
    obtain ⟨i1, i2⟩ := ih (GoMap.assign all e.1 ())
    refine ⟨fun h => i1 (GoMap.nodup_keys_assign all _ _ h), ?_⟩
    intro a
    rw [List.foldl_cons, i2, GoMap.mem_keys_assign]
    simp only [GoMap.keys, List.map_cons, List.mem_cons]
    tauto

theorem union_keys (rs : List CandidatesResult) (all : GoMap Unit) :
    ((GoMap.keys all).Nodup →
      (GoMap.keys (rs.foldl
        (fun all r => r.Addresses.foldl (fun all e => GoMap.assign all e.1 ()) all) all)).Nodup) ∧
    ∀ a, a ∈ GoMap.keys (rs.foldl
        (fun all r => r.Addresses.foldl (fun all e => GoMap.assign all e.1 ()) all) all) ↔
      a ∈ GoMap.keys all ∨ ∃ r ∈ rs, a ∈ GoMap.keys r.Addresses := by
  induction rs generalizing all with
  | nil => simp
  | cons r rs ih =>
    obtain ⟨i1, i2⟩ := ih (r.Addresses.foldl (fun all e => GoMap.assign all e.1 ()) all)
    obtain ⟨j1, j2⟩ := addAll_keys r.Addresses all
    refine ⟨fun h => i1 (j1 h), ?_⟩
    intro a
    rw [List.foldl_cons, i2, j2]
    simp only [List.mem_cons, exists_eq_or_imp]
    tauto

/-- What `WaitForCandidateResults` returns when exactly the expected number of
results arrive and none is an error. -/
theorem WaitForCandidateResults_union (chan : List CandidatesResult) (n : Nat)
    (hlen : chan.length = n) (hok : ∀ r ∈ chan, r.err = none) :
    WaitForCandidateResults chan (n : Int) =
      some ⟨chan.foldl
        (fun all r => r.Addresses.foldl (fun all e => GoMap.assign all e.1 ()) all) [], none⟩ := by
  unfold WaitForCandidateResults
  simp only [Int.toNat_ofNat]
  rw [if_neg (by omega)]
  have h1 : chan.take n = chan := List.take_of_length_le (by omega)
  have h2 : List.find? (fun r => r.err.isSome) chan = none := by
    rw [List.find?_eq_none]
    intro r hr
    simp [hok r hr]
  simp only [h1, h2]

/-- The shape of a `Scan` call that returns. -/
theorem Scan_returns (maxFanOut : Nat) (s : CandidateScanner) (arrival : RangeOrder) (fuel : Nat)
    (blocks : BlockRange) (r : CandidatesResult)
    (h : Scan maxFanOut s arrival fuel blocks = some (Outcome.ret r)) :
    ¬ 2 ^ 63 ≤ channelCapacity blocks ∧
    ∃ spawned results, dispatch blocks.End fuel blocks.Start [] = ⟨true, spawned⟩ ∧
      spawned.map (scanBlock s) = results.map Outcome.ret ∧
      WaitForCandidateResults (arrival.visit results) (toInt64 (channelCapacity blocks)) = some r := by
  unfold Scan at h
  cases hm : makeChanPanics maxFanOut (channelCapacity blocks) with
  | true =>
    rw [hm, if_pos rfl] at h
    simp at h
  | false =>
    rw [hm, if_neg (by simp)] at h
    have hc : ¬ 2 ^ 63 ≤ channelCapacity blocks := by
      unfold makeChanPanics at hm
      simp only [Bool.or_eq_false_iff, decide_eq_false_iff_not] at hm
      exact hm.1
    refine ⟨hc, ?_⟩
    cases hd : dispatch blocks.End fuel blocks.Start [] with
    | mk fin spawned =>
      cases fin with
      | false => simp [hd] at h
      | true =>
        simp only [hd] at h
        cases ht : taskResults (spawned.map (scanBlock s)) with
        | panic => simp [ht] at h
        | ret results =>
          simp only [ht] at h
          cases hw : WaitForCandidateResults (arrival.visit results)
              (toInt64 (channelCapacity blocks)) with
          | none => simp [hw] at h
          | some r' =>
            simp only [hw, Option.some.injEq, Outcome.ret.injEq] at h
            subst h
            exact ⟨spawned, results, rfl, (taskResults_ret _ _).1 ht, hw⟩

/-- The candidates of a returning `Scan` over a range whose heights all succeed. -/
theorem Scan_candidates (maxFanOut : Nat) (s : CandidateScanner) (blocks : BlockRange)
    (hEndU : blocks.End < 2 ^ 64) (hrange : blocks.Start ≤ blocks.End)
    (hsucc : ∀ h, blocks.Start ≤ h → h ≤ blocks.End →
      ∃ S, scanBlock s h = Outcome.ret ⟨S, none⟩)
    (arrival : RangeOrder) (fuel : Nat) (r : CandidatesResult)
    (hr : Scan maxFanOut s arrival fuel blocks = some (Outcome.ret r)) :
    r.err = none ∧
    (∀ a, a ∈ GoMap.keys r.Addresses ↔
      ∃ h, blocks.Start ≤ h ∧ h ≤ blocks.End ∧
        ∃ r', scanBlock s h = Outcome.ret r' ∧ a ∈ GoMap.keys r'.Addresses) ∧
    (GoMap.keys r.Addresses).Nodup := by
  obtain ⟨hc, spawned, results, hd, hm, hw⟩ := Scan_returns maxFanOut s arrival fuel blocks r hr
  have hEnd : blocks.End + 1 < 2 ^ 64 := by
    by_contra hcon
    have := dispatch_never_ends blocks.End (by omega) fuel blocks.Start [] (by omega)
    rw [hd] at this
    simp at this
  have hsp := dispatch_finished blocks.End hEnd fuel blocks.Start [] spawned (by omega) hd
  rw [List.nil_append] at hsp
  have hmem : ∀ h, h ∈ spawned ↔ blocks.Start ≤ h ∧ h ≤ blocks.End := by
    intro h
    rw [hsp, List.mem_range'_1]
    omega
  have hcap := channelCapacity_exact blocks hrange hEnd
  have hlen : results.length = blocks.End - blocks.Start + 1 := by
    have := congrArg List.length hm
    simp only [List.length_map] at this
    rw [← this, hsp, List.length_range']
    omega
  have hres : ∀ r', r' ∈ results ↔ ∃ h ∈ spawned, scanBlock s h = Outcome.ret r' := by
    intro r'
    have h1 : Outcome.ret r' ∈ results.map Outcome.ret ↔ r' ∈ results := by
      simp [List.mem_map]
    rw [← h1, ← hm, List.mem_map]
  have hint : toInt64 (channelCapacity blocks) = ((blocks.End - blocks.Start + 1 : Nat) : Int) := by
    rw [hcap] at hc ⊢
    unfold toInt64
    rw [Nat.mod_eq_of_lt (by omega), if_pos (by omega)]
  have hvis := arrival.perm results
  rw [hint, WaitForCandidateResults_union _ _ (by rw [hvis.length_eq, hlen]) (by
    intro r' hr'
    obtain ⟨h, hh, hs⟩ := (hres r').1 (hvis.mem_iff.1 hr')
    obtain ⟨S, hS⟩ := hsucc h ((hmem h).1 hh).1 ((hmem h).1 hh).2
    rw [hS] at hs
    simp only [Outcome.ret.injEq] at hs
    rw [← hs])] at hw
  simp only [Option.some.injEq] at hw
  subst hw
  obtain ⟨u1, u2⟩ := union_keys (arrival.visit results) []
  refine ⟨rfl, ?_, u1 (by simp [GoMap.keys])⟩
  intro a
  rw [u2]
  simp only [GoMap.keys, List.map_nil, List.not_mem_nil, false_or]
  constructor
  · rintro ⟨r', hr', ha⟩
    obtain ⟨h, hh, hs⟩ := (hres r').1 (hvis.mem_iff.1 hr')
    exact ⟨h, ((hmem h).1 hh).1, ((hmem h).1 hh).2, r', hs, ha⟩
  · rintro ⟨h, h1, h2, r', hs, ha⟩
    exact ⟨r', hvis.mem_iff.2 ((hres r').2 ⟨h, (hmem h).2 ⟨h1, h2⟩, hs⟩), ha⟩

/-- With enough iterations allowed, `Scan` over a range that the runtime can serve and
whose heights all succeed returns. -/
theorem Scan_total (maxFanOut : Nat) (s : CandidateScanner) (blocks : BlockRange)
    (hrange : blocks.Start ≤ blocks.End) (hEnd : blocks.End + 1 < 2 ^ 64)
    (hcap : blocks.End - blocks.Start + 1 ≤ maxFanOut)
    (hcard : blocks.End - blocks.Start + 1 < 2 ^ 63)
    (hsucc : ∀ h, blocks.Start ≤ h → h ≤ blocks.End →
      ∃ S, scanBlock s h = Outcome.ret ⟨S, none⟩)
    (arrival : RangeOrder) (fuel : Nat) (hfuel : blocks.End - blocks.Start + 1 ≤ fuel) :
    ∃ r, Scan maxFanOut s arrival fuel blocks = some (Outcome.ret r) := by
  have hcc := channelCapacity_exact blocks hrange hEnd
  have hd := dispatch_run blocks.End hEnd fuel blocks.Start [] (by omega) (by omega)
  rw [List.nil_append] at hd
  have hall : ∀ (hs : List Nat), (∀ h ∈ hs, blocks.Start ≤ h ∧ h ≤ blocks.End) →
      ∃ results, taskResults (hs.map (scanBlock s)) = Outcome.ret results ∧
        results.length = hs.length ∧ ∀ r ∈ results, r.err = none := by
    intro hs
    induction hs with
    | nil => intro _; exact ⟨[], rfl, rfl, by simp⟩
    | cons h hs ih =>
      intro hin
      obtain ⟨S, hS⟩ := hsucc h (hin h (List.mem_cons_self _ _)).1 (hin h (List.mem_cons_self _ _)).2
      obtain ⟨rs, h1, h2, h3⟩ := ih (fun h' hh' => hin h' (List.mem_cons_of_mem _ hh'))
      refine ⟨⟨S, none⟩ :: rs, ?_, by simp [h2], ?_⟩
      · simp only [List.map_cons, hS, taskResults, h1]
      · intro r hr
        rcases List.mem_cons.1 hr with hr | hr
        · rw [hr]
        · exact h3 r hr
  obtain ⟨results, ht, hlen, herr⟩ := hall (List.range' blocks.Start (blocks.End + 1 - blocks.Start))
    (by intro h hh; rw [List.mem_range'_1] at hh; omega)
  rw [List.length_range'] at hlen
  have hint : toInt64 (channelCapacity blocks) = ((blocks.End - blocks.Start + 1 : Nat) : Int) := by
    rw [hcc]
    unfold toInt64
    rw [Nat.mod_eq_of_lt (by omega), if_pos hcard]
  have hvis := arrival.perm results
  have hw := WaitForCandidateResults_union (arrival.visit results) (blocks.End - blocks.Start + 1)
    (by rw [hvis.length_eq, hlen]; omega) (fun r hr => herr r (hvis.mem_iff.1 hr))
  refine ⟨⟨(arrival.visit results).foldl
    (fun all r => r.Addresses.foldl (fun all e => GoMap.assign all e.1 ()) all) [], none⟩, ?_⟩
  have hmk : makeChanPanics maxFanOut (channelCapacity blocks) = false := by
    rw [hcc]
    exact makeChanPanics_false _ _ hcap hcard
  unfold Scan
  rw [hmk, if_neg (by simp), hd]
  simp only [ht, hint, hw]

/-- C8 (amended): for every block range `[Start, End]` with `Start ≤ End`, `End` below the
largest `uint64` and a number of heights that the runtime can serve (at most
`maxFanOut`) and that is below `2^63`, in which every per-height `scanBlock`
succeeds: `Scan` returns (once the dispatch loop has run one iteration per
height) a candidate set without error that holds an address iff `scanBlock`
yields it at some height `h` with `Start ≤ h ≤ End`, each address once; every
result `Scan` returns is of that kind; and two arrival orders of the per-height
results give the same set. -/
theorem Scan_union (maxFanOut : Nat) (s : CandidateScanner) (blocks : BlockRange)
    (hrange : blocks.Start ≤ blocks.End) (hEnd : blocks.End + 1 < 2 ^ 64)
    (hcap : blocks.End - blocks.Start + 1 ≤ maxFanOut)
    (hcard : blocks.End - blocks.Start + 1 < 2 ^ 63)
    (hsucc : ∀ h, blocks.Start ≤ h → h ≤ blocks.End →
      ∃ S, scanBlock s h = Outcome.ret ⟨S, none⟩) :
    (∀ (arrival : RangeOrder) (fuel : Nat), blocks.End - blocks.Start + 1 ≤ fuel →
      ∃ r, Scan maxFanOut s arrival fuel blocks = some (Outcome.ret r) ∧
        r.err = none ∧
        (∀ a, a ∈ GoMap.keys r.Addresses ↔
          ∃ h, blocks.Start ≤ h ∧ h ≤ blocks.End ∧
            ∃ r', scanBlock s h = Outcome.ret r' ∧ a ∈ GoMap.keys r'.Addresses) ∧
        (GoMap.keys r.Addresses).Nodup) ∧
    (∀ (arrival : RangeOrder) (fuel : Nat) (r : CandidatesResult),
      Scan maxFanOut s arrival fuel blocks = some (Outcome.ret r) →
      r.err = none ∧
      (∀ a, a ∈ GoMap.keys r.Addresses ↔
        ∃ h, blocks.Start ≤ h ∧ h ≤ blocks.End ∧
          ∃ r', scanBlock s h = Outcome.ret r' ∧ a ∈ GoMap.keys r'.Addresses) ∧
      (GoMap.keys r.Addresses).Nodup) ∧
    (∀ (arrival₁ arrival₂ : RangeOrder) (fuel₁ fuel₂ : Nat) (r₁ r₂ : CandidatesResult),
      Scan maxFanOut s arrival₁ fuel₁ blocks = some (Outcome.ret r₁) →
      Scan maxFanOut s arrival₂ fuel₂ blocks = some (Outcome.ret r₂) →
      List.Perm (GoMap.keys r₁.Addresses) (GoMap.keys r₂.Addresses)) := by
  have hEndU : blocks.End < 2 ^ 64 := by omega
  refine ⟨?_, ?_, ?_⟩
  · intro arrival fuel hfuel
    obtain ⟨r, hr⟩ := Scan_total maxFanOut s blocks hrange hEnd hcap hcard hsucc arrival fuel hfuel
    exact ⟨r, hr, Scan_candidates maxFanOut s blocks hEndU hrange hsucc arrival fuel r hr⟩
  · intro arrival fuel r hr
    exact Scan_candidates maxFanOut s blocks hEndU hrange hsucc arrival fuel r hr
  · intro arrival₁ arrival₂ fuel₁ fuel₂ r₁ r₂ h₁ h₂
    obtain ⟨_, a1, n1⟩ := Scan_candidates maxFanOut s blocks hEndU hrange hsucc arrival₁ fuel₁ r₁ h₁
    obtain ⟨_, a2, n2⟩ := Scan_candidates maxFanOut s blocks hEndU hrange hsucc arrival₂ fuel₂ r₂ h₂
    refine (List.perm_ext_iff_of_nodup n1 n2).2 ?_
    intro a
    rw [a1, a2]

/-- Witness for C8: heights 3 to 5; height 3 touches `A` and `B`, heights 4 and 5 touch
`C` and `A`.  Whether the results arrive in order or in reverse, `Scan` returns
the three addresses, each once. -/
theorem Scan_union_witness :
    (∃ r, Scan maxFanOutExample scannerByHeight RangeOrder.backward 3 ⟨3, 5⟩ =
      some (Outcome.ret r) ∧ r.err = none ∧ (GoMap.keys r.Addresses).Nodup) ∧
    Scan maxFanOutExample scannerByHeight RangeOrder.forward 3 ⟨3, 5⟩ =
      some (Outcome.ret ⟨[(addrA, ()), (addrB, ()), (addrC, ())], none⟩) ∧
    Scan maxFanOutExample scannerByHeight RangeOrder.backward 3 ⟨3, 5⟩ =
      some (Outcome.ret ⟨[(addrC, ()), (addrA, ()), (addrB, ())], none⟩) ∧
    List.Perm [addrA, addrB, addrC] [addrC, addrA, addrB] := by
  have hsucc : ∀ h, 3 ≤ h → h ≤ 5 → ∃ S, scanBlock scannerByHeight h = Outcome.ret ⟨S, none⟩ := by
    intro h h1 h2
    interval_cases h <;> exact ⟨_, rfl⟩
  have h := Scan_union maxFanOutExample scannerByHeight ⟨3, 5⟩ (by decide) (by decide)
    (by decide) (by decide) hsucc
  obtain ⟨r, hr, he, _, hn⟩ := h.1 RangeOrder.backward 3 (by decide)
  exact ⟨⟨r, hr, he, hn⟩, rfl, rfl,
    h.2.2 RangeOrder.forward RangeOrder.backward 3 3 _ _ rfl rfl⟩

/-- Counterexample to C8 as stated: `scannerAB` succeeds at every height with the
candidates `A` and `B`, yet over the range `[2^64 - 1, 2^64 - 1]` the dispatch
loop wraps and `Scan` never returns a candidate set, however many iterations
it is given; and over the `2^45` heights `[0, 2^45 - 1]`, more than the runtime
of `maxFanOutExample` serves, `make` ends the program before a height is
scanned. -/
theorem Scan_succeeding_heights_no_set :
    (∀ h, scanBlock scannerAB h = Outcome.ret ⟨[(addrA, ()), (addrB, ())], none⟩) ∧
    (18446744073709551615 : Nat) ≤ 18446744073709551615 ∧
    (∀ maxFanOut arrival fuel r,
      Scan maxFanOut scannerAB arrival fuel ⟨18446744073709551615, 18446744073709551615⟩ ≠
        some (Outcome.ret r)) ∧
    (∀ arrival fuel,
      Scan maxFanOutExample scannerAB arrival fuel
        ⟨18446744073709551615, 18446744073709551615⟩ = none) ∧
    (∀ arrival fuel,
      Scan maxFanOutExample scannerAB arrival fuel ⟨0, 35184372088831⟩ = some Outcome.panic) := by
  refine ⟨fun h => rfl, by decide, ?_, ?_, ?_⟩
  · intro maxFanOut arrival fuel r
    exact Scan_max_height maxFanOut scannerAB arrival fuel _ (by norm_num) r
  · intro arrival fuel
    have h := dispatch_never_ends 18446744073709551615 (by norm_num) fuel
      18446744073709551615 [] (by norm_num)
    unfold Scan
    rw [if_neg (by decide)]
    cases hd : dispatch 18446744073709551615 fuel 18446744073709551615 [] with
    | mk fin sp =>
      rw [hd] at h
      simp only at h
      subst h
      rfl
  · intro arrival fuel
    unfold Scan
    rw [if_pos (by decide)]


/-! ## Totality of the extraction loop -/

/-- The payload loop panics only at a payload whose key decodes to no key parts. -/
theorem scanPayloads_panic (n : Nat) (ps : List Payload) (S : GoMap Unit)
    (h : scanPayloads n ps S = Outcome.panic) :
    ∃ p ∈ ps, ∃ k, p.Key = Except.ok k ∧ k.KeyParts = [] := by
  induction ps generalizing S with
  | nil => simp [scanPayloads] at h
  | cons p ps ih =>
    unfold scanPayloads at h
    cases hk : p.Key with
    | error e => simp [hk] at h
    | ok key =>
      simp only [hk] at h
      cases hp : key.KeyParts with
      | nil => exact ⟨p, List.mem_cons_self _ _, key, hk, hp⟩
      | cons part parts =>
        simp only [hp] at h
        have step : ∀ T, scanPayloads n ps T = Outcome.panic →
            ∃ q ∈ p :: ps, ∃ k, q.Key = Except.ok k ∧ k.KeyParts = [] := by
          intro T hT
          obtain ⟨q, hq, k, h1, h2⟩ := ih T hT
          exact ⟨q, List.mem_cons_of_mem _ hq, k, h1, h2⟩
        split at h
        · exact step _ h
        · exact step _ h

/-- The extraction loop panics only at a payload whose key decodes to no key parts. -/
theorem scanUpdates_panic (n : Nat) (updates : List TrieUpdate) (S : GoMap Unit)
    (h : scanUpdates n updates S = Outcome.panic) :
    ∃ u ∈ updates, ∃ p ∈ u.Payloads, ∃ k, p.Key = Except.ok k ∧ k.KeyParts = [] := by
  induction updates generalizing S with
  | nil => simp [scanUpdates] at h
  | cons u updates ih =>
    unfold scanUpdates at h
    cases hp : scanPayloads n u.Payloads S with
    | panic =>
      obtain ⟨p, hpm, k, h1, h2⟩ := scanPayloads_panic n _ _ hp
      exact ⟨u, List.mem_cons_self _ _, p, hpm, k, h1, h2⟩
    | ret y =>
      cases y with
      | error e => simp [hp] at h
      | ok S₁ =>
        simp only [hp] at h
        obtain ⟨u', hu', p, hpm, k, h1, h2⟩ := ih S₁ h
        exact ⟨u', List.mem_cons_of_mem _ hu', p, hpm, k, h1, h2⟩

/-- When every key that decodes has a first component, the extraction loop ends in a
candidate set or in an error. -/
theorem scanUpdates_returns (n : Nat) (updates : List TrieUpdate) (S : GoMap Unit)
    (hk : ∀ u ∈ updates, ∀ p ∈ u.Payloads, ∀ k, p.Key = Except.ok k → k.KeyParts ≠ []) :
    ∃ r, scanUpdates n updates S = Outcome.ret r := by
  cases h : scanUpdates n updates S with
  | ret r => exact ⟨r, rfl⟩
  | panic =>
    obtain ⟨u, hu, p, hp, k, h1, h2⟩ := scanUpdates_panic n updates S h
    exact absurd h2 (hk u hu p hp k h1)

/-- A payload whose key has no parts, reached without an earlier `Key()` error, makes
the extraction loop panic whatever was collected before. -/
theorem scanPayloads_no_parts (n : Nat) (p : Payload) (ps : List Payload) (S : GoMap Unit)
    (hp : p.Key = Except.ok ⟨[]⟩) : scanPayloads n (p :: ps) S = Outcome.panic := by
  unfold scanPayloads
  simp [hp]

/-- C11 (code at the failing input): two trie updates, the first with a payload for `B`,
the second with a payload whose `Key()` returns a key without key parts and no
error.  Every `Key()` returns without error, yet reading `KeyParts[0]` of the
second key is out of range: the extraction loop panics and `scanBlock` ends in
neither a candidate set nor an error result. -/
theorem scanBlock_extraction_panics :
    (∀ u ∈ updatesNoParts, ∀ p ∈ u.Payloads, ∃ k, p.Key = Except.ok k) ∧
    payloadNoParts.Key = Except.ok ⟨[]⟩ ∧
    extractTrieUpdates (some ⟨[⟨Except.ok (some ⟨[payloadOf addrB]⟩)⟩,
      ⟨Except.ok (some ⟨[payloadNoParts]⟩)⟩]⟩) = Except.ok updatesNoParts ∧
    scanPayloads 8 [payloadOf addrB] [] = Outcome.ret (Except.ok [(addrB, ())]) ∧
    scanPayloads 8 [payloadNoParts] [(addrB, ())] = Outcome.panic ∧
    scanUpdates 8 updatesNoParts [] = Outcome.panic ∧
    scanExtracted 8 updatesNoParts = Outcome.panic ∧
    scanBlock scannerTwoChunks 7 = Outcome.panic ∧
    ¬ ∃ r, scanBlock scannerTwoChunks 7 = Outcome.ret r := by
  refine ⟨?_, rfl, rfl, rfl, rfl, rfl, rfl, rfl, ?_⟩
  · intro u hu p hp
    simp only [updatesNoParts, List.mem_cons, List.mem_singleton, List.not_mem_nil, or_false] at hu
    rcases hu with rfl | rfl
    · simp only [List.mem_singleton] at hp
      subst hp
      exact ⟨_, rfl⟩
    · simp only [List.mem_singleton] at hp
      subst hp
      exact ⟨_, rfl⟩
  · rintro ⟨r, hr⟩
    have h : scanBlock scannerTwoChunks 7 = Outcome.panic := rfl
    rw [h] at hr
    exact absurd hr (by simp)

end FlowStorageTracker
